import Mathlib

/-!
# Virter VM lifecycle: shallow embedding of `internal/virter/vm.go`

The Go methods on `*Virter` talk to a hypervisor through `v.libvirt`.  Here the
hypervisor is an explicit state `Hv`; every method becomes a function
`Hv → Run α` that returns the outcome, the hypervisor state it leaves behind and
the list of calls it issued (with, for each call, whether it returned an error).
Remote shell sessions are given by the outcomes of their dials and commands, and
the naming loop of `cmd/vm_run.go` is a function of the flags.
-/

namespace Virter

/-! ## Calls, errors, outcomes -/

/-- What `runSSHCommand` does on its remote shell session, in order: the dial
that connected, the execution of the script, the end of each of the two
`logLines` goroutines (its stream is drained), the deferred `Close`. -/
inductive ShellEv where
  | connected (attempt : Nat)
  | execScript
  | drainedStdout
  | drainedStderr
  | closed
  deriving DecidableEq, Repr

/-- The calls the code of `vm.go` issues against its collaborators: the methods
of `v.libvirt`, and the helpers of `*Virter` that live in other files
(`addDHCPEntry`, `rmDHCPEntry`, `getVMID`, `createCIData`, `getMAC`, `findIPs`, the
XML renderers)
or outside the process (`ssh.ParsePrivateKey`, `Dial`, and what is done on
the remote shell session to the address `ip`). -/
inductive Call where
  | StoragePoolLookupByName
  | StorageVolLookupByName (vol : String)
  | StorageVolGetPath (vol : String)
  | StorageVolGetInfo (vol : String)
  | StorageVolCreateXML (vol : String)
  | StorageVolDelete (vol : String)
  | DomainLookupByName (dom : String)
  | DomainDefineXML (dom : String)
  | DomainGetXMLDesc (dom : String)
  | DomainCreate (dom : String)
  | DomainIsActive (dom : String)
  | DomainIsPersistent (dom : String)
  | DomainDestroy (dom : String)
  | DomainUndefine (dom : String)
  | DomainShutdown (dom : String)
  | DomainListAllSnapshots (dom : String)
  | DomainSnapshotDelete (dom : String) (snap : String)
  | LifecycleEvents
  | addDHCPEntry (mac : Nat) (id : Nat)
  | rmDHCPEntry (dom : String)
  | getVMID (id : Nat)
  | vmVolumeXML (vol : String)
  | diskVolumeXML (vol : String)
  | vmXML (dom : String)
  | ParsePrivateKey
  | Dial
  | NetworkLookupByName
  | getMAC (dom : String)
  | findIPs (mac : Nat)
  | session (ip : Nat) (ev : ShellEv)
  deriving DecidableEq, Repr

/-- The calls that change hypervisor or network state, or ask the guest to. -/
def Call.mutating : Call → Bool
  | .StorageVolCreateXML _ => true
  | .StorageVolDelete _ => true
  | .DomainDefineXML _ => true
  | .DomainCreate _ => true
  | .DomainDestroy _ => true
  | .DomainUndefine _ => true
  | .DomainShutdown _ => true
  | .DomainSnapshotDelete _ _ => true
  | .addDHCPEntry _ _ => true
  | .rmDHCPEntry _ => true
  | _ => false

/-- Error numbers of the hypervisor protocol that the code tests for. -/
inductive ErrorNumber where
  | errNoDomain
  | errNoStorageVol
  | errOperationInvalid
  | errStorageVolExist
  | errNoDomainSnapshot
  deriving DecidableEq, Repr

/-- Go `error` values: a hypervisor error with its code, the failure of a call
for any other reason, `fmt.Errorf` without and with a wrapped cause. -/
inductive Err where
  | libvirt (code : ErrorNumber)
  | rpc (c : Call)
  | msg (text : String)
  | wrap (text : String) (cause : Err)
  deriving DecidableEq, Repr

/-- One entry of the call log: the call and whether it returned a nil error. -/
structure Ev where
  call : Call
  ok : Bool
  deriving DecidableEq, Repr

/-- Outcome of a method: a value, an error, or `hang` when the method blocks
forever (a `select` none of whose channels ever becomes ready). -/
inductive Result (α : Type) where
  | ok (a : α)
  | error (e : Err)
  | hang
  deriving DecidableEq, Repr

/-! ## Hypervisor state -/

/-- The Go handle `libvirt.Domain`: name and identity. -/
structure Domain where
  Name : String
  ID : Int
  deriving DecidableEq, Repr

/-- What the hypervisor knows about one domain. -/
structure DomainState where
  Name : String
  ID : Int
  mac : Nat
  active : Bool
  persistent : Bool
  disks : List String
  snapshots : List String
  deriving DecidableEq, Repr

/-- A volume of the storage pool. -/
structure StorageVol where
  Name : String
  capacity : Nat
  deriving DecidableEq, Repr

/-- A DHCP host reservation of the network: the lease of one VM. -/
structure DHCPHost where
  mac : Nat
  id : Nat
  deriving DecidableEq, Repr

/-- Modelled from the spec: the hypervisor client is an external collaborator
(spec section 6); its state is the domains, the volumes of the one storage pool
and the DHCP host entries of the one network.  `nextMAC` and `nextID` are what
the hypervisor assigns to the next defined domain; `faults` are the calls that
fail for a reason outside the model (connection lost, permission, ...). -/
structure Hv where
  domains : List DomainState
  vols : List StorageVol
  hosts : List DHCPHost
  nextMAC : Nat
  nextID : Int
  faults : List Call
  deriving DecidableEq, Repr

/-- What a method leaves behind: outcome, state, calls issued in order. -/
structure Run (α : Type) where
  res : Result α
  st : Hv
  tr : List Ev
  deriving Repr

/-- A method of `*Virter`. -/
def Op (α : Type) : Type := Hv → Run α

/-- Go `return x, nil`. -/
def Op.pure {α : Type} (a : α) : Op α := fun s => ⟨.ok a, s, []⟩

/-- Sequencing with Go `if err != nil { return err }` after the first part. -/
def Op.bind {α β : Type} (m : Op α) (f : α → Op β) : Op β := fun s =>
  match m s with
  | ⟨.ok a, s1, t1⟩ =>
    match f a s1 with
    | ⟨r, s2, t2⟩ => ⟨r, s2, t1 ++ t2⟩
  | ⟨.error e, s1, t1⟩ => ⟨.error e, s1, t1⟩
  | ⟨.hang, s1, t1⟩ => ⟨.hang, s1, t1⟩

instance : Monad Op where
  pure := Op.pure
  bind := Op.bind

/-- Go `return err`. -/
def fail {α : Type} (e : Err) : Op α := fun s => ⟨.error e, s, []⟩

/-- A `select` that never becomes ready. -/
def hang {α : Type} : Op α := fun s => ⟨.hang, s, []⟩

/-- Go `x, err := f()`: the error becomes a value the caller inspects. -/
def attempt {α : Type} (m : Op α) : Op (Except Err α) := fun s =>
  match m s with
  | ⟨.ok a, s1, t⟩ => ⟨.ok (.ok a), s1, t⟩
  | ⟨.error e, s1, t⟩ => ⟨.ok (.error e), s1, t⟩
  | ⟨.hang, s1, t⟩ => ⟨.hang, s1, t⟩

/-- Go `if err != nil { return fmt.Errorf(text + ": %w", err) }`. -/
def wrapErr {α : Type} (text : String) (m : Op α) : Op α := fun s =>
  match m s with
  | ⟨.error e, s1, t⟩ => ⟨.error (.wrap text e), s1, t⟩
  | r => r

/-- Modelled from the spec: `hasErrorCode` is not in src; it tells whether an
error is a hypervisor error carrying the given code (false for nil). -/
def hasErrorCode {α : Type} (err : Except Err α) (code : ErrorNumber) : Bool :=
  match err with
  | .error (.libvirt c) => decide (c = code)
  | _ => false

/-- One call against a collaborator: it fails when listed in `faults`, otherwise
the hypervisor decides; either way it is logged. -/
def call {α : Type} (c : Call) (f : Hv → Except Err α × Hv) : Op α := fun s =>
  if c ∈ s.faults then ⟨.error (.rpc c), s, [⟨c, false⟩]⟩
  else
    match f s with
    | (.ok a, s1) => ⟨.ok a, s1, [⟨c, true⟩]⟩
    | (.error e, s1) => ⟨.error e, s1, [⟨c, false⟩]⟩

/-- First domain of that name. -/
def Hv.findDomain (s : Hv) (name : String) : Option DomainState :=
  s.domains.find? (fun d => decide (d.Name = name))

/-- First volume of that name. -/
def Hv.findVol (s : Hv) (name : String) : Option StorageVol :=
  s.vols.find? (fun v => decide (v.Name = name))

/-- Apply `f` to the domains of that name; `none` removes the domain. -/
def Hv.updDomain (s : Hv) (name : String) (f : DomainState → Option DomainState) : Hv :=
  { s with
    domains := s.domains.filterMap (fun d => if d.Name = name then f d else some d) }

/-- The state without the volumes of that name. -/
def Hv.delVol (s : Hv) (name : String) : Hv :=
  { s with vols := s.vols.filter (fun v => decide (v.Name ≠ name)) }

/-- The state without the DHCP host entries of that MAC. -/
def Hv.delHosts (s : Hv) (mac : Nat) : Hv :=
  { s with hosts := s.hosts.filter (fun h => decide (h.mac ≠ mac)) }

/-! ## The hypervisor client

Modelled from the spec (section 6, Hypervisor Client): lookups fail with
`errNoDomain` / `errNoStorageVol` when the object is absent; destroying a
transient domain or undefining an inactive one removes it. -/

/-- Modelled from the spec: lookup of the single configured storage pool. -/
def StoragePoolLookupByName : Op Unit :=
  call .StoragePoolLookupByName fun s => (.ok (), s)

/-- Modelled from the spec: lookup of a volume by name; the handle is the name. -/
def StorageVolLookupByName (name : String) : Op String :=
  call (.StorageVolLookupByName name) fun s =>
    match s.findVol name with
    | some v => (.ok v.Name, s)
    | none => (.error (.libvirt .errNoStorageVol), s)

/-- Modelled from the spec: path of a volume. -/
def StorageVolGetPath (vol : String) : Op String :=
  call (.StorageVolGetPath vol) fun s =>
    match s.findVol vol with
    | some v => (.ok ("/pool/" ++ v.Name), s)
    | none => (.error (.libvirt .errNoStorageVol), s)

/-- Modelled from the spec: get-info of a volume; the capacity in bytes. -/
def StorageVolGetInfo (vol : String) : Op Nat :=
  call (.StorageVolGetInfo vol) fun s =>
    match s.findVol vol with
    | some v => (.ok v.capacity, s)
    | none => (.error (.libvirt .errNoStorageVol), s)

/-- Modelled from the spec: create a volume; refused when the name is taken. -/
def StorageVolCreateXML (name : String) (capacity : Nat) : Op String :=
  call (.StorageVolCreateXML name) fun s =>
    match s.findVol name with
    | some _ => (.error (.libvirt .errStorageVolExist), s)
    | none => (.ok name, { s with vols := s.vols ++ [⟨name, capacity⟩] })

/-- Modelled from the spec: delete a volume. -/
def StorageVolDelete (vol : String) : Op Unit :=
  call (.StorageVolDelete vol) fun s =>
    match s.findVol vol with
    | some _ => (.ok (), s.delVol vol)
    | none => (.error (.libvirt .errNoStorageVol), s)

/-- Modelled from the spec: lookup of a domain by name. -/
def DomainLookupByName (name : String) : Op Domain :=
  call (.DomainLookupByName name) fun s =>
    match s.findDomain name with
    | some d => (.ok ⟨d.Name, d.ID⟩, s)
    | none => (.error (.libvirt .errNoDomain), s)

/-- Modelled from the spec: read a domain's definition (disks, MAC). -/
def DomainGetXMLDesc (domain : Domain) : Op DomainState :=
  call (.DomainGetXMLDesc domain.Name) fun s =>
    match s.findDomain domain.Name with
    | some d => (.ok d, s)
    | none => (.error (.libvirt .errNoDomain), s)

/-- Modelled from the spec: read the active flag (Go `int32`, non-zero = active). -/
def DomainIsActive (domain : Domain) : Op Int :=
  call (.DomainIsActive domain.Name) fun s =>
    match s.findDomain domain.Name with
    | some d => (.ok (if d.active then 1 else 0), s)
    | none => (.error (.libvirt .errNoDomain), s)

/-- Modelled from the spec: read the persistent flag. -/
def DomainIsPersistent (domain : Domain) : Op Int :=
  call (.DomainIsPersistent domain.Name) fun s =>
    match s.findDomain domain.Name with
    | some d => (.ok (if d.persistent then 1 else 0), s)
    | none => (.error (.libvirt .errNoDomain), s)

/-- Modelled from the spec: define a persistent, inactive domain; the
hypervisor assigns its MAC and identity. -/
def DomainDefineXML (name : String) (disks : List String) : Op Domain :=
  call (.DomainDefineXML name) fun s =>
    match s.findDomain name with
    | some _ => (.error (.libvirt .errOperationInvalid), s)
    | none =>
      (.ok ⟨name, s.nextID⟩,
        { s with
          domains := s.domains ++ [⟨name, s.nextID, s.nextMAC, false, true, disks, []⟩]
          nextMAC := s.nextMAC + 1
          nextID := s.nextID + 1 })

/-- Modelled from the spec: start a domain. -/
def DomainCreate (domain : Domain) : Op Unit :=
  call (.DomainCreate domain.Name) fun s =>
    match s.findDomain domain.Name with
    | some d =>
      if d.active then (.error (.libvirt .errOperationInvalid), s)
      else (.ok (), s.updDomain domain.Name (fun d => some { d with active := true }))
    | none => (.error (.libvirt .errNoDomain), s)

/-- Modelled from the spec: force-stop a domain; a transient one disappears. -/
def DomainDestroy (domain : Domain) : Op Unit :=
  call (.DomainDestroy domain.Name) fun s =>
    match s.findDomain domain.Name with
    | some d =>
      if d.active then
        (.ok (), s.updDomain domain.Name
          (fun d => if d.persistent then some { d with active := false } else none))
      else (.error (.libvirt .errOperationInvalid), s)
    | none => (.error (.libvirt .errNoDomain), s)

/-- Modelled from the spec: undefine a domain; an inactive one disappears, an
active one becomes transient. -/
def DomainUndefine (domain : Domain) : Op Unit :=
  call (.DomainUndefine domain.Name) fun s =>
    match s.findDomain domain.Name with
    | some d =>
      if d.persistent then
        (.ok (), s.updDomain domain.Name
          (fun d => if d.active then some { d with persistent := false } else none))
      else (.error (.libvirt .errOperationInvalid), s)
    | none => (.error (.libvirt .errNoDomain), s)

/-- Modelled from the spec: ask the guest to shut down (section 4.3, `Active →
ShutdownRequested`); the guest stops later, and the stop is recorded when its
lifecycle event is delivered (`Hv.deliver`). -/
def DomainShutdown (domain : Domain) : Op Unit :=
  call (.DomainShutdown domain.Name) fun s =>
    match s.findDomain domain.Name with
    | some d =>
      if d.active then (.ok (), s) else (.error (.libvirt .errOperationInvalid), s)
    | none => (.error (.libvirt .errNoDomain), s)

/-- Modelled from the spec: list the snapshots of a domain. -/
def DomainListAllSnapshots (domain : Domain) : Op (List String) :=
  call (.DomainListAllSnapshots domain.Name) fun s =>
    match s.findDomain domain.Name with
    | some d => (.ok d.snapshots, s)
    | none => (.error (.libvirt .errNoDomain), s)

/-- Modelled from the spec: delete one snapshot of a domain. -/
def DomainSnapshotDelete (domain : Domain) (snapshot : String) : Op Unit :=
  call (.DomainSnapshotDelete domain.Name snapshot) fun s =>
    match s.findDomain domain.Name with
    | some d =>
      if snapshot ∈ d.snapshots then
        (.ok (), s.updDomain domain.Name
          (fun d => some { d with snapshots := d.snapshots.erase snapshot }))
      else (.error (.libvirt .errNoDomainSnapshot), s)
    | none => (.error (.libvirt .errNoDomain), s)

/-- Modelled from the spec: subscribe to the lifecycle event stream. -/
def LifecycleEvents : Op Unit :=
  call .LifecycleEvents fun s => (.ok (), s)

/-! ## Helpers of `*Virter` that live outside `vm.go` -/

/-- A lifecycle event: the domain it is about and its kind (Go `int32`). -/
structure DomainEventLifecycleMsg where
  Dom : Domain
  Event : Int
  deriving DecidableEq, Repr

/-- The event kind "stopped" of the hypervisor protocol. -/
def DomainEventStopped : Int := 5

/-- What a `select` over the event channel and the timer channel receives. -/
inductive Sel where
  | event (e : DomainEventLifecycleMsg)
  | timeout
  deriving DecidableEq, Repr

/-- An extra disk of a VM (the Go interface `Disk`: `GetName`, `GetSizeKiB`,
`GetFormat`, `GetBus`). -/
structure Disk where
  name : String
  sizeKiB : Nat
  format : String
  bus : String
  deriving DecidableEq, Repr

/-- The fields of `VMConfig` that `vm.go` reads; `BootCapacityKiB` is a Go
`uint64`, `ID` a Go `uint`. -/
structure VMConfig where
  ImageName : String
  Name : String
  MemoryKiB : Nat
  BootCapacityKiB : Nat
  VCPUs : Nat
  ID : Nat
  WaitSSH : Bool
  SSHPingCount : Nat
  Disks : List Disk
  deriving DecidableEq, Repr

/-- The constant `unit.K` of package `rck/unit`. -/
def unitK : Nat := 1024

/-- The constant `unit.G` of package `rck/unit`. -/
def unitG : Nat := 1024 * 1024 * 1024

/-- Modelled from the spec: `ciDataVolumeName` is not in src; the cloud-init
volume of a VM has a name derived from the VM name. -/
def ciDataVolumeName (vmName : String) : String :=
  vmName ++ "-cidata"

/-- Modelled from the spec: `CheckVMConfig` is not in src; static validation
of the specification, here that disk names are unique within the VM. -/
def CheckVMConfig (vmConfig : VMConfig) : Op VMConfig :=
  if (vmConfig.Disks.map (fun d => d.name)).Nodup then pure vmConfig
  else fail (.msg "invalid VM configuration")

/-- Modelled from the spec: `getVMID` is not in src; a caller-supplied identity
is used as is, identity 0 resolves to the lowest identity no lease uses. -/
def getVMID (wantedID : Nat) : Op Nat :=
  call (.getVMID wantedID) fun s =>
    if wantedID ≠ 0 then (.ok wantedID, s)
    else
      match (List.range (s.hosts.length + 2)).find?
          (fun i => decide (i ≠ 0 ∧ i ∉ s.hosts.map (fun h => h.id))) with
      | some i => (.ok i, s)
      | none => (.error (.msg "no free id"), s)

/-- Modelled from the spec: `addDHCPEntry` is not in src; it registers the
lease (mac, id) as a DHCP host entry and returns the address, which is
determined by the identity. -/
def addDHCPEntry (mac : Nat) (id : Nat) : Op Nat :=
  call (.addDHCPEntry mac id) fun s =>
    (.ok id, { s with hosts := s.hosts ++ [⟨mac, id⟩] })

/-- Modelled from the spec: `rmDHCPEntry` is not in src; the lease is looked
up by the MAC read from the live domain definition, and removing an absent
entry is not an error. -/
def rmDHCPEntry (domain : Domain) : Op Unit :=
  call (.rmDHCPEntry domain.Name) fun s =>
    match s.findDomain domain.Name with
    | some d => (.ok (), s.delHosts d.mac)
    | none => (.error (.libvirt .errNoDomain), s)

/-- Modelled from the spec: `getDisksOfDomain` is not in src; the names of the
volumes behind the disks of the domain definition. -/
def getDisksOfDomain (domain : Domain) : Op (List String) := do
  let d ← DomainGetXMLDesc domain
  pure d.disks

/-- Modelled from the spec: `vmVolumeXML` is not in src; it renders the
description of the boot volume. -/
def vmVolumeXML (name : String) (_backingPath : String) (sizeB : Nat) : Op (String × Nat) :=
  call (.vmVolumeXML name) fun s => (.ok (name, sizeB), s)

/-- Modelled from the spec: `diskVolumeXML` is not in src; it renders the
description of a disk volume. -/
def diskVolumeXML (name : String) (size : Nat) (_unit : String) (_format : String) :
    Op (String × Nat) :=
  call (.diskVolumeXML name) fun s => (.ok (name, size * 1024), s)

/-- Modelled from the spec: `createCIData` is not in src; it creates the
cloud-init seed volume of the VM. -/
def createCIData (vmConfig : VMConfig) : Op Unit := do
  let _ ← StorageVolCreateXML (ciDataVolumeName vmConfig.Name) 0
  pure ()

/-- Modelled from the spec: `actualtime.Ping` is not in src; up to `count`
attempts, and exhausting them is an error. -/
def Ping : Nat → Op Unit → Op Unit
  | 0, _ => fail (.msg "ping attempts exhausted")
  | n + 1, f => do
    let r ← attempt f
    match r with
    | .ok _ => pure ()
    | .error _ => Ping n f

/-! ## `internal/virter/vm.go` -/

/-- `ImageExists` (vm.go 27-42). -/
def ImageExists (imageName : String) : Op Bool := do
  let _sp ← wrapErr "could not get storage pool" StoragePoolLookupByName
  let r ← attempt (StorageVolLookupByName imageName)
  match r with
  | .error err =>
    if hasErrorCode r .errNoStorageVol then pure false
    else fail (.wrap "could not get backing image volume" err)
  | .ok _ => pure true

/-- `diskVolumeName` (vm.go 186-188). -/
def diskVolumeName (vmName : String) (diskName : String) : String :=
  vmName ++ "-" ++ diskName

/-- The loop `for _, img := range imgs` of `anyImageExists` (vm.go 55-60). -/
def anyImageExistsLoop : List String → Op Bool
  | [] => pure false
  | img :: rest => do
    let r ← attempt (ImageExists img)
    match r with
    | .error err => fail err
    | .ok found => if found then pure true else anyImageExistsLoop rest

/-- The list `imgs` that `anyImageExists` builds (vm.go 45-53): the names of the
volumes `VMRun` creates for the VM. -/
def vmImages (vmConfig : VMConfig) : List String :=
  let vmName := vmConfig.Name
  let imgs := [vmName, ciDataVolumeName vmName]
  imgs ++ vmConfig.Disks.map (fun d => diskVolumeName vmName d.name)

/-- `anyImageExists` (vm.go 44-61). -/
def anyImageExists (vmConfig : VMConfig) : Op Bool :=
  anyImageExistsLoop (vmImages vmConfig)

/-- `createVMVolume` (vm.go 133-170); `sizeB` is a Go `uint64`. -/
def createVMVolume (vmConfig : VMConfig) : Op Unit := do
  let imageName := vmConfig.ImageName
  let vmName := vmConfig.Name
  let backingVolume ← wrapErr "could not get backing image volume"
    (StorageVolLookupByName imageName)
  let backingPath ← wrapErr "could not get backing image path"
    (StorageVolGetPath backingVolume)
  let sizeB0 := (vmConfig.BootCapacityKiB * unitK) % 2 ^ 64
  let sizeB ←
    if sizeB0 = 0 then do
      let info ← wrapErr "could not get backing image info" (StorageVolGetInfo backingVolume)
      let minSize := (10 * unitG) % 2 ^ 64
      if info < minSize then pure minSize else pure info
    else pure sizeB0
  let xml ← vmVolumeXML vmName backingPath sizeB
  let _ ← wrapErr "could not create VM boot volume" (StorageVolCreateXML xml.1 xml.2)
  pure ()

/-- `createDiskVolume` (vm.go 172-184). -/
def createDiskVolume (vmName : String) (disk : Disk) : Op Unit := do
  let xml ← diskVolumeXML (diskVolumeName vmName disk.name) disk.sizeKiB "KiB" disk.format
  let _ ← wrapErr "could not create scratch volume" (StorageVolCreateXML xml.1 xml.2)
  pure ()

/-- The loop `for _, d := range vmConfig.Disks` of `VMRun` (vm.go 110-116). -/
def createDiskVolumes (vmName : String) : List Disk → Op Unit
  | [] => pure ()
  | d :: rest => do
    createDiskVolume vmName d
    createDiskVolumes vmName rest

/-- Modelled from the spec: `vmXML` is not in src; the domain description
names the volumes of the VM as its disks: boot volume, cloud-init volume, one
volume per extra disk. -/
def vmXML (vmConfig : VMConfig) : Op (String × List String) :=
  call (.vmXML vmConfig.Name) fun s =>
    (.ok (vmConfig.Name, vmImages vmConfig), s)

/-- `createVM` (vm.go 190-232); the address is returned. -/
def createVM (vmConfig : VMConfig) : Op Nat := do
  let xml ← vmXML vmConfig
  let d ← wrapErr "could not define domain" (DomainDefineXML xml.1 xml.2)
  let domcfg ← DomainGetXMLDesc d
  let mac := domcfg.mac
  let ip ← addDHCPEntry mac vmConfig.ID
  wrapErr "could not create (start) domain" (DomainCreate d)
  pure ip

/-- `getSSHClientConfig` (vm.go 525-540): parsing the private key may fail. -/
def getSSHClientConfig : Op Unit :=
  call .ParsePrivateKey fun s => (.ok (), s)

/-- `tryDialSSH` (vm.go 260-268). -/
def tryDialSSH : Op Unit :=
  call .Dial fun s => (.ok (), s)

/-- `pingSSH` (vm.go 234-258). -/
def pingSSH (vmConfig : VMConfig) (_ip : Nat) : Op Unit := do
  getSSHClientConfig
  wrapErr "unable to connect to SSH port" (Ping vmConfig.SSHPingCount tryDialSSH)

/-- `VMRun` (vm.go 63-131). -/
def VMRun (vmConfig : VMConfig) : Op Unit := do
  let vmConfig ← CheckVMConfig vmConfig
  let vmName := vmConfig.Name
  let r ← attempt (DomainLookupByName vmName)
  if !hasErrorCode r .errNoDomain then
    match r with
    | .error err => fail (.wrap "could not get domain" err)
    | .ok _ => fail (.msg ("domain '" ++ vmName ++ "' already defined"))
  let found ← anyImageExists vmConfig
  if found then
    fail (.msg "one of the images already exists")
  let id ← getVMID vmConfig.ID
  let vmConfig := { vmConfig with ID := id }
  let _sp ← wrapErr "could not get storage pool" StoragePoolLookupByName
  createVMVolume vmConfig
  createCIData vmConfig
  createDiskVolumes vmConfig.Name vmConfig.Disks
  let ip ← createVM vmConfig
  if vmConfig.WaitSSH then
    pingSSH vmConfig ip

/-- `rmSnapshots` loop (vm.go 359-365). -/
def rmSnapshotsLoop (domain : Domain) : List String → Op Unit
  | [] => pure ()
  | snapshot :: rest => do
    wrapErr "could not delete snapshot" (DomainSnapshotDelete domain snapshot)
    rmSnapshotsLoop domain rest

/-- `rmSnapshots` (vm.go 353-368). -/
def rmSnapshots (domain : Domain) : Op Unit := do
  let snapshots ← wrapErr "could not list snapshots" (DomainListAllSnapshots domain)
  rmSnapshotsLoop domain snapshots

/-- `rmVolume` (vm.go 370-385). -/
def rmVolume (volumeName : String) (debugName : String) : Op Unit := do
  let r ← attempt (StorageVolLookupByName volumeName)
  if !hasErrorCode r .errNoStorageVol then
    match r with
    | .error err => fail (.wrap ("could not get " ++ debugName ++ " volume") err)
    | .ok volume =>
      wrapErr ("could not delete " ++ debugName ++ " volume") (StorageVolDelete volume)

/-- The loop `for _, disk := range disks` of `vmRmExceptBoot` (vm.go 338-347). -/
def rmDisksLoop (vmName : String) : List String → Op Unit
  | [] => pure ()
  | disk :: rest =>
    if disk = vmName then
      rmDisksLoop vmName rest
    else do
      rmVolume disk "disk"
      rmDisksLoop vmName rest

/-- `vmRmExceptBoot` (vm.go 290-351). -/
def vmRmExceptBoot (vmName : String) : Op Unit := do
  let r ← attempt (DomainLookupByName vmName)
  if !hasErrorCode r .errNoDomain then
    match r with
    | .error err => fail (.wrap "could not get domain" err)
    | .ok domain =>
      let disks ← getDisksOfDomain domain
      rmSnapshots domain
      let active ← wrapErr "could not check if domain is active" (DomainIsActive domain)
      let persistent ← wrapErr "could not check if domain is persistent"
        (DomainIsPersistent domain)
      rmDHCPEntry domain
      if active ≠ 0 then
        wrapErr "could not destroy domain" (DomainDestroy domain)
      if persistent ≠ 0 then
        wrapErr "could not undefine domain" (DomainUndefine domain)
      rmDisksLoop vmName disks

/-- `VMRm` (vm.go 270-288). -/
def VMRm (vmName : String) : Op Unit := do
  let _sp ← wrapErr "could not get storage pool" StoragePoolLookupByName
  vmRmExceptBoot vmName
  rmVolume vmName "boot"

/-- Modelled from the spec: a domain that has stopped is no longer active, and a
transient one is gone (section 4.3, `ShutdownRequested → Stopped`). -/
def DomainState.stopped (d : DomainState) : Option DomainState :=
  if d.persistent then some { d with active := false } else none

/-- Modelled from the spec: what the hypervisor has recorded by the time a
lifecycle event is delivered: the domain whose stop the event reports has
stopped. -/
def Hv.deliver (s : Hv) (event : DomainEventLifecycleMsg) : Hv :=
  if event.Event = DomainEventStopped then
    { s with
      domains := s.domains.filterMap (fun d => if d.ID = event.Dom.ID then d.stopped else some d) }
  else s

/-- Receiving `event` from the channel `events` (vm.go 453). -/
def receive (event : DomainEventLifecycleMsg) : Op Unit := fun s =>
  ⟨.ok (), s.deliver event, []⟩

/-- The loop `for active != 0 { select ... }` of `vmShutdown` (vm.go 451-461):
`arrivals` is what the `select` receives, in order. -/
def waitStopped (domain : Domain) : Int → List Sel → Op Unit
  | active, arrivals =>
    if active ≠ 0 then
      match arrivals with
      | [] => hang
      | .event event :: rest => do
        receive event
        if event.Dom.ID = domain.ID ∧ event.Event = DomainEventStopped then
          waitStopped domain 0 rest
        else
          waitStopped domain active rest
      | .timeout :: _ => fail (.msg "timed out waiting for domain to stop")
    else pure ()

/-- `vmShutdown` (vm.go 425-464). -/
def vmShutdown (arrivals : List Sel) (domain : Domain) : Op Unit := do
  wrapErr "could not start waiting for events" LifecycleEvents
  let active ← wrapErr "could not check if domain is active" (DomainIsActive domain)
  if active ≠ 0 then
    wrapErr "could not shut down domain" (DomainShutdown domain)
  waitStopped domain active arrivals

/-- `VMCommit` (vm.go 387-423). -/
def VMCommit (arrivals : List Sel) (vmName : String) (shutdown : Bool) : Op Unit := do
  let domain ← wrapErr "could not get domain" (DomainLookupByName vmName)
  if shutdown then
    vmShutdown arrivals domain
  else do
    let active ← wrapErr "could not check if domain is active" (DomainIsActive domain)
    if active ≠ 0 then
      fail (.msg "cannot commit a running VM")
  let _sp ← wrapErr "could not get storage pool" StoragePoolLookupByName
  vmRmExceptBoot vmName

/-! ## Resolving the address of a VM -/

/-- Modelled from the spec: lookup of the single configured network. -/
def NetworkLookupByName : Op Unit :=
  call .NetworkLookupByName fun s => (.ok (), s)

/-- Modelled from the spec: `getMAC` is not in src; the MAC address is read from
the live domain definition. -/
def getMAC (domain : Domain) : Op Nat :=
  call (.getMAC domain.Name) fun s =>
    match s.findDomain domain.Name with
    | some d => (.ok d.mac, s)
    | none => (.error (.libvirt .errNoDomain), s)

/-- Modelled from the spec: `findIPs` is not in src; the addresses of the DHCP
host entries of the network for a MAC (the address is determined by the
identity). -/
def findIPs (mac : Nat) : Op (List Nat) :=
  call (.findIPs mac) fun s =>
    (.ok ((s.hosts.filter (fun h => decide (h.mac = mac))).map (fun h => h.id)), s)

/-- `findVMIP` (vm.go 690-705). -/
def findVMIP (domain : Domain) : Op Nat := do
  let mac ← getMAC domain
  let ips ← findIPs mac
  match ips with
  | [] => fail (.msg "no IP found for domain")
  | ip :: _ => pure ip

/-- `getIP` (vm.go 466-496); `network` is nil or the network already looked up. -/
def getIP (vmName : String) (network : Option Unit) : Op Nat := do
  let domain ← wrapErr ("could not get domain '" ++ vmName ++ "'") (DomainLookupByName vmName)
  let active ← wrapErr ("could not check if domain '" ++ vmName ++ "' is active")
    (DomainIsActive domain)
  if active = 0 then
    fail (.msg ("cannot exec against VM '" ++ vmName ++ "' that is not running"))
  let _network ←
    match network with
    | none => wrapErr "could not get network" NetworkLookupByName
    | some n => pure n
  wrapErr ("could not find IP for VM '" ++ vmName ++ "'") (findVMIP domain)

/-- The loop `for _, vmName := range vmNames` of `getIPs` (vm.go 505-511). -/
def getIPsLoop : List String → Op (List Nat)
  | [] => pure []
  | vmName :: rest => do
    let ip ← getIP vmName (some ())
    let ips ← getIPsLoop rest
    pure (ip :: ips)

/-- `getIPs` (vm.go 498-513). -/
def getIPs (vmNames : List String) : Op (List Nat) := do
  let _network ← wrapErr "could not get network" NetworkLookupByName
  getIPsLoop vmNames

/-! ## Remote shell sessions -/

/-- Modelled from the spec: package `sshclient` is not in src.  One attempt of
`DialContext` as `connectSSHRetry` sees it: the error it returns (`none` when
the dial succeeds) and, for the `select` that follows a failed dial (vm.go
678-682), whether `ctx.Done()` is ready before the one-second timer. -/
structure DialAttempt where
  err : Option Err
  ctxDone : Bool
  deriving DecidableEq, Repr

/-- `connectSSHRetry` (vm.go 673-688) over the attempts the environment grants,
numbered from `k`; the client returned is identified by the number of the
attempt that created it.  An exhausted list stands for dials that keep failing
while the context is never cancelled. -/
def connectSSHRetry : Nat → List DialAttempt → Result Nat
  | _, [] => .hang
  | k, a :: rest =>
    match a.err with
    | none => .ok k
    | some err => if a.ctxDone then .error err else connectSSHRetry (k + 1) rest

/-- Modelled from the spec: what the remote shell session to one target does
during a shell step: the dial attempts, the errors of `StdoutPipe`, `StderrPipe`
and `ExecScript` (`none` for nil; a non-zero exit of the script is an error of
`ExecScript`). -/
structure ShellTarget where
  dials : List DialAttempt
  stdoutPipe : Option Err
  stderrPipe : Option Err
  execScript : Option Err
  deriving DecidableEq, Repr

/-- `runSSHCommand` (vm.go 637-671); `addEnv` is the error of `sshclient.AddEnv`.
The two `logLines` goroutines end when their stream is drained, which is what
`wg.Wait()` waits for after `ExecScript` has returned. -/
def runSSHCommand (addEnv : Option Err) (t : ShellTarget) : Result Unit × List ShellEv :=
  match addEnv with
  | some err => (.error err, [])
  | none =>
    match connectSSHRetry 0 t.dials with
    | .hang => (.hang, [])
    | .error err => (.error err, [])
    | .ok k =>
      match t.stdoutPipe with
      | some err => (.error err, [.connected k, .closed])
      | none =>
        match t.stderrPipe with
        | some err => (.error err, [.connected k, .closed])
        | none =>
          (match t.execScript with
            | none => .ok ()
            | some err => .error err,
            [.connected k, .execScript, .drainedStdout, .drainedStderr, .closed])

/-- The error of a finished task, if it returned one. -/
def Result.err? {α : Type} : Result α → Option Err
  | .error e => some e
  | _ => none

/-- Whether a task never returns. -/
def Result.isHang {α : Type} : Result α → Bool
  | .hang => true
  | _ => false

/-- The log entry of one step on the session to `ip`, for a `runSSHCommand` that
returned `res`: once the script has been executed `res` is what `ExecScript`
returned, and no other logged step has returned an error. -/
def sessionEv (ip : Nat) (res : Result Unit) : ShellEv → Ev
  | .execScript => ⟨.session ip .execScript, decide (res = .ok ())⟩
  | ev => ⟨.session ip ev, true⟩

/-- The task `VMExecShell` starts with `g.Go` for one address (vm.go 584-586):
what `runSSHCommand` returns and the log of its session; `guest` is the session
behind each address. -/
def shellTask (guest : Nat → ShellTarget) (addEnv : Option Err) (ip : Nat) :
    Result Unit × List Ev :=
  ((runSSHCommand addEnv (guest ip)).1,
    (runSSHCommand addEnv (guest ip)).2.map (sessionEv ip (runSSHCommand addEnv (guest ip)).1))

/-- Modelled from the spec: `errgroup.Group` is an external package.  Every task
handed to `Go` is started; `Wait` returns once every task has returned, with the
error of the first task that returned one; `order` lists the tasks in the order
in which they return.  The zero `Group` of `VMExecShell` carries no context: a
failing task cancels nothing.  The sessions are logged task by task, in the
order in which the tasks were started; how concurrent sessions interleave is
not recorded. -/
def groupWait (order : List Nat) (tasks : List (Result Unit × List Ev)) : Op Unit := fun s =>
  ⟨if tasks.any (fun t => t.1.isHang) then .hang
    else
      match order.filterMap (fun i => (tasks.get? i).bind (fun t => t.1.err?)) with
      | [] => .ok ()
      | err :: _ => .error err,
    s, (tasks.map (fun t => t.2)).flatten⟩

/-- `VMExecShell` (vm.go 567-590). -/
def VMExecShell (guest : Nat → ShellTarget) (addEnv : Option Err) (order : List Nat)
    (vmNames : List String) : Op Unit := do
  let ips ← getIPs vmNames
  getSSHClientConfig
  groupWait order (ips.map (shellTask guest addEnv))

/-! ## Building an image -/

/-- Modelled from the spec: `ImageBuild` is not in src (spec section 4.6): run an
ephemeral VM, always waiting for SSH, execute the provisioning against it, shut
it down and commit it; a failure at any stage still attempts the teardown of the
non-boot resources and leaves the boot volume.  `provision` is the execution of
the provisioning configuration. -/
def ImageBuild (arrivals : List Sel) (provision : Op Unit) (vmConfig : VMConfig) : Op Unit := do
  let vmConfig := { vmConfig with WaitSSH := true }
  let r ← attempt (do
    VMRun vmConfig
    provision
    VMCommit arrivals vmConfig.Name true)
  match r with
  | .ok _ => pure ()
  | .error err => do
    let _ ← attempt (vmRmExceptBoot vmConfig.Name)
    fail err

/-! ## `cmd/vm_run.go` -/

/-- The name of one VM of a batch (vm_run.go 172-184); `countChanged` is
`cmd.Flags().Changed("count")`, `id` is formatted with `%d`. -/
def thisVMName (imageName vmName : String) (countChanged : Bool) (id : Nat) : String :=
  if vmName = "" then imageName ++ "-" ++ toString id
  else if !countChanged then vmName
  else vmName ++ "-" ++ toString id

/-- The loop `for i = 0; i < count; i++` of `vmRunCommand` (vm_run.go 168-214):
the fields `Name` and `ID` of the `VMConfig` of each VM.  `vmID`, `count` and
`i` are Go `uint`, 64 bits wide on 64-bit platforms, and `id := vmID + i` wraps. -/
def vmRunCommand (imageName vmName : String) (countChanged : Bool) (vmID count : Nat) :
    List (String × Nat) :=
  (List.range count).map (fun i =>
    let id := (vmID + i) % 2 ^ 64
    (thisVMName imageName vmName countChanged id, id))

/-- `Q` holds of the outcome, final state and call log of running `m` from `s`. -/
def Op.wp {α : Type} (m : Op α) (s : Hv) (Q : Result α → Hv → List Ev → Prop) : Prop :=
  Q (m s).res (m s).st (m s).tr

/-! ## Small runs -/

/-- A hypervisor with one base image and nothing else. -/
def hv0 : Hv :=
  { domains := [], vols := [⟨"img", 5 * unitG⟩], hosts := [], nextMAC := 100, nextID := 1,
    faults := [] }

/-- A VM specification with one extra disk. -/
def cfg0 : VMConfig :=
  { ImageName := "img", Name := "vm", MemoryKiB := 1024, BootCapacityKiB := 0, VCPUs := 1,
    ID := 10, WaitSSH := true, SSHPingCount := 1, Disks := [⟨"d", 100, "qcow2", "virtio"⟩] }

/-- A stop event whose domain identity matches arrives strictly before the
timer fires (the words of the spec, section 8). -/
def StopBeforeTimeout (domain : Domain) (arrivals : List Sel) : Prop :=
  ∃ pre ev post, arrivals = pre ++ Sel.event ev :: post ∧ Sel.timeout ∉ pre ∧
    ev.Dom.ID = domain.ID ∧ ev.Event = DomainEventStopped

/-- A hypervisor running the VM `cfg0` (the state after `VMRun cfg0 hv0`). -/
def hvRunning : Hv :=
  { domains := [⟨"vm", 1, 100, true, true, ["vm", "vm-cidata", "vm-d"], []⟩],
    vols := [⟨"img", 5 * unitG⟩, ⟨"vm", 10 * unitG⟩, ⟨"vm-cidata", 0⟩, ⟨"vm-d", 102400⟩],
    hosts := [⟨100, 10⟩], nextMAC := 101, nextID := 2, faults := [] }

/-- A hypervisor where the VM `vm` is defined but not running. -/
def hvStopped : Hv :=
  { domains := [⟨"vm", 1, 100, false, true, ["vm", "vm-cidata", "vm-d"], []⟩],
    vols := [⟨"img", 5 * unitG⟩, ⟨"vm", 10 * unitG⟩, ⟨"vm-cidata", 0⟩, ⟨"vm-d", 102400⟩],
    hosts := [⟨100, 10⟩], nextMAC := 101, nextID := 2, faults := [] }

/-- The specification `cfg0` with a requested boot capacity of 2^54 KiB. -/
def cfgHuge : VMConfig := { cfg0 with BootCapacityKiB := 2 ^ 54 }

/-- The mutating calls of a call log, in order. -/
def mutCalls (t : List Ev) : List Call :=
  (t.filter (fun e => e.call.mutating)).map (fun e => e.call)

/-- Some call of the log returned an error. -/
def Bad (t : List Ev) : Prop := ∃ e ∈ t, e.ok = false

/-- The mutating calls `vmRmExceptBoot` issues for a domain when every call succeeds. -/
def teardownCalls (vmName : String) (d : DomainState) : List Call :=
  d.snapshots.map (Call.DomainSnapshotDelete vmName) ++ [Call.rmDHCPEntry vmName] ++
    (if d.active then [Call.DomainDestroy vmName] else []) ++
    (if d.persistent then [Call.DomainUndefine vmName] else []) ++
    (d.disks.filter (fun x => decide (x ≠ vmName))).map Call.StorageVolDelete

/-- The calls that are creation steps of `VMRun` (vm.go 98-229): creating a
volume, defining the domain, reading back its definition, registering the
lease, starting the domain. -/
def Call.creation : Call → Bool
  | .StorageVolCreateXML _ => true
  | .DomainDefineXML _ => true
  | .DomainGetXMLDesc _ => true
  | .addDHCPEntry _ _ => true
  | .DomainCreate _ => true
  | _ => false

/-- The creation steps of a call log, in order, each with its outcome. -/
def steps (t : List Ev) : List Ev :=
  t.filter (fun e => e.call.creation)

/-- The volume creations of `VMRun` in source order: boot volume, cloud-init
volume, each extra disk in list order. -/
def volumeSteps (vmConfig : VMConfig) : List Call :=
  [Call.StorageVolCreateXML vmConfig.Name,
    Call.StorageVolCreateXML (ciDataVolumeName vmConfig.Name)] ++
  vmConfig.Disks.map (fun d => Call.StorageVolCreateXML (diskVolumeName vmConfig.Name d.name))

/-- The steps of `createVM` in source order, for the MAC the hypervisor
assigns and the identity of the VM. -/
def domainSteps (vmConfig : VMConfig) (mac id : Nat) : List Call :=
  [Call.DomainDefineXML vmConfig.Name, Call.DomainGetXMLDesc vmConfig.Name,
    Call.addDHCPEntry mac id, Call.DomainCreate vmConfig.Name]

/-- The creation steps of `VMRun` in source order. -/
def creationSteps (vmConfig : VMConfig) (mac id : Nat) : List Call :=
  volumeSteps vmConfig ++ domainSteps vmConfig mac id

/-- A call that returned without error. -/
def okEv (c : Call) : Ev := ⟨c, true⟩

/-- The run performed the steps `exp` in order: all of them, each succeeding,
when it returned a value; otherwise a first part of them, each succeeding,
followed by nothing or by the one next step, which failed. -/
def Prog {α : Type} (exp : List Call) (r : Result α) (t : List Ev) : Prop :=
  ((∃ a, r = .ok a) ∧ t = exp.map okEv) ∨
  ((∃ e, r = .error e) ∧ ∃ pre post, exp = pre ++ post ∧
    (t = pre.map okEv ∨ ∃ c rest, post = c :: rest ∧ t = pre.map okEv ++ [⟨c, false⟩]))

/-- What a volume-creating part of `VMRun` leaves: only volumes change, and
the steps `exp` were performed in order up to the first failure. -/
def VolPost (s : Hv) (exp : List Call) (r : Result Unit) (s1 : Hv) (t : List Ev) : Prop :=
  s1 = { s with vols := s1.vols } ∧ Prog exp r (steps t)

/-- The outcomes of `createVM`: the steps performed, up to the first failure. -/
def DomPost (n : String) (mac id : Nat) (r : Result Nat) (t : List Ev) : Prop :=
  ((∃ e, r = .error e) ∧
    (t = [] ∨ t = [⟨.DomainDefineXML n, false⟩] ∨
      t = [⟨.DomainDefineXML n, true⟩, ⟨.DomainGetXMLDesc n, false⟩] ∨
      t = [⟨.DomainDefineXML n, true⟩, ⟨.DomainGetXMLDesc n, true⟩,
        ⟨.addDHCPEntry mac id, false⟩] ∨
      t = [⟨.DomainDefineXML n, true⟩, ⟨.DomainGetXMLDesc n, true⟩,
        ⟨.addDHCPEntry mac id, true⟩, ⟨.DomainCreate n, false⟩])) ∨
  ((∃ a, r = .ok a) ∧
    t = [⟨.DomainDefineXML n, true⟩, ⟨.DomainGetXMLDesc n, true⟩,
      ⟨.addDHCPEntry mac id, true⟩, ⟨.DomainCreate n, true⟩])

/-- The domain `VMRun` defines for a specification, with its activity state. -/
def newDomain (vmConfig : VMConfig) (s : Hv) (active : Bool) : DomainState :=
  ⟨vmConfig.Name, s.nextID, s.nextMAC, active, true, vmImages vmConfig, []⟩

/-- The domains after `VMRun`: as before, or with the new domain appended. -/
def DomInv (vmConfig : VMConfig) (s s1 : Hv) : Prop :=
  s1.faults = s.faults ∧
  (s1.domains = s.domains ∨ ∃ a, s1.domains = s.domains ++ [newDomain vmConfig s a])

/-- What `VMRun` guarantees about its creation steps `st`: they follow the
source order up to the first failure; a lease is registered only after the
domain was defined; a domain whose lease registration failed is not started. -/
def RunPost (vmConfig : VMConfig) (mac id : Nat) (r : Result Unit) (st : List Ev) : Prop :=
  Prog (creationSteps vmConfig mac id) r st ∧
  (∀ m i b, (⟨.addDHCPEntry m i, b⟩ : Ev) ∈ st → (⟨.DomainDefineXML vmConfig.Name, true⟩ : Ev) ∈ st) ∧
  (∀ m i, (⟨.addDHCPEntry m i, false⟩ : Ev) ∈ st →
    ∀ b, (⟨.DomainCreate vmConfig.Name, b⟩ : Ev) ∉ st)

/-- What `VMRun` guarantees: see `RunPost` and `DomInv`. -/
def VMRunPost (vmConfig : VMConfig) (s : Hv) (r : Result Unit) (s1 : Hv) (t : List Ev) : Prop :=
  (∃ id, (vmConfig.ID ≠ 0 → id = vmConfig.ID) ∧ RunPost vmConfig s.nextMAC id r (steps t)) ∧
  DomInv vmConfig s s1

/-- The state left by `VMRun cfg0` when defining the domain fails (the three
volumes exist, no domain, no lease); later calls succeed. -/
def hvNoDomain : Hv :=
  { (VMRun cfg0 { hv0 with faults := [.DomainDefineXML "vm"] }).st with faults := [] }

/-- The state left by `VMRun cfg0` when starting the domain fails (volumes,
domain and lease exist, the domain is inactive); later calls succeed. -/
def hvNotStarted : Hv :=
  { (VMRun cfg0 { hv0 with faults := [.DomainCreate "vm"] }).st with faults := [] }

/-- A lease whose domain is already undefined. -/
def hvLeaseOnly : Hv :=
  { hv0 with hosts := [⟨100, 10⟩] }

/-- The volumes `createDiskVolumes` adds, in list order. -/
def diskVols (vmName : String) (disks : List Disk) : List StorageVol :=
  disks.map (fun d => ⟨diskVolumeName vmName d.name, d.sizeKiB * 1024⟩)

/-- The volumes a complete `VMRun` adds, in creation order, for a boot volume of
capacity `cap`. -/
def newVols (vmConfig : VMConfig) (cap : Nat) : List StorageVol :=
  [⟨vmConfig.Name, cap⟩, ⟨ciDataVolumeName vmConfig.Name, 0⟩] ++
    diskVols vmConfig.Name vmConfig.Disks

/-- A hypervisor running three VMs with their leases. -/
def hvThree : Hv :=
  { domains := [⟨"vm1", 1, 101, true, true, [], []⟩, ⟨"vm2", 2, 102, true, true, [], []⟩,
      ⟨"vm3", 3, 103, true, true, [], []⟩],
    vols := [], hosts := [⟨101, 11⟩, ⟨102, 12⟩, ⟨103, 13⟩], nextMAC := 104, nextID := 4,
    faults := [] }

/-- Sessions behind the addresses of `hvThree`: every dial succeeds at once, the
script exits non-zero on the second target only. -/
def guestThree (ip : Nat) : ShellTarget :=
  { dials := [⟨none, false⟩], stdoutPipe := none, stderrPipe := none,
    execScript := if ip = 12 then some (.msg "Process exited with status 1") else none }

/-- The number a list of decimal digit characters stands for. -/
def decodeDigits (l : List Char) : Nat :=
  l.foldl (fun a c => a * 10 + (c.toNat - 48)) 0

/-- Sessions on which every dial succeeds at once and the script succeeds. -/
def guestFine (_ip : Nat) : ShellTarget :=
  { dials := [⟨none, false⟩], stdoutPipe := none, stderrPipe := none, execScript := none }

/-- Sessions as in `guestThree`, except that no dial to the third target ever
succeeds and the context is never cancelled. -/
def guestStuck (ip : Nat) : ShellTarget :=
  if ip = 13 then { dials := [], stdoutPipe := none, stderrPipe := none, execScript := none }
  else guestThree ip

/-! ## Rules for reasoning about runs -/

theorem wp_mono {α : Type} {m : Op α} {s : Hv} {Q Q2 : Result α → Hv → List Ev → Prop}
    (h : m.wp s Q) (himp : ∀ r s1 t, Q r s1 t → Q2 r s1 t) : m.wp s Q2 :=
  himp _ _ _ h

theorem wp_pure {α : Type} (a : α) (s : Hv) (Q : Result α → Hv → List Ev → Prop) :
    (pure a : Op α).wp s Q ↔ Q (.ok a) s [] := Iff.rfl

theorem wp_fail {α : Type} (e : Err) (s : Hv) (Q : Result α → Hv → List Ev → Prop) :
    (fail e : Op α).wp s Q ↔ Q (.error e) s [] := Iff.rfl

theorem wp_hang {α : Type} (s : Hv) (Q : Result α → Hv → List Ev → Prop) :
    (hang : Op α).wp s Q ↔ Q .hang s [] := Iff.rfl

theorem wp_bind {α β : Type} (m : Op α) (f : α → Op β) (s : Hv)
    (Q : Result β → Hv → List Ev → Prop) :
    (m >>= f).wp s Q ↔
      m.wp s (fun r s1 t1 =>
        match r with
        | .ok a => (f a).wp s1 (fun r2 s2 t2 => Q r2 s2 (t1 ++ t2))
        | .error e => Q (.error e) s1 t1
        | .hang => Q .hang s1 t1) := by
  show Q (Op.bind m f s).res (Op.bind m f s).st (Op.bind m f s).tr ↔ _
  unfold Op.wp Op.bind
  rcases m s with ⟨r, s1, t1⟩
  cases r <;> rfl

theorem wp_attempt {α : Type} (m : Op α) (s : Hv)
    (Q : Result (Except Err α) → Hv → List Ev → Prop) :
    (attempt m).wp s Q ↔
      m.wp s (fun r s1 t1 =>
        match r with
        | .ok a => Q (.ok (.ok a)) s1 t1
        | .error e => Q (.ok (.error e)) s1 t1
        | .hang => Q .hang s1 t1) := by
  unfold Op.wp attempt
  rcases m s with ⟨r, s1, t1⟩
  cases r <;> rfl

theorem wp_wrapErr {α : Type} (text : String) (m : Op α) (s : Hv)
    (Q : Result α → Hv → List Ev → Prop) :
    (wrapErr text m).wp s Q ↔
      m.wp s (fun r s1 t1 =>
        match r with
        | .ok a => Q (.ok a) s1 t1
        | .error e => Q (.error (.wrap text e)) s1 t1
        | .hang => Q .hang s1 t1) := by
  unfold Op.wp wrapErr
  rcases m s with ⟨r, s1, t1⟩
  cases r <;> rfl

theorem wp_call {α : Type} (c : Call) (f : Hv → Except Err α × Hv) (s : Hv)
    (Q : Result α → Hv → List Ev → Prop) :
    (call c f).wp s Q ↔
      (c ∈ s.faults → Q (.error (.rpc c)) s [⟨c, false⟩]) ∧
      (c ∉ s.faults →
        match f s with
        | (.ok a, s1) => Q (.ok a) s1 [⟨c, true⟩]
        | (.error e, s1) => Q (.error e) s1 [⟨c, false⟩]) := by
  unfold Op.wp call
  by_cases h : c ∈ s.faults
  · simp [h]
  · simp only [h, if_false, false_implies, true_and, not_false_eq_true, true_implies]
    rcases f s with ⟨r, s1⟩
    cases r <;> rfl

theorem wp_ite {α : Type} (c : Prop) [Decidable c] (m1 m2 : Op α) (s : Hv)
    (Q : Result α → Hv → List Ev → Prop) :
    (if c then m1 else m2).wp s Q ↔ (c → m1.wp s Q) ∧ (¬ c → m2.wp s Q) := by
  by_cases h : c <;> simp [h]

/-- Sequencing rule: a property of the first part, then of the rest. -/
theorem wp_seq {α β : Type} {m : Op α} {f : α → Op β} {s : Hv}
    {P : Result α → Hv → List Ev → Prop} {Q : Result β → Hv → List Ev → Prop}
    (hm : m.wp s P)
    (hok : ∀ a s1 t1, P (.ok a) s1 t1 → (f a).wp s1 (fun r2 s2 t2 => Q r2 s2 (t1 ++ t2)))
    (herr : ∀ e s1 t1, P (.error e) s1 t1 → Q (.error e) s1 t1)
    (hhang : ∀ s1 t1, P .hang s1 t1 → Q .hang s1 t1) :
    (m >>= f).wp s Q := by
  rw [wp_bind]
  refine wp_mono hm ?_
  intro r s1 t1 hP
  cases r with
  | ok a => exact hok a s1 t1 hP
  | error e => exact herr e s1 t1 hP
  | hang => exact hhang s1 t1 hP

/-! ## The hypervisor calls, case by case -/

theorem findDomain_name {s : Hv} {n : String} {d : DomainState} (h : s.findDomain n = some d) :
    d.Name = n := by
  have := List.find?_some h
  simpa using this

theorem findVol_name {s : Hv} {n : String} {v : StorageVol} (h : s.findVol n = some v) :
    v.Name = n := by
  have := List.find?_some h
  simpa using this

theorem wp_StoragePoolLookupByName (s : Hv) (Q : Result Unit → Hv → List Ev → Prop) :
    StoragePoolLookupByName.wp s Q ↔
      (Call.StoragePoolLookupByName ∈ s.faults →
        Q (.error (.rpc .StoragePoolLookupByName)) s [⟨.StoragePoolLookupByName, false⟩]) ∧
      (Call.StoragePoolLookupByName ∉ s.faults → Q (.ok ()) s [⟨.StoragePoolLookupByName, true⟩]) := by
  rw [StoragePoolLookupByName, wp_call]

theorem wp_StorageVolLookupByName (name : String) (s : Hv)
    (Q : Result String → Hv → List Ev → Prop) :
    (StorageVolLookupByName name).wp s Q ↔
      (Call.StorageVolLookupByName name ∈ s.faults →
        Q (.error (.rpc (.StorageVolLookupByName name))) s
          [⟨.StorageVolLookupByName name, false⟩]) ∧
      (Call.StorageVolLookupByName name ∉ s.faults →
        (s.findVol name = none →
          Q (.error (.libvirt .errNoStorageVol)) s [⟨.StorageVolLookupByName name, false⟩]) ∧
        (∀ v, s.findVol name = some v →
          Q (.ok name) s [⟨.StorageVolLookupByName name, true⟩])) := by
  rw [StorageVolLookupByName, wp_call]
  cases h : s.findVol name with
  | none => simp
  | some v => simp [findVol_name h]

theorem wp_StorageVolGetPath (vol : String) (s : Hv) (Q : Result String → Hv → List Ev → Prop) :
    (StorageVolGetPath vol).wp s Q ↔
      (Call.StorageVolGetPath vol ∈ s.faults →
        Q (.error (.rpc (.StorageVolGetPath vol))) s [⟨.StorageVolGetPath vol, false⟩]) ∧
      (Call.StorageVolGetPath vol ∉ s.faults →
        (s.findVol vol = none →
          Q (.error (.libvirt .errNoStorageVol)) s [⟨.StorageVolGetPath vol, false⟩]) ∧
        (∀ v, s.findVol vol = some v →
          Q (.ok ("/pool/" ++ vol)) s [⟨.StorageVolGetPath vol, true⟩])) := by
  rw [StorageVolGetPath, wp_call]
  cases h : s.findVol vol with
  | none => simp
  | some v => simp [findVol_name h]

theorem wp_StorageVolGetInfo (vol : String) (s : Hv) (Q : Result Nat → Hv → List Ev → Prop) :
    (StorageVolGetInfo vol).wp s Q ↔
      (Call.StorageVolGetInfo vol ∈ s.faults →
        Q (.error (.rpc (.StorageVolGetInfo vol))) s [⟨.StorageVolGetInfo vol, false⟩]) ∧
      (Call.StorageVolGetInfo vol ∉ s.faults →
        (s.findVol vol = none →
          Q (.error (.libvirt .errNoStorageVol)) s [⟨.StorageVolGetInfo vol, false⟩]) ∧
        (∀ v, s.findVol vol = some v →
          Q (.ok v.capacity) s [⟨.StorageVolGetInfo vol, true⟩])) := by
  rw [StorageVolGetInfo, wp_call]
  cases h : s.findVol vol with
  | none => simp
  | some v => simp

theorem wp_StorageVolCreateXML (name : String) (capacity : Nat) (s : Hv)
    (Q : Result String → Hv → List Ev → Prop) :
    (StorageVolCreateXML name capacity).wp s Q ↔
      (Call.StorageVolCreateXML name ∈ s.faults →
        Q (.error (.rpc (.StorageVolCreateXML name))) s [⟨.StorageVolCreateXML name, false⟩]) ∧
      (Call.StorageVolCreateXML name ∉ s.faults →
        (s.findVol name = none →
          Q (.ok name) { s with vols := s.vols ++ [⟨name, capacity⟩] }
            [⟨.StorageVolCreateXML name, true⟩]) ∧
        (∀ v, s.findVol name = some v →
          Q (.error (.libvirt .errStorageVolExist)) s [⟨.StorageVolCreateXML name, false⟩])) := by
  rw [StorageVolCreateXML, wp_call]
  cases h : s.findVol name with
  | none => simp
  | some v => simp

theorem wp_StorageVolDelete (vol : String) (s : Hv) (Q : Result Unit → Hv → List Ev → Prop) :
    (StorageVolDelete vol).wp s Q ↔
      (Call.StorageVolDelete vol ∈ s.faults →
        Q (.error (.rpc (.StorageVolDelete vol))) s [⟨.StorageVolDelete vol, false⟩]) ∧
      (Call.StorageVolDelete vol ∉ s.faults →
        (s.findVol vol = none →
          Q (.error (.libvirt .errNoStorageVol)) s [⟨.StorageVolDelete vol, false⟩]) ∧
        (∀ v, s.findVol vol = some v →
          Q (.ok ()) (s.delVol vol) [⟨.StorageVolDelete vol, true⟩])) := by
  rw [StorageVolDelete, wp_call]
  cases h : s.findVol vol with
  | none => simp
  | some v => simp

theorem wp_DomainLookupByName (name : String) (s : Hv) (Q : Result Domain → Hv → List Ev → Prop) :
    (DomainLookupByName name).wp s Q ↔
      (Call.DomainLookupByName name ∈ s.faults →
        Q (.error (.rpc (.DomainLookupByName name))) s [⟨.DomainLookupByName name, false⟩]) ∧
      (Call.DomainLookupByName name ∉ s.faults →
        (s.findDomain name = none →
          Q (.error (.libvirt .errNoDomain)) s [⟨.DomainLookupByName name, false⟩]) ∧
        (∀ d, s.findDomain name = some d →
          Q (.ok ⟨name, d.ID⟩) s [⟨.DomainLookupByName name, true⟩])) := by
  rw [DomainLookupByName, wp_call]
  cases h : s.findDomain name with
  | none => simp
  | some d => simp [findDomain_name h]

theorem wp_DomainGetXMLDesc (domain : Domain) (s : Hv)
    (Q : Result DomainState → Hv → List Ev → Prop) :
    (DomainGetXMLDesc domain).wp s Q ↔
      (Call.DomainGetXMLDesc domain.Name ∈ s.faults →
        Q (.error (.rpc (.DomainGetXMLDesc domain.Name))) s
          [⟨.DomainGetXMLDesc domain.Name, false⟩]) ∧
      (Call.DomainGetXMLDesc domain.Name ∉ s.faults →
        (s.findDomain domain.Name = none →
          Q (.error (.libvirt .errNoDomain)) s [⟨.DomainGetXMLDesc domain.Name, false⟩]) ∧
        (∀ d, s.findDomain domain.Name = some d →
          Q (.ok d) s [⟨.DomainGetXMLDesc domain.Name, true⟩])) := by
  rw [DomainGetXMLDesc, wp_call]
  cases h : s.findDomain domain.Name with
  | none => simp
  | some d => simp

theorem wp_DomainIsActive (domain : Domain) (s : Hv) (Q : Result Int → Hv → List Ev → Prop) :
    (DomainIsActive domain).wp s Q ↔
      (Call.DomainIsActive domain.Name ∈ s.faults →
        Q (.error (.rpc (.DomainIsActive domain.Name))) s
          [⟨.DomainIsActive domain.Name, false⟩]) ∧
      (Call.DomainIsActive domain.Name ∉ s.faults →
        (s.findDomain domain.Name = none →
          Q (.error (.libvirt .errNoDomain)) s [⟨.DomainIsActive domain.Name, false⟩]) ∧
        (∀ d, s.findDomain domain.Name = some d →
          Q (.ok (if d.active then 1 else 0)) s [⟨.DomainIsActive domain.Name, true⟩])) := by
  rw [DomainIsActive, wp_call]
  cases h : s.findDomain domain.Name with
  | none => simp
  | some d => simp

theorem wp_DomainIsPersistent (domain : Domain) (s : Hv)
    (Q : Result Int → Hv → List Ev → Prop) :
    (DomainIsPersistent domain).wp s Q ↔
      (Call.DomainIsPersistent domain.Name ∈ s.faults →
        Q (.error (.rpc (.DomainIsPersistent domain.Name))) s
          [⟨.DomainIsPersistent domain.Name, false⟩]) ∧
      (Call.DomainIsPersistent domain.Name ∉ s.faults →
        (s.findDomain domain.Name = none →
          Q (.error (.libvirt .errNoDomain)) s [⟨.DomainIsPersistent domain.Name, false⟩]) ∧
        (∀ d, s.findDomain domain.Name = some d →
          Q (.ok (if d.persistent then 1 else 0)) s
            [⟨.DomainIsPersistent domain.Name, true⟩])) := by
  rw [DomainIsPersistent, wp_call]
  cases h : s.findDomain domain.Name with
  | none => simp
  | some d => simp

theorem wp_DomainListAllSnapshots (domain : Domain) (s : Hv)
    (Q : Result (List String) → Hv → List Ev → Prop) :
    (DomainListAllSnapshots domain).wp s Q ↔
      (Call.DomainListAllSnapshots domain.Name ∈ s.faults →
        Q (.error (.rpc (.DomainListAllSnapshots domain.Name))) s
          [⟨.DomainListAllSnapshots domain.Name, false⟩]) ∧
      (Call.DomainListAllSnapshots domain.Name ∉ s.faults →
        (s.findDomain domain.Name = none →
          Q (.error (.libvirt .errNoDomain)) s [⟨.DomainListAllSnapshots domain.Name, false⟩]) ∧
        (∀ d, s.findDomain domain.Name = some d →
          Q (.ok d.snapshots) s [⟨.DomainListAllSnapshots domain.Name, true⟩])) := by
  rw [DomainListAllSnapshots, wp_call]
  cases h : s.findDomain domain.Name with
  | none => simp
  | some d => simp

theorem wp_DomainSnapshotDelete (domain : Domain) (snapshot : String) (s : Hv)
    (Q : Result Unit → Hv → List Ev → Prop) :
    (DomainSnapshotDelete domain snapshot).wp s Q ↔
      (Call.DomainSnapshotDelete domain.Name snapshot ∈ s.faults →
        Q (.error (.rpc (.DomainSnapshotDelete domain.Name snapshot))) s
          [⟨.DomainSnapshotDelete domain.Name snapshot, false⟩]) ∧
      (Call.DomainSnapshotDelete domain.Name snapshot ∉ s.faults →
        (s.findDomain domain.Name = none →
          Q (.error (.libvirt .errNoDomain)) s
            [⟨.DomainSnapshotDelete domain.Name snapshot, false⟩]) ∧
        (∀ d, s.findDomain domain.Name = some d →
          (snapshot ∈ d.snapshots →
            Q (.ok ())
              (s.updDomain domain.Name
                (fun d => some { d with snapshots := d.snapshots.erase snapshot }))
              [⟨.DomainSnapshotDelete domain.Name snapshot, true⟩]) ∧
          (snapshot ∉ d.snapshots →
            Q (.error (.libvirt .errNoDomainSnapshot)) s
              [⟨.DomainSnapshotDelete domain.Name snapshot, false⟩]))) := by
  rw [DomainSnapshotDelete, wp_call]
  cases h : s.findDomain domain.Name with
  | none => simp
  | some d => by_cases hm : snapshot ∈ d.snapshots <;> simp [hm]

theorem wp_DomainDestroy (domain : Domain) (s : Hv) (Q : Result Unit → Hv → List Ev → Prop) :
    (DomainDestroy domain).wp s Q ↔
      (Call.DomainDestroy domain.Name ∈ s.faults →
        Q (.error (.rpc (.DomainDestroy domain.Name))) s
          [⟨.DomainDestroy domain.Name, false⟩]) ∧
      (Call.DomainDestroy domain.Name ∉ s.faults →
        (s.findDomain domain.Name = none →
          Q (.error (.libvirt .errNoDomain)) s [⟨.DomainDestroy domain.Name, false⟩]) ∧
        (∀ d, s.findDomain domain.Name = some d →
          (d.active = true →
            Q (.ok ())
              (s.updDomain domain.Name
                (fun d => if d.persistent then some { d with active := false } else none))
              [⟨.DomainDestroy domain.Name, true⟩]) ∧
          (d.active = false →
            Q (.error (.libvirt .errOperationInvalid)) s
              [⟨.DomainDestroy domain.Name, false⟩]))) := by
  rw [DomainDestroy, wp_call]
  cases h : s.findDomain domain.Name with
  | none => simp
  | some d => cases hm : d.active <;> simp [hm]

theorem wp_DomainUndefine (domain : Domain) (s : Hv) (Q : Result Unit → Hv → List Ev → Prop) :
    (DomainUndefine domain).wp s Q ↔
      (Call.DomainUndefine domain.Name ∈ s.faults →
        Q (.error (.rpc (.DomainUndefine domain.Name))) s
          [⟨.DomainUndefine domain.Name, false⟩]) ∧
      (Call.DomainUndefine domain.Name ∉ s.faults →
        (s.findDomain domain.Name = none →
          Q (.error (.libvirt .errNoDomain)) s [⟨.DomainUndefine domain.Name, false⟩]) ∧
        (∀ d, s.findDomain domain.Name = some d →
          (d.persistent = true →
            Q (.ok ())
              (s.updDomain domain.Name
                (fun d => if d.active then some { d with persistent := false } else none))
              [⟨.DomainUndefine domain.Name, true⟩]) ∧
          (d.persistent = false →
            Q (.error (.libvirt .errOperationInvalid)) s
              [⟨.DomainUndefine domain.Name, false⟩]))) := by
  rw [DomainUndefine, wp_call]
  cases h : s.findDomain domain.Name with
  | none => simp
  | some d => cases hm : d.persistent <;> simp [hm]

theorem wp_DomainShutdown (domain : Domain) (s : Hv) (Q : Result Unit → Hv → List Ev → Prop) :
    (DomainShutdown domain).wp s Q ↔
      (Call.DomainShutdown domain.Name ∈ s.faults →
        Q (.error (.rpc (.DomainShutdown domain.Name))) s
          [⟨.DomainShutdown domain.Name, false⟩]) ∧
      (Call.DomainShutdown domain.Name ∉ s.faults →
        (s.findDomain domain.Name = none →
          Q (.error (.libvirt .errNoDomain)) s [⟨.DomainShutdown domain.Name, false⟩]) ∧
        (∀ d, s.findDomain domain.Name = some d →
          (d.active = true → Q (.ok ()) s [⟨.DomainShutdown domain.Name, true⟩]) ∧
          (d.active = false →
            Q (.error (.libvirt .errOperationInvalid)) s
              [⟨.DomainShutdown domain.Name, false⟩]))) := by
  rw [DomainShutdown, wp_call]
  cases h : s.findDomain domain.Name with
  | none => simp
  | some d => cases hm : d.active <;> simp [hm]

theorem wp_DomainDefineXML (name : String) (disks : List String) (s : Hv)
    (Q : Result Domain → Hv → List Ev → Prop) :
    (DomainDefineXML name disks).wp s Q ↔
      (Call.DomainDefineXML name ∈ s.faults →
        Q (.error (.rpc (.DomainDefineXML name))) s [⟨.DomainDefineXML name, false⟩]) ∧
      (Call.DomainDefineXML name ∉ s.faults →
        (s.findDomain name = none →
          Q (.ok ⟨name, s.nextID⟩)
            { s with
              domains := s.domains ++ [⟨name, s.nextID, s.nextMAC, false, true, disks, []⟩]
              nextMAC := s.nextMAC + 1
              nextID := s.nextID + 1 }
            [⟨.DomainDefineXML name, true⟩]) ∧
        (∀ d, s.findDomain name = some d →
          Q (.error (.libvirt .errOperationInvalid)) s [⟨.DomainDefineXML name, false⟩])) := by
  rw [DomainDefineXML, wp_call]
  cases h : s.findDomain name with
  | none => simp
  | some d => simp

theorem wp_DomainCreate (domain : Domain) (s : Hv) (Q : Result Unit → Hv → List Ev → Prop) :
    (DomainCreate domain).wp s Q ↔
      (Call.DomainCreate domain.Name ∈ s.faults →
        Q (.error (.rpc (.DomainCreate domain.Name))) s [⟨.DomainCreate domain.Name, false⟩]) ∧
      (Call.DomainCreate domain.Name ∉ s.faults →
        (s.findDomain domain.Name = none →
          Q (.error (.libvirt .errNoDomain)) s [⟨.DomainCreate domain.Name, false⟩]) ∧
        (∀ d, s.findDomain domain.Name = some d →
          (d.active = false →
            Q (.ok ()) (s.updDomain domain.Name (fun d => some { d with active := true }))
              [⟨.DomainCreate domain.Name, true⟩]) ∧
          (d.active = true →
            Q (.error (.libvirt .errOperationInvalid)) s
              [⟨.DomainCreate domain.Name, false⟩]))) := by
  rw [DomainCreate, wp_call]
  cases h : s.findDomain domain.Name with
  | none => simp
  | some d => cases hm : d.active <;> simp [hm]

theorem wp_LifecycleEvents (s : Hv) (Q : Result Unit → Hv → List Ev → Prop) :
    LifecycleEvents.wp s Q ↔
      (Call.LifecycleEvents ∈ s.faults →
        Q (.error (.rpc .LifecycleEvents)) s [⟨.LifecycleEvents, false⟩]) ∧
      (Call.LifecycleEvents ∉ s.faults → Q (.ok ()) s [⟨.LifecycleEvents, true⟩]) := by
  rw [LifecycleEvents, wp_call]

theorem wp_rmDHCPEntry (domain : Domain) (s : Hv) (Q : Result Unit → Hv → List Ev → Prop) :
    (rmDHCPEntry domain).wp s Q ↔
      (Call.rmDHCPEntry domain.Name ∈ s.faults →
        Q (.error (.rpc (.rmDHCPEntry domain.Name))) s [⟨.rmDHCPEntry domain.Name, false⟩]) ∧
      (Call.rmDHCPEntry domain.Name ∉ s.faults →
        (s.findDomain domain.Name = none →
          Q (.error (.libvirt .errNoDomain)) s [⟨.rmDHCPEntry domain.Name, false⟩]) ∧
        (∀ d, s.findDomain domain.Name = some d →
          Q (.ok ()) (s.delHosts d.mac) [⟨.rmDHCPEntry domain.Name, true⟩])) := by
  rw [rmDHCPEntry, wp_call]
  cases h : s.findDomain domain.Name with
  | none => simp
  | some d => simp

theorem wp_addDHCPEntry (mac id : Nat) (s : Hv) (Q : Result Nat → Hv → List Ev → Prop) :
    (addDHCPEntry mac id).wp s Q ↔
      (Call.addDHCPEntry mac id ∈ s.faults →
        Q (.error (.rpc (.addDHCPEntry mac id))) s [⟨.addDHCPEntry mac id, false⟩]) ∧
      (Call.addDHCPEntry mac id ∉ s.faults →
        Q (.ok id) { s with hosts := s.hosts ++ [⟨mac, id⟩] } [⟨.addDHCPEntry mac id, true⟩]) := by
  rw [addDHCPEntry, wp_call]

theorem wp_vmVolumeXML (name path : String) (sizeB : Nat) (s : Hv)
    (Q : Result (String × Nat) → Hv → List Ev → Prop) :
    (vmVolumeXML name path sizeB).wp s Q ↔
      (Call.vmVolumeXML name ∈ s.faults →
        Q (.error (.rpc (.vmVolumeXML name))) s [⟨.vmVolumeXML name, false⟩]) ∧
      (Call.vmVolumeXML name ∉ s.faults →
        Q (.ok (name, sizeB)) s [⟨.vmVolumeXML name, true⟩]) := by
  rw [vmVolumeXML, wp_call]


theorem wp_diskVolumeXML (name : String) (size : Nat) (u fmt : String) (s : Hv)
    (Q : Result (String × Nat) → Hv → List Ev → Prop) :
    (diskVolumeXML name size u fmt).wp s Q ↔
      (Call.diskVolumeXML name ∈ s.faults →
        Q (.error (.rpc (.diskVolumeXML name))) s [⟨.diskVolumeXML name, false⟩]) ∧
      (Call.diskVolumeXML name ∉ s.faults →
        Q (.ok (name, size * 1024)) s [⟨.diskVolumeXML name, true⟩]) := by
  rw [diskVolumeXML, wp_call]

theorem wp_vmXML (vmConfig : VMConfig) (s : Hv)
    (Q : Result (String × List String) → Hv → List Ev → Prop) :
    (vmXML vmConfig).wp s Q ↔
      (Call.vmXML vmConfig.Name ∈ s.faults →
        Q (.error (.rpc (.vmXML vmConfig.Name))) s [⟨.vmXML vmConfig.Name, false⟩]) ∧
      (Call.vmXML vmConfig.Name ∉ s.faults →
        Q (.ok (vmConfig.Name, vmImages vmConfig)) s [⟨.vmXML vmConfig.Name, true⟩]) := by
  rw [vmXML, wp_call]

theorem wp_getSSHClientConfig (s : Hv) (Q : Result Unit → Hv → List Ev → Prop) :
    getSSHClientConfig.wp s Q ↔
      (Call.ParsePrivateKey ∈ s.faults →
        Q (.error (.rpc .ParsePrivateKey)) s [⟨.ParsePrivateKey, false⟩]) ∧
      (Call.ParsePrivateKey ∉ s.faults → Q (.ok ()) s [⟨.ParsePrivateKey, true⟩]) := by
  rw [getSSHClientConfig, wp_call]

theorem wp_tryDialSSH (s : Hv) (Q : Result Unit → Hv → List Ev → Prop) :
    tryDialSSH.wp s Q ↔
      (Call.Dial ∈ s.faults → Q (.error (.rpc .Dial)) s [⟨.Dial, false⟩]) ∧
      (Call.Dial ∉ s.faults → Q (.ok ()) s [⟨.Dial, true⟩]) := by
  rw [tryDialSSH, wp_call]

/-! ## State updates -/

@[simp] theorem delVol_domains (s : Hv) (v : String) : (s.delVol v).domains = s.domains := rfl
@[simp] theorem delVol_hosts (s : Hv) (v : String) : (s.delVol v).hosts = s.hosts := rfl
@[simp] theorem delVol_faults (s : Hv) (v : String) : (s.delVol v).faults = s.faults := rfl
@[simp] theorem delVol_findDomain (s : Hv) (v n : String) :
    (s.delVol v).findDomain n = s.findDomain n := rfl
@[simp] theorem delHosts_domains (s : Hv) (m : Nat) : (s.delHosts m).domains = s.domains := rfl
@[simp] theorem delHosts_vols (s : Hv) (m : Nat) : (s.delHosts m).vols = s.vols := rfl
@[simp] theorem delHosts_faults (s : Hv) (m : Nat) : (s.delHosts m).faults = s.faults := rfl
@[simp] theorem delHosts_findDomain (s : Hv) (m : Nat) (n : String) :
    (s.delHosts m).findDomain n = s.findDomain n := rfl
@[simp] theorem delHosts_findVol (s : Hv) (m : Nat) (n : String) :
    (s.delHosts m).findVol n = s.findVol n := rfl
@[simp] theorem updDomain_vols (s : Hv) (n : String) (f : DomainState → Option DomainState) :
    (s.updDomain n f).vols = s.vols := rfl
@[simp] theorem updDomain_hosts (s : Hv) (n : String) (f : DomainState → Option DomainState) :
    (s.updDomain n f).hosts = s.hosts := rfl
@[simp] theorem updDomain_faults (s : Hv) (n : String) (f : DomainState → Option DomainState) :
    (s.updDomain n f).faults = s.faults := rfl
@[simp] theorem updDomain_findVol (s : Hv) (n m : String)
    (f : DomainState → Option DomainState) : (s.updDomain n f).findVol m = s.findVol m := rfl

theorem mutCalls_append (t1 t2 : List Ev) : mutCalls (t1 ++ t2) = mutCalls t1 ++ mutCalls t2 := by
  simp [mutCalls]

theorem mutCalls_nil : mutCalls [] = [] := rfl

theorem mutCalls_cons (c : Call) (b : Bool) (t : List Ev) :
    mutCalls (⟨c, b⟩ :: t) = if c.mutating then c :: mutCalls t else mutCalls t := by
  by_cases h : c.mutating = true <;> simp [mutCalls, h]

theorem delVol_of_findVol_none {s : Hv} {v : String} (h : s.findVol v = none) :
    s.delVol v = s := by
  have hv : s.vols.filter (fun x => decide (x.Name ≠ v)) = s.vols := by
    rw [List.filter_eq_self]
    intro a ha
    have := List.find?_eq_none.1 h a ha
    simpa using this
  unfold Hv.delVol
  rw [hv]

theorem findVol_delVol_ne (s : Hv) (v n : String) (h : v ≠ n) :
    (s.delVol v).findVol n = s.findVol n := by
  unfold Hv.findVol Hv.delVol
  simp only
  induction s.vols with
  | nil => rfl
  | cons x xs ih =>
    by_cases hx : x.Name = v
    · have hn : ¬ x.Name = n := fun h2 => h (hx ▸ h2)
      rw [List.filter_cons_of_neg (by simpa using hx), List.find?_cons_of_neg _ (by simpa using hn)]
      exact ih
    · rw [List.filter_cons_of_pos (by simpa using hx)]
      by_cases hn : x.Name = n
      · rw [List.find?_cons_of_pos _ (by simpa using hn), List.find?_cons_of_pos _ (by simpa using hn)]
      · rw [List.find?_cons_of_neg _ (by simpa using hn), List.find?_cons_of_neg _ (by simpa using hn)]
        exact ih

theorem rmVolume_spec (v dbg : String) (s : Hv) :
    (rmVolume v dbg).wp s (fun r s1 t =>
      (s1 = s ∨ s1 = s.delVol v) ∧
      (s.faults = [] → r = .ok () ∧ s1 = s.delVol v) ∧
      ((∀ e ∈ t, e.ok = true) → r = .ok () ∧ mutCalls t = [.StorageVolDelete v])) := by
  simp only [rmVolume, wp_bind, wp_attempt, wp_ite, wp_pure, wp_fail, wp_wrapErr,
    wp_StorageVolLookupByName, wp_StorageVolDelete]
  cases h : s.findVol v with
  | none =>
    simp [hasErrorCode, delVol_of_findVol_none h]
    intro hm hf
    simp [hf] at hm
  | some vol =>
    simp [hasErrorCode, mutCalls, Call.mutating]
    refine ⟨fun hm hf => ?_, fun _ hm hf => ?_⟩ <;> simp [hf] at hm

theorem find_filterMap_first (l : List DomainState) (n : String)
    (f : DomainState → Option DomainState) (d d2 : DomainState)
    (h : l.find? (fun x => decide (x.Name = n)) = some d) (hf : f d = some d2)
    (hn : d2.Name = n) :
    (l.filterMap (fun x => if x.Name = n then f x else some x)).find?
      (fun x => decide (x.Name = n)) = some d2 := by
  induction l with
  | nil => simp at h
  | cons x xs ih =>
    by_cases hx : x.Name = n
    · simp only [List.find?_cons, hx, decide_True] at h
      cases h
      simp [List.filterMap_cons, hx, hf, hn]
    · simp only [List.find?_cons, hx, decide_False] at h
      simp only [List.filterMap_cons, hx, if_false, List.find?_cons, decide_False]
      exact ih h

theorem filterMap_of_find_none (l : List DomainState) (n : String)
    (f : DomainState → Option DomainState)
    (h : l.find? (fun x => decide (x.Name = n)) = none) :
    l.filterMap (fun x => if x.Name = n then f x else some x) = l := by
  induction l with
  | nil => rfl
  | cons x xs ih =>
    by_cases hx : x.Name = n
    · simp [List.find?_cons, hx] at h
    · simp only [List.find?_cons, hx, decide_False] at h
      simp only [List.filterMap_cons, hx, if_false]
      rw [ih h]

theorem findDomain_updDomain_first (s : Hv) (n : String) (f : DomainState → Option DomainState)
    (d d2 : DomainState) (h : s.findDomain n = some d) (hf : f d = some d2) (hn : d2.Name = n) :
    (s.updDomain n f).findDomain n = some d2 :=
  find_filterMap_first s.domains n f d d2 h hf hn

theorem updDomain_of_findDomain_none (s : Hv) (n : String)
    (f : DomainState → Option DomainState) (h : s.findDomain n = none) : s.updDomain n f = s := by
  unfold Hv.updDomain
  rw [filterMap_of_find_none s.domains n f h]

theorem rmSnapshotsLoop_spec (domain : Domain) (l : List String) (s : Hv) :
    (rmSnapshotsLoop domain l).wp s (fun r s1 t =>
      s1.vols = s.vols ∧ s1.hosts = s.hosts ∧ s1.faults = s.faults ∧
      (s.findDomain domain.Name = none → s1 = s) ∧
      (∀ d, s.findDomain domain.Name = some d →
        ∃ sn, s1.findDomain domain.Name = some { d with snapshots := sn }) ∧
      (s.faults = [] → (∀ d, s.findDomain domain.Name = some d → d.snapshots = l) →
        s.findDomain domain.Name ≠ none → r = .ok ()) ∧
      ((∀ e ∈ t, e.ok = true) →
        r = .ok () ∧ mutCalls t = l.map (Call.DomainSnapshotDelete domain.Name))) := by
  induction l generalizing s with
  | nil =>
    simp only [rmSnapshotsLoop, wp_pure, mutCalls_nil, List.map_nil, and_self, implies_true,
      true_and, and_true]
    intro d hd
    exact ⟨d.snapshots, hd⟩
  | cons x rest ih =>
    rw [rmSnapshotsLoop]
    simp only [wp_bind, wp_wrapErr, wp_DomainSnapshotDelete]
    refine ⟨fun hflt => ?_, fun hnf => ⟨fun hnone => ?_, fun d hd => ⟨fun hmem => ?_, fun hnm => ?_⟩⟩⟩
    · refine ⟨trivial, trivial, trivial, fun _ => trivial, fun d hd => ⟨d.snapshots, hd⟩, ?_, ?_⟩
      · intro hf; rw [hf] at hflt; simp at hflt
      · intro h; simpa using h _ (List.mem_singleton_self _)
    · refine ⟨trivial, trivial, trivial, fun _ => trivial, fun d hd => ⟨d.snapshots, hd⟩, ?_, ?_⟩
      · intro _ _ h; exact absurd hnone h
      · intro h; simpa using h _ (List.mem_singleton_self _)
    · have hfind := findDomain_updDomain_first s domain.Name
        (fun d => some { d with snapshots := d.snapshots.erase x }) d
        { d with snapshots := d.snapshots.erase x } hd rfl (by simpa using findDomain_name hd)
      refine wp_mono (ih _) ?_
      rintro r s1 t ⟨h1, h2, h3, -, h5, h6, h7⟩
      refine ⟨by simpa using h1, by simpa using h2, by simpa using h3, ?_, ?_, ?_, ?_⟩
      · intro hnone; rw [hnone] at hd; simp at hd
      · intro d' hd'
        rw [hd] at hd'; cases hd'
        obtain ⟨sn, hsn⟩ := h5 _ hfind
        exact ⟨sn, hsn⟩
      · intro hf hall _
        refine h6 (by simpa using hf) ?_ (by rw [hfind]; simp)
        intro d' hd'
        rw [hfind] at hd'; cases hd'
        simp [hall d hd]
      · intro hall
        have hall2 : ∀ e ∈ t, e.ok = true := fun e he => hall e (by simp [he])
        obtain ⟨hr, hm⟩ := h7 hall2
        refine ⟨hr, ?_⟩
        rw [mutCalls_append, hm]
        simp [mutCalls, Call.mutating]
    · refine ⟨trivial, trivial, trivial, fun _ => trivial, fun d hd => ⟨d.snapshots, hd⟩, ?_, ?_⟩
      · intro _ hall _
        rw [hall d hd] at hnm
        simp at hnm
      · intro h; simpa using h _ (List.mem_singleton_self _)

theorem rmDisksLoop_spec (vmName : String) (disks : List String) (s : Hv) :
    (rmDisksLoop vmName disks).wp s (fun r s1 t =>
      s1 = { s with vols := s1.vols } ∧ s1.findVol vmName = s.findVol vmName ∧
      (s.faults = [] →
        r = .ok () ∧
        s1.vols = s.vols.filter (fun x => decide (x.Name = vmName ∨ x.Name ∉ disks))) ∧
      ((∀ e ∈ t, e.ok = true) →
        r = .ok () ∧
        mutCalls t = (disks.filter (fun d => decide (d ≠ vmName))).map Call.StorageVolDelete)) := by
  induction disks generalizing s with
  | nil =>
    simp [rmDisksLoop, wp_pure, mutCalls_nil]
  | cons d rest ih =>
    rw [rmDisksLoop]
    by_cases hd : d = vmName
    · simp only [hd, if_true]
      refine wp_mono (ih s) ?_
      rintro r s1 t ⟨h1, h2, h3, h4⟩
      refine ⟨h1, h2, fun hf => ?_, fun hall => ?_⟩
      · obtain ⟨hr, hv⟩ := h3 hf
        refine ⟨hr, ?_⟩
        rw [hv]
        apply List.filter_congr
        intro x _
        by_cases hx : x.Name = vmName <;> simp [hx]
      · obtain ⟨hr, hm⟩ := h4 hall
        refine ⟨hr, ?_⟩
        simp [hm]
    · simp only [hd, if_false, wp_bind]
      refine wp_mono (rmVolume_spec d "disk" s) ?_
      rintro r s1 t ⟨h1, h2, h3⟩
      have hs1 : s1 = { s with vols := s1.vols } := by
        rcases h1 with h | h
        · rw [h]
        · rw [h]; rfl
      have hfv : s1.findVol vmName = s.findVol vmName := by
        rcases h1 with h | h
        · rw [h]
        · rw [h, findVol_delVol_ne s d vmName hd]
      cases r with
      | hang =>
        refine ⟨hs1, hfv, fun hf => ?_, fun hall => ?_⟩
        · exact absurd (h2 hf).1 (by simp)
        · exact absurd (h3 hall).1 (by simp)
      | error e =>
        refine ⟨hs1, hfv, fun hf => ?_, fun hall => ?_⟩
        · exact absurd (h2 hf).1 (by simp)
        · exact absurd (h3 hall).1 (by simp)
      | ok u =>
        refine wp_mono (ih s1) ?_
        rintro r2 s2 t2 ⟨g1, g2, g3, g4⟩
        refine ⟨?_, g2.trans hfv, fun hf => ?_, fun hall => ?_⟩
        · rw [g1, hs1]
        · have hf1 : s1.faults = [] := by rw [hs1]; exact hf
          obtain ⟨hr, hv⟩ := g3 hf1
          refine ⟨hr, ?_⟩
          rw [hv, (h2 hf).2]
          unfold Hv.delVol
          simp only [List.filter_filter]
          apply List.filter_congr
          intro x _
          by_cases hx : x.Name = vmName
          · have hne : ¬ vmName = d := fun h => hd h.symm
            simp [hx, hne]
          · by_cases hxd : x.Name = d
            · simp [hx, hxd, hd]
            · simp [hx, hxd]
        · have ha1 : ∀ e ∈ t, e.ok = true := fun e he => hall e (by simp [he])
          have ha2 : ∀ e ∈ t2, e.ok = true := fun e he => hall e (by simp [he])
          obtain ⟨hr, hm⟩ := g4 ha2
          refine ⟨hr, ?_⟩
          rw [mutCalls_append, hm, (h3 ha1).2]
          simp [hd]

theorem wp_triv {α : Type} (m : Op α) (s : Hv) : m.wp s (fun _ _ _ => True) ↔ True :=
  ⟨fun _ => trivial, fun _ => trivial⟩

@[simp] theorem bad_nil : Bad [] ↔ False := by simp [Bad]
@[simp] theorem bad_append (t1 t2 : List Ev) : Bad (t1 ++ t2) ↔ Bad t1 ∨ Bad t2 := by
  simp only [Bad, List.mem_append]
  constructor
  · rintro ⟨e, he | he, h⟩
    · exact Or.inl ⟨e, he, h⟩
    · exact Or.inr ⟨e, he, h⟩
  · rintro (⟨e, he, h⟩ | ⟨e, he, h⟩)
    · exact ⟨e, Or.inl he, h⟩
    · exact ⟨e, Or.inr he, h⟩
@[simp] theorem bad_cons (c : Call) (b : Bool) (t : List Ev) :
    Bad (⟨c, b⟩ :: t) ↔ b = false ∨ Bad t := by
  simp [Bad]

theorem not_bad_iff (t : List Ev) : ¬ Bad t ↔ ∀ e ∈ t, e.ok = true := by
  simp [Bad]

theorem bad_or_of_allOk {t : List Ev} {P : Prop} (h : (∀ e ∈ t, e.ok = true) → P) : Bad t ∨ P := by
  by_cases hb : Bad t
  · exact Or.inl hb
  · exact Or.inr (h ((not_bad_iff t).1 hb))

theorem vmRmExceptBoot_trace (vmName : String) (s : Hv) :
    (vmRmExceptBoot vmName).wp s (fun r _ t =>
      Bad t ∨ ∃ d, s.findDomain vmName = some d ∧ r = .ok () ∧
        mutCalls t = teardownCalls vmName d) := by
  rw [vmRmExceptBoot]
  simp only [wp_bind, wp_attempt, wp_DomainLookupByName]
  refine ⟨fun _ => by simp [wp_triv], fun _ => ⟨fun _ => by simp [hasErrorCode, wp_pure], fun d hd => ?_⟩⟩
  simp only [hasErrorCode, Bool.not_false, if_true, getDisksOfDomain, rmSnapshots, wp_bind,
    wp_wrapErr, wp_pure, wp_DomainGetXMLDesc, wp_DomainListAllSnapshots, hd]
  refine ⟨fun _ => by simp, fun _ => ⟨by simp, ?_⟩⟩
  intro d' hd'
  cases hd'
  refine ⟨fun _ => by simp, fun _ => ⟨by simp, ?_⟩⟩
  intro d' hd'
  cases hd'
  refine wp_mono (rmSnapshotsLoop_spec ⟨vmName, d.ID⟩ d.snapshots s) ?_
  rintro r s1 t ⟨-, -, -, -, hfind, -, htr⟩
  obtain ⟨sn, hfind1⟩ := hfind d hd
  have hbm := bad_or_of_allOk htr
  cases r with
  | hang => rcases hbm with hb | ⟨hr, -⟩
            · simp [hb]
            · cases hr
  | error e => rcases hbm with hb | ⟨hr, -⟩
               · simp [hb]
               · cases hr
  | ok u =>
    simp only [wp_DomainIsActive, wp_DomainIsPersistent, wp_rmDHCPEntry, wp_ite, wp_DomainDestroy,
      wp_DomainUndefine, hfind1, wp_pure, wp_wrapErr, wp_bind]
    simp only [delHosts_findDomain, hfind1, reduceCtorEq, false_implies, true_and,
      Option.some.injEq, forall_eq', bad_append, bad_cons, bad_nil, or_false, or_true, true_or,
      implies_true, Bool.true_eq_false, false_or, Bool.false_eq_true]
    intro _ _ _
    have fin : ∀ (s2 : Hv) (pre : List Call),
        (Bad t ∨ mutCalls t = d.snapshots.map (Call.DomainSnapshotDelete vmName)) →
        d.snapshots.map (Call.DomainSnapshotDelete vmName) ++ pre ++
          (d.disks.filter (fun x => decide (x ≠ vmName))).map Call.StorageVolDelete =
          teardownCalls vmName d →
        (rmDisksLoop vmName d.disks).wp s2 (fun r2 _ t2 =>
          (Bad t ∨ Bad t2) ∨ (r2 = .ok () ∧
            mutCalls t ++ pre ++ mutCalls t2 = teardownCalls vmName d)) := by
      intro s2 pre hbm2 hpre
      refine wp_mono (rmDisksLoop_spec vmName d.disks s2) ?_
      rintro r2 s3 t2 ⟨-, -, -, h4⟩
      rcases hbm2 with hb | hm
      · exact Or.inl (Or.inl hb)
      · rcases bad_or_of_allOk h4 with hb2 | ⟨hr2, hm2⟩
        · exact Or.inl (Or.inr hb2)
        · exact Or.inr ⟨hr2, by rw [hm, hm2]; exact hpre⟩
    have hbm3 : Bad t ∨ mutCalls t = d.snapshots.map (Call.DomainSnapshotDelete vmName) := by
      rcases hbm with hb | ⟨-, hm⟩
      · exact Or.inl hb
      · exact Or.inr hm
    cases ha : d.active <;> cases hp : d.persistent <;>
      simp only [ha, hp, if_true, if_false, ne_eq, not_true_eq_false, not_false_eq_true,
        false_implies, true_implies, true_and, and_true, one_ne_zero, Bool.false_eq_true,
        delHosts_faults, updDomain_faults, implies_true]
    · refine wp_mono (fin _ [Call.rmDHCPEntry vmName] hbm3 (by simp [teardownCalls, ha, hp])) ?_
      rintro r2 s2 t2 (hb | ⟨hr, hm⟩)
      · exact Or.inl hb
      · refine Or.inr ⟨d, rfl, hr, ?_⟩
        rw [← hm]
        simp [mutCalls_append, mutCalls_cons, Call.mutating]
    · intros
      refine wp_mono (fin _ [Call.rmDHCPEntry vmName, Call.DomainUndefine vmName] hbm3 (by simp [teardownCalls, ha, hp])) ?_
      rintro r2 s2 t2 (hb | ⟨hr, hm⟩)
      · exact Or.inl hb
      · refine Or.inr ⟨d, rfl, hr, ?_⟩
        rw [← hm]
        simp [mutCalls_append, mutCalls_cons, Call.mutating]
    · intros
      refine wp_mono (fin _ [Call.rmDHCPEntry vmName, Call.DomainDestroy vmName] hbm3 (by simp [teardownCalls, ha, hp])) ?_
      rintro r2 s2 t2 (hb | ⟨hr, hm⟩)
      · exact Or.inl hb
      · refine Or.inr ⟨d, rfl, hr, ?_⟩
        rw [← hm]
        simp [mutCalls_append, mutCalls_cons, Call.mutating]
    · intros
      refine wp_mono (fin _ [Call.rmDHCPEntry vmName, Call.DomainDestroy vmName, Call.DomainUndefine vmName] hbm3 (by simp [teardownCalls, ha, hp])) ?_
      rintro r2 s2 t2 (hb | ⟨hr, hm⟩)
      · exact Or.inl hb
      · refine Or.inr ⟨d, rfl, hr, ?_⟩
        rw [← hm]
        simp [mutCalls_append, mutCalls_cons, Call.mutating]

theorem VMRm_trace (vmName : String) (s : Hv) :
    (VMRm vmName).wp s (fun r _ t =>
      Bad t ∨ ∃ d, s.findDomain vmName = some d ∧ r = .ok () ∧
        mutCalls t = teardownCalls vmName d ++ [Call.StorageVolDelete vmName]) := by
  rw [VMRm]
  simp only [wp_bind, wp_wrapErr, wp_StoragePoolLookupByName]
  refine ⟨fun _ => by simp, fun _ => ?_⟩
  refine wp_mono (vmRmExceptBoot_trace vmName s) ?_
  rintro r s1 t (hb | ⟨d, hd, hr, hm⟩)
  · cases r <;> simp [hb, wp_triv]
  · subst hr
    refine wp_mono (rmVolume_spec vmName "boot" s1) ?_
    rintro r2 s2 t2 ⟨-, -, h3⟩
    rcases bad_or_of_allOk h3 with hb | ⟨hr2, hm2⟩
    · simp [hb]
    · refine Or.inr ⟨d, hd, hr2, ?_⟩
      simp [mutCalls_append, mutCalls_cons, Call.mutating, hm, hm2, mutCalls_nil]

theorem vmRmExceptBoot_ok (vmName : String) (s : Hv) (hf : s.faults = []) :
    (vmRmExceptBoot vmName).wp s (fun r s1 _ =>
      r = .ok () ∧ s1.faults = [] ∧ s1.findVol vmName = s.findVol vmName ∧
      (s.findDomain vmName = none → s1 = s)) := by
  rw [vmRmExceptBoot]
  simp only [wp_bind, wp_attempt, wp_DomainLookupByName, hf, List.not_mem_nil, false_implies,
    not_false_eq_true, true_implies, true_and]
  refine ⟨fun _ => by simp [hasErrorCode, wp_pure, hf], fun d hd => ?_⟩
  simp only [hasErrorCode, Bool.not_false, if_true, getDisksOfDomain, rmSnapshots, wp_bind,
    wp_wrapErr, wp_pure, wp_DomainGetXMLDesc, wp_DomainListAllSnapshots, hd, hf,
    List.not_mem_nil, false_implies, not_false_eq_true, true_implies, true_and, reduceCtorEq,
    Option.some.injEq, forall_eq']
  refine wp_mono (rmSnapshotsLoop_spec ⟨vmName, d.ID⟩ d.snapshots s) ?_
  rintro r s1 t ⟨hv1, -, hf1, -, hfind, hok, -⟩
  obtain ⟨sn, hfind1⟩ := hfind d hd
  have hr := hok hf (fun d' hd' => by rw [hd] at hd'; cases hd'; rfl) (by rw [hd]; simp)
  subst hr
  rw [hf] at hf1
  simp only [wp_DomainIsActive, wp_DomainIsPersistent, wp_rmDHCPEntry, wp_ite, wp_DomainDestroy,
    wp_DomainUndefine, hfind1, wp_pure, wp_wrapErr, wp_bind, hf1, delHosts_findDomain,
    delHosts_faults, updDomain_faults,
    List.not_mem_nil, false_implies, not_false_eq_true, true_implies, true_and, reduceCtorEq,
    Option.some.injEq, forall_eq']
  have fin : ∀ (s2 : Hv), s2.faults = [] → s2.findVol vmName = s.findVol vmName →
      (rmDisksLoop vmName d.disks).wp s2 (fun r2 s3 _ =>
        r2 = .ok () ∧ s3.faults = [] ∧ s3.findVol vmName = s.findVol vmName) := by
    intro s2 hf2 hv2
    refine wp_mono (rmDisksLoop_spec vmName d.disks s2) ?_
    rintro r2 s3 t2 ⟨h1, h2, h3, -⟩
    refine ⟨(h3 hf2).1, ?_, h2.trans hv2⟩
    rw [h1]; exact hf2
  have hvs1 : s1.findVol vmName = s.findVol vmName := by
    unfold Hv.findVol; rw [hv1]
  cases ha : d.active <;> cases hp : d.persistent <;>
    simp only [ha, hp, if_true, if_false, ne_eq, not_true_eq_false, not_false_eq_true,
      false_implies, true_implies, true_and, and_true, one_ne_zero, Bool.false_eq_true,
      implies_true]
  · exact fin _ (by simpa using hf1) (by simpa using hvs1)
  · refine ⟨fin _ (by simpa using hf1) (by simpa using hvs1), by simp⟩
  · refine ⟨fin _ (by simpa using hf1) (by simpa using hvs1), by simp⟩
  · have hfd := findDomain_updDomain_first (s1.delHosts d.mac) vmName
      (fun d => if d.persistent = true then some { d with active := false } else none)
      { d with snapshots := sn } { d with snapshots := sn, active := false }
      (by simpa using hfind1) (by simp [hp]) (by simpa using findDomain_name hd)
    simp only [hfd, reduceCtorEq, false_implies, true_and, Option.some.injEq, forall_eq', hp,
      true_implies, and_true]
    exact fin _ (by simpa using hf1) (by simpa using hvs1)

theorem VMCommit_run (arrivals : List Sel) (vmName : String) (s : Hv) (d : DomainState)
    (hf : s.faults = []) (hdom : s.findDomain vmName = some d) (hina : d.active = false) :
    (VMCommit arrivals vmName false s).res = (vmRmExceptBoot vmName s).res ∧
    (VMCommit arrivals vmName false s).st = (vmRmExceptBoot vmName s).st := by
  have key : (VMCommit arrivals vmName false).wp s (fun r s1 _ =>
      r = (vmRmExceptBoot vmName s).res ∧ s1 = (vmRmExceptBoot vmName s).st) := by
    simp only [VMCommit, wp_bind, wp_wrapErr, wp_ite, wp_fail, wp_pure, wp_DomainLookupByName,
      wp_DomainIsActive, wp_StoragePoolLookupByName, hdom, hf, hina]
    simp [hina]
    exact ⟨rfl, rfl⟩
  exact key

theorem VMRm_run (vmName : String) (s : Hv) (hf : s.faults = [])
    (hok : (vmRmExceptBoot vmName s).res = .ok ()) :
    (VMRm vmName s).res = (rmVolume vmName "boot" (vmRmExceptBoot vmName s).st).res ∧
    (VMRm vmName s).st = (rmVolume vmName "boot" (vmRmExceptBoot vmName s).st).st := by
  have key : (VMRm vmName).wp s (fun r s1 _ =>
      r = (rmVolume vmName "boot" (vmRmExceptBoot vmName s).st).res ∧
      s1 = (rmVolume vmName "boot" (vmRmExceptBoot vmName s).st).st) := by
    simp only [VMRm, wp_bind, wp_wrapErr, wp_StoragePoolLookupByName, hf]
    simp
    unfold Op.wp
    rw [hok]
    exact ⟨rfl, rfl⟩
  exact key

theorem VMCommit_calls (arrivals : List Sel) (vmName : String) (s : Hv) (d : DomainState)
    (hf : s.faults = []) (hdom : s.findDomain vmName = some d) (hina : d.active = false) :
    mutCalls (VMCommit arrivals vmName false s).tr = mutCalls (vmRmExceptBoot vmName s).tr := by
  have key : (VMCommit arrivals vmName false).wp s (fun _ _ t =>
      mutCalls t = mutCalls (vmRmExceptBoot vmName s).tr) := by
    simp only [VMCommit, wp_bind, wp_wrapErr, wp_ite, wp_fail, wp_pure, wp_DomainLookupByName,
      wp_DomainIsActive, wp_StoragePoolLookupByName, hdom, hf, hina]
    simp [hina, mutCalls_append, mutCalls_cons, Call.mutating]
    rfl
  exact key

theorem VMRm_calls (vmName : String) (s : Hv) (hf : s.faults = [])
    (hok : (vmRmExceptBoot vmName s).res = .ok ()) :
    mutCalls (VMRm vmName s).tr = mutCalls (vmRmExceptBoot vmName s).tr ++
      mutCalls (rmVolume vmName "boot" (vmRmExceptBoot vmName s).st).tr := by
  have key : (VMRm vmName).wp s (fun _ _ t =>
      mutCalls t = mutCalls (vmRmExceptBoot vmName s).tr ++
        mutCalls (rmVolume vmName "boot" (vmRmExceptBoot vmName s).st).tr) := by
    simp only [VMRm, wp_bind, wp_wrapErr, wp_StoragePoolLookupByName, hf]
    simp
    unfold Op.wp
    rw [hok]
    simp [mutCalls_append, mutCalls_cons, Call.mutating]
  exact key

theorem VMRm_ok (vmName : String) (s : Hv) (hf : s.faults = []) :
    (VMRm vmName s).res = .ok () ∧
    (VMRm vmName s).st = ((vmRmExceptBoot vmName s).st).delVol vmName := by
  obtain ⟨hr, hf1, -, -⟩ := vmRmExceptBoot_ok vmName s hf
  obtain ⟨h1, h2⟩ := VMRm_run vmName s hf hr
  obtain ⟨-, h3, -⟩ := rmVolume_spec vmName "boot" (vmRmExceptBoot vmName s).st
  obtain ⟨h4, h5⟩ := h3 hf1
  exact ⟨h1.trans h4, h2.trans h5⟩

/-! ## Order of the mutating calls of `VMRm` -/

/-- C1: in every run of `VMRm` in which all calls succeed, the mutating calls
are, in this order: delete each snapshot of the domain, remove the network
lease, destroy the domain if it is active, undefine it if it is persistent,
delete every disk volume of the domain other than the boot volume, delete the
boot volume.  Hence the deletion of the boot volume is the last mutating call,
it occurs nowhere earlier, and the lease removal and the undefine precede it. -/
theorem VMRm_call_order (s : Hv) (vmName : String)
    (hall : ∀ e ∈ (VMRm vmName s).tr, e.ok = true) :
    ∃ d, s.findDomain vmName = some d ∧ (VMRm vmName s).res = .ok () ∧
      mutCalls (VMRm vmName s).tr =
        d.snapshots.map (Call.DomainSnapshotDelete vmName) ++ [Call.rmDHCPEntry vmName] ++
          (if d.active then [Call.DomainDestroy vmName] else []) ++
          (if d.persistent then [Call.DomainUndefine vmName] else []) ++
          (d.disks.filter (fun x => decide (x ≠ vmName))).map Call.StorageVolDelete ++
          [Call.StorageVolDelete vmName] ∧
      ∃ pre, mutCalls (VMRm vmName s).tr = pre ++ [Call.StorageVolDelete vmName] ∧
        Call.StorageVolDelete vmName ∉ pre ∧ Call.rmDHCPEntry vmName ∈ pre ∧
        (d.persistent = true → Call.DomainUndefine vmName ∈ pre) := by
  have key := VMRm_trace vmName s
  unfold Op.wp at key
  rcases key with hb | ⟨d, hd, hr, hm⟩
  · exact absurd hb ((not_bad_iff _).2 hall)
  · refine ⟨d, hd, hr, ?_, teardownCalls vmName d, hm, ?_, ?_, ?_⟩
    · rw [hm]; rfl
    · simp [teardownCalls]
    · simp [teardownCalls]
    · intro hp
      simp [teardownCalls, hp]

/-- Instance: removing the running VM `vm` of `hvRunning`, where every call succeeds. -/
theorem VMRm_call_order_witness :
    (∀ e ∈ (VMRm "vm" hvRunning).tr, e.ok = true) ∧
    mutCalls (VMRm "vm" hvRunning).tr =
      [.rmDHCPEntry "vm", .DomainDestroy "vm", .DomainUndefine "vm",
        .StorageVolDelete "vm-cidata", .StorageVolDelete "vm-d", .StorageVolDelete "vm"] := by
  have hall : ∀ e ∈ (VMRm "vm" hvRunning).tr, e.ok = true := by decide
  obtain ⟨d, hd, -, hm, -⟩ := VMRm_call_order hvRunning "vm" hall
  refine ⟨hall, ?_⟩
  have hd2 : d = ⟨"vm", 1, 100, true, true, ["vm", "vm-cidata", "vm-d"], []⟩ := by
    have h0 : hvRunning.findDomain "vm" =
        some ⟨"vm", 1, 100, true, true, ["vm", "vm-cidata", "vm-d"], []⟩ := by decide
    rw [h0] at hd
    exact (Option.some.inj hd).symm
  rw [hm, hd2]
  decide

/-! ## `VMCommit` on a running VM -/

/-- C3: for an existing active domain `VMCommit` with `shutdown = false`
returns an error and performs no mutation: the state is unchanged and no
mutating call is issued (so no snapshot, lease, domain or volume is removed and
no shutdown or destroy is requested); when the lookup and the activity read
succeed the error is "cannot commit a running VM". -/
theorem VMCommit_running_fails_without_mutation (s : Hv) (vmName : String) (d : DomainState)
    (arrivals : List Sel) (hdom : s.findDomain vmName = some d) (hact : d.active = true) :
    (VMCommit arrivals vmName false s).st = s ∧
    (∀ e ∈ (VMCommit arrivals vmName false s).tr, e.call.mutating = false) ∧
    (∃ err, (VMCommit arrivals vmName false s).res = .error err) ∧
    (Call.DomainLookupByName vmName ∉ s.faults → Call.DomainIsActive vmName ∉ s.faults →
      (VMCommit arrivals vmName false s).res = .error (.msg "cannot commit a running VM")) := by
  have key : (VMCommit arrivals vmName false).wp s (fun r s1 t =>
      s1 = s ∧ (∀ e ∈ t, e.call.mutating = false) ∧ (∃ e, r = .error e) ∧
      (Call.DomainLookupByName vmName ∉ s.faults → Call.DomainIsActive vmName ∉ s.faults →
        r = .error (.msg "cannot commit a running VM"))) := by
    simp only [VMCommit, wp_bind, wp_wrapErr, wp_ite, wp_fail, wp_pure, wp_DomainLookupByName,
      wp_DomainIsActive, hdom]
    simp [hact, Call.mutating]
    tauto
  exact key

/-- Instance: committing the running VM `vm` of `hvRunning` without shutdown. -/
theorem VMCommit_running_fails_without_mutation_witness :
    hvRunning.findDomain "vm" = some ⟨"vm", 1, 100, true, true, ["vm", "vm-cidata", "vm-d"], []⟩ ∧
    (VMCommit [] "vm" false hvRunning).st = hvRunning ∧
    (VMCommit [] "vm" false hvRunning).res = .error (.msg "cannot commit a running VM") :=
  have h := VMCommit_running_fails_without_mutation hvRunning "vm"
    ⟨"vm", 1, 100, true, true, ["vm", "vm-cidata", "vm-d"], []⟩ [] (by decide) (by decide)
  ⟨by decide, h.1, h.2.2.2 (by decide) (by decide)⟩

/-! ## `VMCommit` against `VMRm` -/

/-- C4: for an existing inactive domain, with no call failing, `VMCommit` with
`shutdown = false` and `VMRm` both succeed, the state after `VMRm` is the state
after `VMCommit` followed by `rmVolume` of the boot volume (that is, with the
volume named like the VM deleted), the mutating calls of `VMRm` are those of
`VMCommit` followed by those of that `rmVolume`, and `VMCommit` leaves the boot
volume as it was. -/
theorem VMCommit_same_teardown_except_boot (s : Hv) (vmName : String) (d : DomainState)
    (arrivals : List Sel) (hf : s.faults = []) (hdom : s.findDomain vmName = some d)
    (hina : d.active = false) :
    (VMCommit arrivals vmName false s).res = .ok () ∧
    (VMRm vmName s).res = .ok () ∧
    (VMRm vmName s).st = (rmVolume vmName "boot" (VMCommit arrivals vmName false s).st).st ∧
    (VMRm vmName s).st = ((VMCommit arrivals vmName false s).st).delVol vmName ∧
    mutCalls (VMRm vmName s).tr = mutCalls (VMCommit arrivals vmName false s).tr ++
      mutCalls (rmVolume vmName "boot" (VMCommit arrivals vmName false s).st).tr ∧
    (VMCommit arrivals vmName false s).st.findVol vmName = s.findVol vmName := by
  obtain ⟨hr, -, hv, -⟩ := vmRmExceptBoot_ok vmName s hf
  obtain ⟨c1, c2⟩ := VMCommit_run arrivals vmName s d hf hdom hina
  obtain ⟨r1, r2⟩ := VMRm_run vmName s hf hr
  obtain ⟨k1, k2⟩ := VMRm_ok vmName s hf
  have m1 := VMCommit_calls arrivals vmName s d hf hdom hina
  have m2 := VMRm_calls vmName s hf hr
  exact ⟨c1.trans hr, k1, by rw [c2]; exact r2, by rw [c2]; exact k2, by rw [c2, m1]; exact m2,
    by rw [c2]; exact hv⟩

/-- Instance: committing the stopped VM `vm` of `hvStopped`. -/
theorem VMCommit_same_teardown_except_boot_witness :
    (VMCommit [] "vm" false hvStopped).res = .ok () ∧
    (VMRm "vm" hvStopped).st = ((VMCommit [] "vm" false hvStopped).st).delVol "vm" ∧
    (VMCommit [] "vm" false hvStopped).st.findVol "vm" = some ⟨"vm", 10 * unitG⟩ :=
  have h := VMCommit_same_teardown_except_boot hvStopped "vm"
    ⟨"vm", 1, 100, false, true, ["vm", "vm-cidata", "vm-d"], []⟩ [] rfl (by decide) rfl
  ⟨h.1, h.2.2.2.1, h.2.2.2.2.2.trans (by decide)⟩

/-- C5: for a name without a domain, `VMCommit` returns an error for either
value of `shutdown` and changes nothing, whereas `VMRm` on the same name
returns success (when no call fails). -/
theorem absent_domain_commit_fails_rm_succeeds (s : Hv) (vmName : String)
    (hdom : s.findDomain vmName = none) :
    (∀ (arrivals : List Sel) (shutdown : Bool),
      (∃ err, (VMCommit arrivals vmName shutdown s).res = .error err) ∧
      (VMCommit arrivals vmName shutdown s).st = s ∧
      (∀ e ∈ (VMCommit arrivals vmName shutdown s).tr, e.call.mutating = false)) ∧
    (s.faults = [] → (VMRm vmName s).res = .ok ()) := by
  constructor
  · intro arrivals shutdown
    have key : (VMCommit arrivals vmName shutdown).wp s (fun r s1 t =>
        (∃ e, r = .error e) ∧ s1 = s ∧ (∀ e ∈ t, e.call.mutating = false)) := by
      simp only [VMCommit, wp_bind, wp_wrapErr, wp_DomainLookupByName, hdom]
      simp [Call.mutating]
    exact key
  · intro hf
    exact (VMRm_ok vmName s hf).1

/-- Instance: the name `vm` on `hv0`, where no domain exists. -/
theorem absent_domain_commit_fails_rm_succeeds_witness :
    (∃ err, (VMCommit [] "vm" true hv0).res = .error err) ∧ (VMRm "vm" hv0).res = .ok () :=
  have h := absent_domain_commit_fails_rm_succeeds hv0 "vm" (by decide)
  ⟨(h.1 [] true).1, h.2 rfl⟩

/-! ## `vmShutdown` -/

theorem waitStopped_zero (domain : Domain) (arrivals : List Sel) (s : Hv) :
    waitStopped domain 0 arrivals s = ⟨.ok (), s, []⟩ := by
  rw [waitStopped.eq_def]
  simp
  rfl

theorem waitStopped_event (domain : Domain) (active : Int) (hact : active ≠ 0)
    (ev : DomainEventLifecycleMsg) (rest : List Sel) (s : Hv) :
    waitStopped domain active (Sel.event ev :: rest) s =
      if ev.Dom.ID = domain.ID ∧ ev.Event = DomainEventStopped then ⟨.ok (), s.deliver ev, []⟩
      else waitStopped domain active rest (s.deliver ev) := by
  rw [waitStopped.eq_def]
  simp only [hact, ne_eq, not_false_eq_true, if_true]
  show Op.bind (receive ev) _ s = _
  unfold Op.bind receive
  simp only
  by_cases hm : ev.Dom.ID = domain.ID ∧ ev.Event = DomainEventStopped
  · simp only [hm, and_self, if_true, waitStopped_zero, List.append_nil]
  · simp only [hm, if_false, List.nil_append]

theorem waitStopped_tr (domain : Domain) (active : Int) (arrivals : List Sel) (s : Hv) :
    (waitStopped domain active arrivals s).tr = [] := by
  by_cases h : active = 0
  · subst h; simp [waitStopped_zero]
  · induction arrivals generalizing s with
    | nil => simp [waitStopped, h, hang]
    | cons x rest ih =>
      cases x with
      | timeout => simp [waitStopped, h, fail]
      | event ev =>
        rw [waitStopped_event domain active h]
        split
        · rfl
        · exact ih _

theorem waitStopped_res_eq (domain : Domain) (active : Int) (arrivals : List Sel) (s s2 : Hv) :
    (waitStopped domain active arrivals s).res = (waitStopped domain active arrivals s2).res := by
  by_cases h : active = 0
  · subst h; simp [waitStopped_zero]
  · induction arrivals generalizing s s2 with
    | nil => simp [waitStopped, h, hang]
    | cons x rest ih =>
      cases x with
      | timeout => simp [waitStopped, h, fail]
      | event ev =>
        rw [waitStopped_event domain active h, waitStopped_event domain active h]
        split
        · rfl
        · exact ih _ _

theorem stopBeforeTimeout_cons_event (domain : Domain) (ev : DomainEventLifecycleMsg)
    (rest : List Sel) :
    StopBeforeTimeout domain (Sel.event ev :: rest) ↔
      (ev.Dom.ID = domain.ID ∧ ev.Event = DomainEventStopped) ∨ StopBeforeTimeout domain rest := by
  constructor
  · rintro ⟨pre, e, post, heq, hpre, hid, hk⟩
    cases pre with
    | nil =>
      simp only [List.nil_append, List.cons.injEq, Sel.event.injEq] at heq
      left; rw [heq.1]; exact ⟨hid, hk⟩
    | cons p pre2 =>
      simp only [List.cons_append, List.cons.injEq] at heq
      right
      exact ⟨pre2, e, post, heq.2, fun hmem => hpre (List.mem_cons_of_mem _ hmem), hid, hk⟩
  · rintro (h | ⟨pre, e, post, heq, hpre, hid, hk⟩)
    · exact ⟨[], ev, rest, rfl, by simp, h.1, h.2⟩
    · refine ⟨Sel.event ev :: pre, e, post, by simp [heq], ?_, hid, hk⟩
      simp [hpre]

theorem not_stopBeforeTimeout_nil (domain : Domain) : ¬ StopBeforeTimeout domain [] := by
  rintro ⟨pre, e, post, heq, -⟩
  cases pre <;> simp at heq

theorem not_stopBeforeTimeout_timeout (domain : Domain) (rest : List Sel) :
    ¬ StopBeforeTimeout domain (Sel.timeout :: rest) := by
  rintro ⟨pre, e, post, heq, hpre, -⟩
  cases pre with
  | nil => simp at heq
  | cons p pre2 =>
    simp only [List.cons_append, List.cons.injEq] at heq
    exact hpre (by rw [← heq.1]; simp)

theorem waitStopped_res (domain : Domain) (active : Int) (hact : active ≠ 0)
    (arrivals : List Sel) (s : Hv) :
    (StopBeforeTimeout domain arrivals → (waitStopped domain active arrivals s).res = .ok ()) ∧
    (¬ StopBeforeTimeout domain arrivals → Sel.timeout ∈ arrivals →
      (waitStopped domain active arrivals s).res =
        .error (.msg "timed out waiting for domain to stop")) ∧
    (¬ StopBeforeTimeout domain arrivals → Sel.timeout ∉ arrivals →
      (waitStopped domain active arrivals s).res = .hang) := by
  induction arrivals generalizing s with
  | nil =>
    refine ⟨fun h => absurd h (not_stopBeforeTimeout_nil domain), fun _ h => by simp at h, ?_⟩
    intro _ _
    simp [waitStopped, hact, hang]
  | cons x rest ih =>
    cases x with
    | timeout =>
      refine ⟨fun h => absurd h (not_stopBeforeTimeout_timeout domain rest), ?_, ?_⟩
      · intro _ _
        simp [waitStopped, hact, fail]
      · intro _ h
        simp at h
    | event ev =>
      rw [stopBeforeTimeout_cons_event, waitStopped_event domain active hact]
      by_cases hm : ev.Dom.ID = domain.ID ∧ ev.Event = DomainEventStopped
      · simp [hm]
      · simp only [hm, if_false, false_or, List.mem_cons, reduceCtorEq]
        exact ih _

theorem wp_waitStopped (domain : Domain) (active : Int) (arrivals : List Sel) (s : Hv)
    (Q : Result Unit → Hv → List Ev → Prop) :
    (waitStopped domain active arrivals).wp s Q ↔
      Q (waitStopped domain active arrivals s).res (waitStopped domain active arrivals s).st [] := by
  unfold Op.wp
  rw [waitStopped_tr domain active arrivals s]

theorem waitStopped_skip (domain : Domain) (active : Int) (pre rest : List Sel) (s : Hv)
    (hpre : ∀ x ∈ pre, ∃ ev, x = Sel.event ev ∧
      ¬ (ev.Dom.ID = domain.ID ∧ ev.Event = DomainEventStopped)) :
    (waitStopped domain active (pre ++ rest) s).res = (waitStopped domain active rest s).res := by
  induction pre generalizing s with
  | nil => rfl
  | cons x pre2 ih =>
    obtain ⟨ev, rfl, hne⟩ := hpre x (by simp)
    have ih2 := fun s2 => ih s2 (fun y hy => hpre y (List.mem_cons_of_mem _ hy))
    by_cases h : active = 0
    · subst h; simp [waitStopped_zero]
    · rw [List.cons_append, waitStopped_event domain active h]
      simp only [hne, if_false]
      rw [ih2]
      exact waitStopped_res_eq _ _ _ _ _

theorem deliver_faults (s : Hv) (ev : DomainEventLifecycleMsg) :
    (s.deliver ev).faults = s.faults := by
  unfold Hv.deliver
  split <;> rfl

theorem find_filterMap_keep (l : List DomainState) (n : String) (d : DomainState)
    (f : DomainState → Option DomainState) (hfd : f d = some d)
    (hname : ∀ x y, f x = some y → y.Name = x.Name)
    (h : l.find? (fun x => decide (x.Name = n)) = some d) :
    (l.filterMap f).find? (fun x => decide (x.Name = n)) = some d := by
  induction l with
  | nil => simp at h
  | cons x rest ih =>
    rw [List.find?_cons] at h
    by_cases hx : x.Name = n
    · simp only [hx, decide_True] at h
      cases h
      simp [List.filterMap_cons, hfd, hx]
    · simp only [hx, decide_False] at h
      rw [List.filterMap_cons]
      cases hfx : f x with
      | none => exact ih h
      | some y =>
        have hy : y.Name ≠ n := by rw [hname x y hfx]; exact hx
        simp only [List.find?_cons, hy, decide_False]
        exact ih h

theorem deliver_findDomain (s : Hv) (ev : DomainEventLifecycleMsg) (n : String)
    (d : DomainState) (h : s.findDomain n = some d)
    (hne : ¬ (ev.Dom.ID = d.ID ∧ ev.Event = DomainEventStopped)) :
    (s.deliver ev).findDomain n = some d := by
  unfold Hv.deliver
  by_cases hk : ev.Event = DomainEventStopped
  · simp only [hk, if_true]
    have hid : ¬ d.ID = ev.Dom.ID := fun hc => hne ⟨hc.symm, hk⟩
    unfold Hv.findDomain at h ⊢
    refine find_filterMap_keep s.domains n d _ (by simp [hid]) ?_ h
    intro x y hxy
    by_cases hx : x.ID = ev.Dom.ID
    · simp only [hx, if_true, DomainState.stopped] at hxy
      by_cases hp : x.persistent = true
      · simp only [hp, if_true, Option.some.injEq] at hxy
        rw [← hxy]
      · simp [hp] at hxy
    · simp only [hx, if_false, Option.some.injEq] at hxy
      rw [hxy]
  · simp only [hk, if_false]
    exact h

theorem waitStopped_keeps (domain : Domain) (active : Int) (arrivals : List Sel) (s : Hv)
    (n : String) (d : DomainState) (hd : s.findDomain n = some d) (hid : d.ID = domain.ID)
    (hno : ¬ StopBeforeTimeout domain arrivals) :
    (waitStopped domain active arrivals s).st.findDomain n = some d ∧
    (waitStopped domain active arrivals s).st.faults = s.faults := by
  by_cases h : active = 0
  · subst h; simp [waitStopped_zero, hd]
  · induction arrivals generalizing s with
    | nil => simp [waitStopped, h, hang, hd]
    | cons x rest ih =>
      cases x with
      | timeout => simp [waitStopped, h, fail, hd]
      | event ev =>
        rw [stopBeforeTimeout_cons_event] at hno
        have hm : ¬ (ev.Dom.ID = domain.ID ∧ ev.Event = DomainEventStopped) :=
          fun hc => hno (Or.inl hc)
        rw [waitStopped_event domain active h]
        simp only [hm, if_false]
        have := ih (s.deliver ev) (deliver_findDomain s ev n d hd (by rw [hid]; exact hm))
          (fun hc => hno (Or.inr hc))
        rw [deliver_faults] at this
        exact this

/-- C6, as amended: for a domain that is active when `vmShutdown` reads its
state, with the subscription, the read and the shutdown request succeeding,
`vmShutdown` returns success if and only if a stop event whose domain identity
matches arrives strictly before the timeout fires; when none does and the timer
fires it returns the timed-out error, leaving the domain active; it issues no
destroy; events for another domain or of another kind never end the wait.  For
a domain that is inactive when its state is read, with the subscription and the
read succeeding, `vmShutdown` returns success whatever arrives: it requests no
shutdown, waits for no event and leaves the state as it is. -/
theorem vmShutdown_active_stop_or_timeout (s : Hv) (d : DomainState) (arrivals : List Sel)
    (hdom : s.findDomain d.Name = some d)
    (h1 : Call.LifecycleEvents ∉ s.faults) (h2 : Call.DomainIsActive d.Name ∉ s.faults) :
    (d.active = true → Call.DomainShutdown d.Name ∉ s.faults →
      ((vmShutdown arrivals ⟨d.Name, d.ID⟩ s).res = .ok () ↔
        StopBeforeTimeout ⟨d.Name, d.ID⟩ arrivals) ∧
      (¬ StopBeforeTimeout ⟨d.Name, d.ID⟩ arrivals → Sel.timeout ∈ arrivals →
        (vmShutdown arrivals ⟨d.Name, d.ID⟩ s).res =
          .error (.msg "timed out waiting for domain to stop") ∧
        (vmShutdown arrivals ⟨d.Name, d.ID⟩ s).st.findDomain d.Name = some d) ∧
      (∀ e ∈ (vmShutdown arrivals ⟨d.Name, d.ID⟩ s).tr, ∀ n, e.call ≠ .DomainDestroy n) ∧
      (∀ pre : List Sel,
        (∀ x ∈ pre, ∃ ev, x = Sel.event ev ∧
          ¬ (ev.Dom.ID = d.ID ∧ ev.Event = DomainEventStopped)) →
        (vmShutdown (pre ++ arrivals) ⟨d.Name, d.ID⟩ s).res =
          (vmShutdown arrivals ⟨d.Name, d.ID⟩ s).res)) ∧
    (d.active = false →
      (vmShutdown arrivals ⟨d.Name, d.ID⟩ s).res = .ok () ∧
      (vmShutdown arrivals ⟨d.Name, d.ID⟩ s).st = s ∧
      (vmShutdown arrivals ⟨d.Name, d.ID⟩ s).tr =
        [⟨.LifecycleEvents, true⟩, ⟨.DomainIsActive d.Name, true⟩]) := by
  constructor
  · intro hact h3
    have key : ∀ arr : List Sel, (vmShutdown arr ⟨d.Name, d.ID⟩).wp s (fun r s1 t =>
        r = (waitStopped ⟨d.Name, d.ID⟩ 1 arr s).res ∧
        s1 = (waitStopped ⟨d.Name, d.ID⟩ 1 arr s).st ∧
        ∀ e ∈ t, ∀ n, e.call ≠ .DomainDestroy n) := by
      intro arr
      simp only [vmShutdown, wp_bind, wp_wrapErr, wp_ite, wp_pure, wp_LifecycleEvents,
        wp_DomainIsActive, wp_DomainShutdown, wp_waitStopped, hdom]
      simp [hact, h1, h2, h3]
    have hw := waitStopped_res ⟨d.Name, d.ID⟩ 1 (by decide) arrivals s
    obtain ⟨hr, hs, ht⟩ := key arrivals
    refine ⟨?_, ?_, ht, ?_⟩
    · rw [hr]
      constructor
      · intro hok
        by_contra hn
        by_cases hto : Sel.timeout ∈ arrivals
        · rw [hw.2.1 hn hto] at hok
          exact absurd hok (by simp)
        · rw [hw.2.2 hn hto] at hok
          exact absurd hok (by simp)
      · exact hw.1
    · intro hn hto
      rw [hr, hs]
      exact ⟨hw.2.1 hn hto, (waitStopped_keeps ⟨d.Name, d.ID⟩ 1 arrivals s d.Name d hdom rfl hn).1⟩
    · intro pre hpre
      rw [hr, (key (pre ++ arrivals)).1, waitStopped_skip ⟨d.Name, d.ID⟩ 1 pre arrivals s hpre]
  · intro hina
    have key : (vmShutdown arrivals ⟨d.Name, d.ID⟩).wp s (fun r s1 t =>
        r = .ok () ∧ s1 = s ∧ t = [⟨.LifecycleEvents, true⟩, ⟨.DomainIsActive d.Name, true⟩]) := by
      simp only [vmShutdown, wp_bind, wp_wrapErr, wp_ite, wp_pure, wp_LifecycleEvents,
        wp_DomainIsActive, wp_DomainShutdown, wp_waitStopped, hdom]
      simp [hina, h1, h2, waitStopped_zero]
    exact key

/-- Instance: the running VM `vm`, with an event of another domain, then its stop
event, then the timer: the shutdown succeeds and the domain has stopped. -/
theorem vmShutdown_active_stop_or_timeout_witness :
    (vmShutdown [.event ⟨⟨"other", 7⟩, 5⟩, .event ⟨⟨"vm", 1⟩, 5⟩, .timeout] ⟨"vm", 1⟩
      hvRunning).res = .ok () ∧
    (vmShutdown [.event ⟨⟨"other", 7⟩, 5⟩, .event ⟨⟨"vm", 1⟩, 5⟩, .timeout] ⟨"vm", 1⟩
      hvRunning).st.findDomain "vm" =
        some ⟨"vm", 1, 100, false, true, ["vm", "vm-cidata", "vm-d"], []⟩ ∧
    (vmShutdown [.event ⟨⟨"other", 7⟩, 5⟩, .timeout] ⟨"vm", 1⟩ hvRunning).res =
      .error (.msg "timed out waiting for domain to stop") ∧
    (vmShutdown [.event ⟨⟨"other", 7⟩, 5⟩, .timeout] ⟨"vm", 1⟩ hvRunning).st.findDomain "vm" =
      some ⟨"vm", 1, 100, true, true, ["vm", "vm-cidata", "vm-d"], []⟩ ∧
    (vmShutdown [] ⟨"vm", 1⟩ hvStopped).res = .ok () :=
  have h := vmShutdown_active_stop_or_timeout hvRunning
    ⟨"vm", 1, 100, true, true, ["vm", "vm-cidata", "vm-d"], []⟩
    [.event ⟨⟨"other", 7⟩, 5⟩, .event ⟨⟨"vm", 1⟩, 5⟩, .timeout]
    (by decide) (by decide) (by decide)
  have h2 := vmShutdown_active_stop_or_timeout hvRunning
    ⟨"vm", 1, 100, true, true, ["vm", "vm-cidata", "vm-d"], []⟩
    [.event ⟨⟨"other", 7⟩, 5⟩, .timeout] (by decide) (by decide) (by decide)
  have h3 := vmShutdown_active_stop_or_timeout hvStopped
    ⟨"vm", 1, 100, false, true, ["vm", "vm-cidata", "vm-d"], []⟩ []
    (by decide) (by decide) (by decide)
  have hno : ¬ StopBeforeTimeout ⟨"vm", 1⟩ [.event ⟨⟨"other", 7⟩, 5⟩, .timeout] := by
    rw [stopBeforeTimeout_cons_event]
    rintro (hc | hc)
    · exact absurd hc.1 (by decide)
    · exact not_stopBeforeTimeout_timeout _ _ hc
  ⟨((h.1 rfl (by decide)).1).2
      ⟨[.event ⟨⟨"other", 7⟩, 5⟩], ⟨⟨"vm", 1⟩, 5⟩, [.timeout], rfl, by decide, rfl, rfl⟩,
    by decide,
    ((h2.1 rfl (by decide)).2.1 hno (by decide)).1,
    ((h2.1 rfl (by decide)).2.1 hno (by decide)).2,
    (h3.2 rfl).1⟩

/-- C6, counterexample: for an inactive domain `vmShutdown` returns success
although the timer fires first and no stop event arrives. -/
theorem vmShutdown_inactive_succeeds_without_stop :
    (vmShutdown [.timeout] ⟨"vm", 1⟩ hvStopped).res = .ok () ∧
    ¬ StopBeforeTimeout ⟨"vm", 1⟩ [.timeout] :=
  ⟨by decide, not_stopBeforeTimeout_timeout _ _⟩

/-- C7: in every run of `vmShutdown` the call log is the subscription to the
lifecycle events, then the read of the activity state, then the shutdown
request; the request is issued only after a successful read that reported the
domain active; when the subscription fails it is the only call. -/
theorem vmShutdown_subscribes_before_reading (s : Hv) (arrivals : List Sel) (domain : Domain) :
    ((vmShutdown arrivals domain s).tr = [⟨.LifecycleEvents, false⟩] ∨
      (vmShutdown arrivals domain s).tr =
        [⟨.LifecycleEvents, true⟩, ⟨.DomainIsActive domain.Name, false⟩] ∨
      ((vmShutdown arrivals domain s).tr =
        [⟨.LifecycleEvents, true⟩, ⟨.DomainIsActive domain.Name, true⟩] ∧
        ∃ d, s.findDomain domain.Name = some d ∧ d.active = false) ∨
      ((∃ ok, (vmShutdown arrivals domain s).tr =
        [⟨.LifecycleEvents, true⟩, ⟨.DomainIsActive domain.Name, true⟩,
          ⟨.DomainShutdown domain.Name, ok⟩]) ∧
        ∃ d, s.findDomain domain.Name = some d ∧ d.active = true)) ∧
    (Call.LifecycleEvents ∈ s.faults →
      (vmShutdown arrivals domain s).tr = [⟨.LifecycleEvents, false⟩] ∧
      ∃ err, (vmShutdown arrivals domain s).res = .error err) := by
  have key : (vmShutdown arrivals domain).wp s (fun r _ t =>
      (t = [⟨.LifecycleEvents, false⟩] ∨
        t = [⟨.LifecycleEvents, true⟩, ⟨.DomainIsActive domain.Name, false⟩] ∨
        (t = [⟨.LifecycleEvents, true⟩, ⟨.DomainIsActive domain.Name, true⟩] ∧
          ∃ d, s.findDomain domain.Name = some d ∧ d.active = false) ∨
        ((∃ ok, t = [⟨.LifecycleEvents, true⟩, ⟨.DomainIsActive domain.Name, true⟩,
            ⟨.DomainShutdown domain.Name, ok⟩]) ∧
          ∃ d, s.findDomain domain.Name = some d ∧ d.active = true)) ∧
      (Call.LifecycleEvents ∈ s.faults →
        t = [⟨.LifecycleEvents, false⟩] ∧ ∃ err, r = .error err)) := by
    simp only [vmShutdown, wp_bind, wp_wrapErr, wp_ite, wp_pure, wp_LifecycleEvents,
      wp_DomainIsActive, wp_DomainShutdown, wp_waitStopped]
    refine ⟨fun hf => by simp [hf], fun hf => ⟨fun hf2 => by simp [hf], fun hf2 => ?_⟩⟩
    cases hd : s.findDomain domain.Name with
    | none => simp [hf]
    | some d =>
      cases ha : d.active <;> simp [hf, ha]
  exact key

/-! ## The checks of `VMRun` -/

theorem ImageExists_spec (imageName : String) (s : Hv) :
    (ImageExists imageName).wp s (fun r s1 t =>
      s1 = s ∧ (∀ e ∈ t, e.call.mutating = false) ∧ r ≠ .hang ∧
      (r = .ok true → s.findVol imageName ≠ none) ∧
      (r = .ok false → s.findVol imageName = none)) := by
  simp only [ImageExists, wp_bind, wp_wrapErr, wp_attempt, wp_ite, wp_pure, wp_fail,
    wp_StoragePoolLookupByName, wp_StorageVolLookupByName]
  cases h : s.findVol imageName <;> simp [hasErrorCode, Call.mutating]

theorem anyImageExistsLoop_spec (imgs : List String) (s : Hv) :
    (anyImageExistsLoop imgs).wp s (fun r s1 t =>
      s1 = s ∧ (∀ e ∈ t, e.call.mutating = false) ∧ r ≠ .hang ∧
      (r = .ok false → ∀ v ∈ imgs, s.findVol v = none)) := by
  induction imgs with
  | nil => simp [anyImageExistsLoop, wp_pure]
  | cons img rest ih =>
    rw [anyImageExistsLoop]
    simp only [wp_bind, wp_attempt]
    refine wp_mono (ImageExists_spec img s) ?_
    rintro r s1 t1 ⟨rfl, hmut, hh, -, hf⟩
    cases r with
    | hang => exact absurd rfl hh
    | error e => simpa [wp_fail] using hmut
    | ok found =>
      cases found with
      | true => simpa [wp_pure] using hmut
      | false =>
        simp only [Bool.false_eq_true, if_false]
        refine wp_mono ih ?_
        rintro r2 s2 t2 ⟨rfl, hmut2, hh2, hf2⟩
        refine ⟨rfl, ?_, hh2, ?_⟩
        · intro e he
          rcases List.mem_append.1 he with h | h
          · exact hmut e h
          · exact hmut2 e h
        · intro hr v hv
          rcases List.mem_cons.1 hv with h | h
          · rw [h]; exact hf rfl
          · exact hf2 hr v h

/-- C8: when a domain named like the VM exists, or a volume exists under one
of the names `VMRun` would create (boot volume, cloud-init volume, one per
extra disk), `VMRun` returns an error and performs no mutation: the state is
unchanged and no mutating call is issued. -/
theorem VMRun_name_collision_no_mutation (s : Hv) (vmConfig : VMConfig)
    (h : (∃ d, s.findDomain vmConfig.Name = some d) ∨
      ∃ v ∈ vmImages vmConfig, ∃ vol, s.findVol v = some vol) :
    (∃ err, (VMRun vmConfig s).res = .error err) ∧
    (VMRun vmConfig s).st = s ∧
    (∀ e ∈ (VMRun vmConfig s).tr, e.call.mutating = false) := by
  have key : (VMRun vmConfig).wp s (fun r s1 t =>
      (∃ err, r = .error err) ∧ s1 = s ∧ (∀ e ∈ t, e.call.mutating = false)) := by
    rw [VMRun]
    simp only [wp_bind, CheckVMConfig, wp_ite, wp_pure, wp_fail, wp_attempt,
      wp_DomainLookupByName]
    refine ⟨fun _ => ⟨fun _ => by simp [Call.mutating, hasErrorCode], fun hf => ⟨?_, ?_⟩⟩,
      fun _ => by simp⟩
    · intro hnone
      simp only [hasErrorCode, decide_True, Bool.not_true, Bool.false_eq_true, false_implies,
        not_false_eq_true, wp_pure, true_implies, true_and, anyImageExists]
      refine wp_mono (anyImageExistsLoop_spec (vmImages vmConfig) s) ?_
      rintro r s1 t1 ⟨rfl, hmut, hh, hfalse⟩
      have hv : ∃ v ∈ vmImages vmConfig, ∃ vol, s1.findVol v = some vol := by
        rcases h with ⟨d, hd⟩ | hv
        · rw [hnone] at hd; exact absurd hd (by simp)
        · exact hv
      cases r with
      | hang => exact absurd rfl hh
      | error e => simpa [Call.mutating] using hmut
      | ok found =>
        cases found with
        | true =>
          simp [wp_fail, Call.mutating]
          exact hmut
        | false =>
          obtain ⟨v, hv1, vol, hv2⟩ := hv
          rw [hfalse rfl v hv1] at hv2
          exact absurd hv2 (by simp)
    · intro d _
      simp [hasErrorCode, wp_fail, Call.mutating]
  exact key

/-- Instance: running `cfg0` a second time on `hvRunning`. -/
theorem VMRun_name_collision_no_mutation_witness :
    (∃ err, (VMRun cfg0 hvRunning).res = .error err) ∧ (VMRun cfg0 hvRunning).st = hvRunning :=
  have h := VMRun_name_collision_no_mutation hvRunning cfg0 (Or.inl ⟨_, rfl⟩)
  ⟨h.1, h.2.1⟩

/-! ## The creation steps of `VMRun` -/

theorem steps_append (t1 t2 : List Ev) : steps (t1 ++ t2) = steps t1 ++ steps t2 := by
  simp [steps]

theorem steps_nil : steps [] = [] := rfl

theorem steps_cons (c : Call) (b : Bool) (t : List Ev) :
    steps (⟨c, b⟩ :: t) = if c.creation then ⟨c, b⟩ :: steps t else steps t := by
  by_cases h : c.creation = true <;> simp [steps, h]

theorem prog_ok {α : Type} (exp : List Call) (a : α) : Prog exp (.ok a) (exp.map okEv) :=
  Or.inl ⟨⟨a, rfl⟩, rfl⟩

theorem prog_fail_none {α : Type} (exp : List Call) (e : Err) :
    Prog exp (.error e : Result α) [] :=
  Or.inr ⟨⟨e, rfl⟩, [], exp, rfl, Or.inl rfl⟩

theorem prog_fail_first {α : Type} (c : Call) (rest : List Call) (e : Err) :
    Prog (c :: rest) (.error e : Result α) [⟨c, false⟩] :=
  Or.inr ⟨⟨e, rfl⟩, [], c :: rest, rfl, Or.inr ⟨c, rest, rfl, rfl⟩⟩

theorem prog_seq {α β : Type} {e1 e2 : List Call} {a : α} {r : Result β} {t1 t2 : List Ev}
    (h1 : Prog e1 (.ok a) t1) (h2 : Prog e2 r t2) : Prog (e1 ++ e2) r (t1 ++ t2) := by
  have ht1 : t1 = e1.map okEv := by
    rcases h1 with ⟨-, h⟩ | ⟨⟨e, he⟩, -⟩
    · exact h
    · cases he
  subst ht1
  rcases h2 with ⟨ha, h⟩ | ⟨he, pre, post, hexp, h⟩
  · exact Or.inl ⟨ha, by rw [h, List.map_append]⟩
  · refine Or.inr ⟨he, e1 ++ pre, post, by rw [hexp, List.append_assoc], ?_⟩
    rcases h with h | ⟨c, rest, hp, h⟩
    · exact Or.inl (by rw [h, List.map_append])
    · exact Or.inr ⟨c, rest, hp, by rw [h, List.map_append, List.append_assoc]⟩

theorem prog_stop {α β : Type} {e1 : List Call} (e2 : List Call) {e : Err} (e' : Err)
    {t1 : List Ev} (h1 : Prog e1 (.error e : Result α) t1) :
    Prog (e1 ++ e2) (.error e' : Result β) t1 := by
  rcases h1 with ⟨⟨a, ha⟩, -⟩ | ⟨-, pre, post, hexp, h⟩
  · cases ha
  · refine Or.inr ⟨⟨e', rfl⟩, pre, post ++ e2, by rw [hexp, List.append_assoc], ?_⟩
    rcases h with h | ⟨c, rest, hp, h⟩
    · exact Or.inl h
    · exact Or.inr ⟨c, rest ++ e2, by rw [hp]; rfl, h⟩

theorem prog_then_fail {α β : Type} {e1 : List Call} {a : α} (e' : Err)
    {t1 : List Ev} (h1 : Prog e1 (.ok a) t1) :
    Prog e1 (.error e' : Result β) t1 := by
  rcases h1 with ⟨-, h⟩ | ⟨⟨e, he⟩, -⟩
  · exact Or.inr ⟨⟨e', rfl⟩, e1, [], by simp, Or.inl h⟩
  · cases he

theorem prog_single_ok {α : Type} (c : Call) (a : α) : Prog [c] (.ok a) [⟨c, true⟩] :=
  prog_ok [c] a

theorem prog_mem {α : Type} {exp : List Call} {r : Result α} {t : List Ev} (h : Prog exp r t) :
    ∀ e ∈ t, e.call ∈ exp := by
  intro e he
  rcases h with ⟨-, h⟩ | ⟨-, pre, post, hexp, h | ⟨c, rest, hp, h⟩⟩
  · rw [h] at he
    obtain ⟨c, hc, rfl⟩ := List.mem_map.1 he
    exact hc
  · rw [h] at he
    obtain ⟨c, hc, rfl⟩ := List.mem_map.1 he
    rw [hexp]; exact List.mem_append_left _ hc
  · rw [h] at he
    rcases List.mem_append.1 he with he | he
    · obtain ⟨c, hc, rfl⟩ := List.mem_map.1 he
      rw [hexp]; exact List.mem_append_left _ hc
    · rw [List.mem_singleton.1 he, hexp, hp]
      simp

theorem createVMVolume_steps (vmConfig : VMConfig) (s : Hv) :
    (createVMVolume vmConfig).wp s
      (VolPost s [Call.StorageVolCreateXML vmConfig.Name]) := by
  simp only [createVMVolume, wp_bind, wp_wrapErr, wp_ite, wp_pure, wp_StorageVolLookupByName,
    wp_StorageVolGetPath, wp_StorageVolGetInfo, wp_StorageVolCreateXML, wp_vmVolumeXML, VolPost]
  simp [steps_cons, steps_append, steps_nil, Call.creation, prog_fail_none, prog_fail_first,
    prog_single_ok]

theorem createCIData_steps (vmConfig : VMConfig) (s : Hv) :
    (createCIData vmConfig).wp s
      (VolPost s [Call.StorageVolCreateXML (ciDataVolumeName vmConfig.Name)]) := by
  simp only [createCIData, wp_bind, wp_pure, wp_StorageVolCreateXML, VolPost]
  simp [steps_cons, steps_append, steps_nil, Call.creation, prog_fail_none, prog_fail_first,
    prog_single_ok]

theorem createDiskVolume_steps (vmName : String) (disk : Disk) (s : Hv) :
    (createDiskVolume vmName disk).wp s
      (VolPost s [Call.StorageVolCreateXML (diskVolumeName vmName disk.name)]) := by
  simp only [createDiskVolume, wp_bind, wp_wrapErr, wp_pure, wp_StorageVolCreateXML,
    wp_diskVolumeXML, VolPost]
  simp [steps_cons, steps_append, steps_nil, Call.creation, prog_fail_none, prog_fail_first,
    prog_single_ok]

theorem volPost_seq {s s1 s2 : Hv} {e1 e2 : List Call} {u : Unit} {r : Result Unit}
    {t1 t2 : List Ev} (h1 : VolPost s e1 (.ok u) s1 t1) (h2 : VolPost s1 e2 r s2 t2) :
    VolPost s (e1 ++ e2) r s2 (t1 ++ t2) := by
  obtain ⟨a1, a2⟩ := h1
  obtain ⟨b1, b2⟩ := h2
  refine ⟨?_, ?_⟩
  · rw [b1, a1]
  · rw [steps_append]; exact prog_seq a2 b2

theorem volPost_stop {s s1 : Hv} {e1 : List Call} (e2 : List Call) {e : Err} {t1 : List Ev}
    (h1 : VolPost s e1 (.error e) s1 t1) : VolPost s (e1 ++ e2) (.error e) s1 t1 :=
  ⟨h1.1, prog_stop e2 e h1.2⟩

theorem volPost_not_hang {s s1 : Hv} {exp : List Call} {t : List Ev} :
    ¬ VolPost s exp .hang s1 t := by
  rintro ⟨-, ⟨⟨a, ha⟩, -⟩ | ⟨⟨e, he⟩, -⟩⟩
  · cases ha
  · cases he

theorem createDiskVolumes_steps (vmName : String) (disks : List Disk) (s : Hv) :
    (createDiskVolumes vmName disks).wp s
      (VolPost s
        (disks.map (fun d => Call.StorageVolCreateXML (diskVolumeName vmName d.name)))) := by
  induction disks generalizing s with
  | nil =>
    simp only [createDiskVolumes, wp_pure, VolPost, List.map_nil, steps_nil]
    exact ⟨trivial, prog_ok [] ()⟩
  | cons d rest ih =>
    rw [createDiskVolumes]
    simp only [wp_bind]
    refine wp_mono (createDiskVolume_steps vmName d s) ?_
    intro r s1 t1 h1
    cases r with
    | hang => exact absurd h1 volPost_not_hang
    | error e => exact volPost_stop _ h1
    | ok u =>
      refine wp_mono (ih s1) ?_
      intro r2 s2 t2 h2
      exact volPost_seq h1 h2

theorem find_append_new (l : List DomainState) (n : String) (d : DomainState)
    (hn : d.Name = n) (h : l.find? (fun x => decide (x.Name = n)) = none) :
    (l ++ [d]).find? (fun x => decide (x.Name = n)) = some d := by
  rw [List.find?_append, h]
  simp [hn]

theorem filterMap_append_new (l : List DomainState) (n : String)
    (f : DomainState → Option DomainState) (d : DomainState) (hn : d.Name = n)
    (h : l.find? (fun x => decide (x.Name = n)) = none) :
    (l ++ [d]).filterMap (fun x => if x.Name = n then f x else some x) = l ++ (f d).toList := by
  rw [List.filterMap_append, filterMap_of_find_none l n f h]
  cases hfd : f d <;> simp [List.filterMap_cons, hn, hfd]

theorem find_new (vmConfig : VMConfig) (s : Hv) (hnone : s.findDomain vmConfig.Name = none)
    (v : List StorageVol) (h : List DHCPHost) (mac : Nat) (id : Int) (f : List Call) :
    Hv.findDomain
      ⟨s.domains ++ [⟨vmConfig.Name, s.nextID, s.nextMAC, false, true, vmImages vmConfig, []⟩],
        v, h, mac, id, f⟩ vmConfig.Name =
      some ⟨vmConfig.Name, s.nextID, s.nextMAC, false, true, vmImages vmConfig, []⟩ :=
  find_append_new s.domains vmConfig.Name _ rfl hnone

theorem start_new (vmConfig : VMConfig) (s : Hv) (hnone : s.findDomain vmConfig.Name = none)
    (v : List StorageVol) (h : List DHCPHost) (mac : Nat) (id : Int) (f : List Call) :
    (Hv.updDomain
      ⟨s.domains ++ [⟨vmConfig.Name, s.nextID, s.nextMAC, false, true, vmImages vmConfig, []⟩],
        v, h, mac, id, f⟩ vmConfig.Name (fun d => some { d with active := true })).domains =
      s.domains ++ [⟨vmConfig.Name, s.nextID, s.nextMAC, true, true, vmImages vmConfig, []⟩] := by
  unfold Hv.updDomain
  simp only
  rw [filterMap_append_new s.domains vmConfig.Name _ _ rfl hnone]
  rfl

theorem createVM_steps (vmConfig : VMConfig) (s : Hv)
    (hnone : s.findDomain vmConfig.Name = none) :
    (createVM vmConfig).wp s (fun r _ t =>
      DomPost vmConfig.Name s.nextMAC vmConfig.ID r (steps t)) := by
  simp only [createVM, wp_bind, wp_wrapErr, wp_pure, wp_vmXML, wp_DomainDefineXML,
    wp_DomainGetXMLDesc, wp_addDHCPEntry, wp_DomainCreate, hnone]
  simp [steps_cons, steps_append, steps_nil, Call.creation, DomPost, find_new vmConfig s hnone]

theorem createVM_domInv (vmConfig : VMConfig) (s : Hv)
    (hnone : s.findDomain vmConfig.Name = none) :
    (createVM vmConfig).wp s (fun _ s1 _ => DomInv vmConfig s s1) := by
  simp only [createVM, wp_bind, wp_wrapErr, wp_pure, wp_vmXML, wp_DomainDefineXML,
    wp_DomainGetXMLDesc, wp_addDHCPEntry, wp_DomainCreate, hnone]
  simp [DomInv, newDomain, find_new vmConfig s hnone, start_new vmConfig s hnone]

theorem volumeSteps_only (vmConfig : VMConfig) :
    ∀ c ∈ volumeSteps vmConfig, ∃ v, c = Call.StorageVolCreateXML v := by
  intro c hc
  rcases List.mem_append.1 hc with h | h
  · simp only [List.mem_cons, List.mem_singleton, List.not_mem_nil, or_false] at h
    rcases h with h | h
    · exact ⟨_, h⟩
    · exact ⟨_, h⟩
  · obtain ⟨d, -, rfl⟩ := List.mem_map.1 h
    exact ⟨_, rfl⟩

theorem runPost_no_steps (vmConfig : VMConfig) (mac id : Nat) (e : Err) :
    RunPost vmConfig mac id (.error e) [] :=
  ⟨prog_fail_none _ e, by simp, by simp⟩

theorem runPost_vol_fail (vmConfig : VMConfig) (mac id : Nat) {e : Err} (e' : Err)
    {tA : List Ev} (h : Prog (volumeSteps vmConfig) (.error e : Result Unit) tA) :
    RunPost vmConfig mac id (.error e') tA := by
  have hmem := prog_mem h
  refine ⟨prog_stop _ e' h, ?_, ?_⟩
  · intro m i b hin
    obtain ⟨v, hv⟩ := volumeSteps_only vmConfig _ (hmem _ hin)
    cases hv
  · intro m i hin
    obtain ⟨v, hv⟩ := volumeSteps_only vmConfig _ (hmem _ hin)
    cases hv

theorem prog_of_domPost {vmConfig : VMConfig} {mac id : Nat} {rB : Result Nat} {tB : List Ev}
    (h : DomPost vmConfig.Name mac id rB tB) :
    (∀ a, rB = .ok a → ∀ r : Result Unit, r ≠ .hang →
      Prog (domainSteps vmConfig mac id) r tB) ∧
    (∀ e, rB = .error e → ∀ e', Prog (domainSteps vmConfig mac id) (.error e' : Result Unit) tB) := by
  rcases h with ⟨⟨e, he⟩, h⟩ | ⟨⟨a, ha⟩, h⟩
  · refine ⟨fun a ha => (by rw [he] at ha; cases ha), fun _ _ e' => ?_⟩
    rcases h with h | h | h | h | h <;> subst h
    · exact prog_fail_none _ _
    · exact prog_fail_first _ _ _
    · exact Or.inr ⟨⟨e', rfl⟩, [Call.DomainDefineXML vmConfig.Name], _, rfl,
        Or.inr ⟨_, _, rfl, rfl⟩⟩
    · exact Or.inr ⟨⟨e', rfl⟩,
        [Call.DomainDefineXML vmConfig.Name, Call.DomainGetXMLDesc vmConfig.Name], _, rfl,
        Or.inr ⟨_, _, rfl, rfl⟩⟩
    · exact Or.inr ⟨⟨e', rfl⟩,
        [Call.DomainDefineXML vmConfig.Name, Call.DomainGetXMLDesc vmConfig.Name,
          Call.addDHCPEntry mac id], _, rfl, Or.inr ⟨_, _, rfl, rfl⟩⟩
  · refine ⟨fun _ _ r hr => ?_, fun e he => (by rw [ha] at he; cases he)⟩
    subst h
    cases r with
    | hang => exact absurd rfl hr
    | ok u => exact prog_ok _ u
    | error e' => exact prog_then_fail e' (prog_ok (domainSteps vmConfig mac id) ())

theorem runPost_dom (vmConfig : VMConfig) (mac id : Nat) {rB : Result Nat} {tA tB : List Ev}
    (r : Result Unit) (hA : tA = (volumeSteps vmConfig).map okEv)
    (hB : DomPost vmConfig.Name mac id rB tB)
    (hr : (∃ a, rB = .ok a) ∧ r ≠ .hang ∨ (∃ e, rB = .error e) ∧ ∃ e', r = .error e') :
    RunPost vmConfig mac id r (tA ++ tB) := by
  have hnA : ∀ e ∈ tA, ∃ v, e.call = Call.StorageVolCreateXML v := by
    intro e he
    rw [hA] at he
    obtain ⟨c, hc, rfl⟩ := List.mem_map.1 he
    exact volumeSteps_only vmConfig c hc
  have hP := prog_of_domPost hB
  refine ⟨?_, ?_, ?_⟩
  · have hAok : Prog (volumeSteps vmConfig) (.ok () : Result Unit) tA := by
      rw [hA]; exact prog_ok _ ()
    rcases hr with ⟨⟨a, ha⟩, hr⟩ | ⟨⟨e, he⟩, e', hr⟩
    · exact prog_seq hAok (hP.1 a ha r hr)
    · rw [hr]; exact prog_seq hAok (hP.2 e he e')
  · intro m i b hin
    rcases List.mem_append.1 hin with h | h
    · obtain ⟨v, hv⟩ := hnA _ h
      cases hv
    · apply List.mem_append_right
      rcases hB with ⟨-, hs⟩ | ⟨-, hs⟩
      · rcases hs with hs | hs | hs | hs | hs <;> subst hs <;> simp at h ⊢
      · subst hs; simp
  · intro m i hin b hcr
    rcases List.mem_append.1 hin with h | h
    · obtain ⟨v, hv⟩ := hnA _ h
      cases hv
    · rcases List.mem_append.1 hcr with h2 | h2
      · obtain ⟨v, hv⟩ := hnA _ h2
        cases hv
      · rcases hB with ⟨-, hs⟩ | ⟨-, hs⟩
        · rcases hs with hs | hs | hs | hs | hs <;> subst hs <;> simp at h h2
        · subst hs; simp at h

theorem ImageExists_quiet (imageName : String) (s : Hv) :
    (ImageExists imageName).wp s (fun r s1 t => s1 = s ∧ steps t = [] ∧ r ≠ .hang) := by
  simp only [ImageExists, wp_bind, wp_wrapErr, wp_attempt, wp_ite, wp_pure, wp_fail,
    wp_StoragePoolLookupByName, wp_StorageVolLookupByName]
  cases h : s.findVol imageName <;>
    simp [hasErrorCode, steps_cons, steps_append, steps_nil, Call.creation]

theorem anyImageExistsLoop_quiet (imgs : List String) (s : Hv) :
    (anyImageExistsLoop imgs).wp s (fun r s1 t => s1 = s ∧ steps t = [] ∧ r ≠ .hang) := by
  induction imgs with
  | nil => simp [anyImageExistsLoop, wp_pure, steps_nil]
  | cons img rest ih =>
    rw [anyImageExistsLoop]
    simp only [wp_bind, wp_attempt]
    refine wp_mono (ImageExists_quiet img s) ?_
    rintro r s1 t1 ⟨rfl, hst, hh⟩
    cases r with
    | hang => exact absurd rfl hh
    | error e => simpa [wp_fail] using hst
    | ok found =>
      cases found with
      | true => simpa [wp_pure] using hst
      | false =>
        simp only [Bool.false_eq_true, if_false]
        refine wp_mono ih ?_
        rintro r2 s2 t2 ⟨rfl, hst2, hh2⟩
        exact ⟨rfl, by rw [steps_append, hst, hst2]; rfl, hh2⟩

theorem getVMID_quiet (wantedID : Nat) (s : Hv) :
    (getVMID wantedID).wp s (fun r s1 t =>
      s1 = s ∧ steps t = [] ∧ r ≠ .hang ∧ (wantedID ≠ 0 → ∀ a, r = .ok a → a = wantedID)) := by
  rw [getVMID, wp_call]
  refine ⟨fun _ => by simp [steps_cons, steps_nil, Call.creation], fun _ => ?_⟩
  by_cases hw : wantedID = 0
  · simp only [hw, ne_eq, not_true_eq_false, if_false]
    split <;> rename_i heq <;> split at heq <;>
      simp_all [steps_cons, steps_nil, Call.creation]
  · simp [hw, steps_cons, steps_nil, Call.creation]

theorem Ping_quiet (n : Nat) (s : Hv) :
    (Ping n tryDialSSH).wp s (fun r s1 t => s1 = s ∧ steps t = [] ∧ r ≠ .hang) := by
  induction n with
  | zero => simp [Ping, wp_fail, steps_nil]
  | succ k ih =>
    rw [Ping]
    simp only [wp_bind, wp_attempt, wp_tryDialSSH, wp_pure]
    refine ⟨fun _ => ?_, fun _ => by simp [steps_cons, steps_nil, Call.creation]⟩
    refine wp_mono ih ?_
    rintro r s1 t ⟨rfl, hst, hh⟩
    exact ⟨rfl, by simp [steps_cons, steps_append, steps_nil, Call.creation, hst], hh⟩

theorem pingSSH_quiet (vmConfig : VMConfig) (ip : Nat) (s : Hv) :
    (pingSSH vmConfig ip).wp s (fun r s1 t => s1 = s ∧ steps t = [] ∧ r ≠ .hang) := by
  simp only [pingSSH, wp_bind, wp_wrapErr, wp_getSSHClientConfig]
  refine ⟨fun _ => by simp [steps_cons, steps_nil, Call.creation], fun _ => ?_⟩
  refine wp_mono (Ping_quiet vmConfig.SSHPingCount s) ?_
  rintro r s1 t ⟨rfl, hst, hh⟩
  cases r with
  | hang => exact absurd rfl hh
  | error e => exact ⟨rfl, by simp [steps_cons, steps_append, steps_nil, Call.creation, hst], by simp⟩
  | ok u => exact ⟨rfl, by simp [steps_cons, steps_append, steps_nil, Call.creation, hst], by simp⟩

theorem vmRunPost_early (vmConfig : VMConfig) (s : Hv) (e : Err) (t : List Ev)
    (ht : steps t = []) : VMRunPost vmConfig s (.error e) s t :=
  ⟨⟨vmConfig.ID, fun _ => rfl, by rw [ht]; exact runPost_no_steps _ _ _ _⟩, rfl, Or.inl rfl⟩

theorem prog_ok_steps {α : Type} {exp : List Call} {a : α} {t : List Ev}
    (h : Prog exp (.ok a) t) : t = exp.map okEv := by
  rcases h with ⟨-, h⟩ | ⟨⟨e, he⟩, -⟩
  · exact h
  · cases he

theorem vmRunPost_vol_fail (vmConfig : VMConfig) (s s1 : Hv) (id : Nat) (e : Err)
    (hid : vmConfig.ID ≠ 0 → id = vmConfig.ID)
    (t : List Ev) (stA : List Ev) (exp rest : List Call)
    (ht : steps t = stA) (hexp : exp ++ rest = volumeSteps vmConfig)
    (hA : Prog exp (.error e : Result Unit) stA) (hs : s1 = { s with vols := s1.vols }) :
    VMRunPost vmConfig s (.error e) s1 t := by
  refine ⟨⟨id, hid, ?_⟩, ?_, Or.inl ?_⟩
  · rw [ht]
    exact runPost_vol_fail vmConfig _ _ e (hexp ▸ prog_stop rest e hA)
  · rw [hs]
  · rw [hs]

theorem vmRunPost_dom (vmConfig : VMConfig) (s s1 : Hv) (id : Nat)
    (hid : vmConfig.ID ≠ 0 → id = vmConfig.ID) (r : Result Unit) (rB : Result Nat)
    (t : List Ev) (stA stB : List Ev) (ht : steps t = stA ++ stB)
    (hA : stA = (volumeSteps vmConfig).map okEv)
    (hB : DomPost vmConfig.Name s.nextMAC id rB stB)
    (hr : (∃ a, rB = .ok a) ∧ r ≠ .hang ∨ (∃ e, rB = .error e) ∧ ∃ e', r = .error e')
    (hinv : DomInv vmConfig s s1) :
    VMRunPost vmConfig s r s1 t :=
  ⟨⟨id, hid, by rw [ht]; exact runPost_dom vmConfig _ _ r hA hB hr⟩, hinv⟩

theorem VMRun_spec (vmConfig : VMConfig) (s : Hv) :
    (VMRun vmConfig).wp s (VMRunPost vmConfig s) := by
  rw [VMRun]
  simp only [wp_bind, CheckVMConfig, wp_ite, wp_pure, wp_fail, wp_attempt,
    wp_DomainLookupByName, hasErrorCode, decide_True, Bool.not_true, Bool.false_eq_true,
    false_implies, not_false_eq_true, true_implies, true_and, Bool.not_false, anyImageExists]
  refine ⟨fun _ => ⟨fun _ => ?_, fun _ => ⟨fun hnone => ?_, fun d _ => ?_⟩⟩, fun _ => ?_⟩
  · refine ⟨vmRunPost_early _ _ _ _ ?_, fun h => absurd trivial h⟩
    simp [steps_cons, steps_append, steps_nil, Call.creation]
  · refine wp_mono (anyImageExistsLoop_quiet (vmImages vmConfig) s) ?_
    rintro r s1 t1 ⟨rfl, ht1, hh1⟩
    cases r with
    | hang => exact absurd rfl hh1
    | error e =>
      exact vmRunPost_early _ _ _ _ (by simp [steps_cons, steps_append, steps_nil, Call.creation, ht1])
    | ok found =>
      cases found with
      | true =>
        simp only [true_implies, not_true_eq_false, false_implies, and_true]
        exact vmRunPost_early _ _ _ _
          (by simp [steps_cons, steps_append, steps_nil, Call.creation, ht1])
      | false =>
        simp only [Bool.false_eq_true, false_implies, not_false_eq_true, true_implies, true_and]
        refine wp_mono (getVMID_quiet vmConfig.ID s1) ?_
        rintro r2 s2 t2 ⟨rfl, ht2, hh2, hid⟩
        cases r2 with
        | hang => exact absurd rfl hh2
        | error e =>
          exact vmRunPost_early _ _ _ _
            (by simp [steps_cons, steps_append, steps_nil, Call.creation, ht1, ht2])
        | ok id =>
          simp only [wp_wrapErr, wp_StoragePoolLookupByName]
          refine ⟨fun _ => ?_, fun _ => ?_⟩
          · exact vmRunPost_early _ _ _ _
              (by simp [steps_cons, steps_append, steps_nil, Call.creation, ht1, ht2])
          · have hid2 : vmConfig.ID ≠ 0 → id = vmConfig.ID := fun h => hid h id rfl
            refine wp_mono (createVMVolume_steps { vmConfig with ID := id } s2) ?_
            rintro r3 s3 t3 h3
            cases r3 with
            | hang => exact absurd h3 volPost_not_hang
            | error e =>
              exact vmRunPost_vol_fail vmConfig s2 s3 id e hid2 _ (steps t3)
                [Call.StorageVolCreateXML vmConfig.Name] _
                (by simp [steps_cons, steps_append, steps_nil, Call.creation, ht1, ht2])
                rfl h3.2 h3.1
            | ok u3 =>
              refine wp_mono (createCIData_steps { vmConfig with ID := id } s3) ?_
              rintro r4 s4 t4 h4
              have h34 := volPost_seq h3 h4
              cases r4 with
              | hang => exact absurd h4 volPost_not_hang
              | error e =>
                exact vmRunPost_vol_fail vmConfig s2 s4 id e hid2 _ (steps (t3 ++ t4))
                  _ _
                  (by simp [steps_cons, steps_append, steps_nil, Call.creation, ht1, ht2])
                  rfl h34.2 h34.1
              | ok u4 =>
                refine wp_mono (createDiskVolumes_steps vmConfig.Name vmConfig.Disks s4) ?_
                rintro r5 s5 t5 h5
                have h345 := volPost_seq h34 h5
                cases r5 with
                | hang => exact absurd h5 volPost_not_hang
                | error e =>
                  exact vmRunPost_vol_fail vmConfig s2 s5 id e hid2 _ (steps (t3 ++ t4 ++ t5))
                    _ []
                    (by simp [steps_cons, steps_append, steps_nil, Call.creation, ht1, ht2])
                    (by simp [volumeSteps]) h345.2 h345.1
                | ok u5 =>
                  have hs5 : s5 = { s2 with vols := s5.vols } := h345.1
                  have hnone5 : s5.findDomain vmConfig.Name = none := by
                    rw [hs5]; exact hnone
                  have hvol : steps (t3 ++ t4 ++ t5) = (volumeSteps vmConfig).map okEv :=
                    prog_ok_steps h345.2
                  have hsteps := createVM_steps { vmConfig with ID := id } s5 hnone5
                  have hinv := createVM_domInv { vmConfig with ID := id } s5 hnone5
                  refine wp_mono (show (createVM { vmConfig with ID := id }).wp s5
                    (fun r s1 t => DomPost vmConfig.Name s2.nextMAC id r (steps t) ∧
                      DomInv vmConfig s2 s1) from ?_) ?_
                  · have e1 : s5.faults = s2.faults := by rw [hs5]
                    have e2 : s5.domains = s2.domains := by rw [hs5]
                    have e3 : s5.nextMAC = s2.nextMAC := by rw [hs5]
                    have e4 : s5.nextID = s2.nextID := by rw [hs5]
                    have e5 : ∀ a, newDomain { vmConfig with ID := id } s5 a =
                        newDomain vmConfig s2 a := by
                      intro a
                      unfold newDomain
                      rw [e3, e4]
                      rfl
                    unfold Op.wp DomInv at hinv
                    unfold Op.wp at hsteps
                    rw [e3] at hsteps
                    rw [e1, e2] at hinv
                    simp only [e5] at hinv
                    exact ⟨hsteps, hinv⟩
                  · rintro r6 s6 t6 ⟨h6, i6⟩
                    have hst : ∀ t7, steps t7 = [] →
                        steps ([] ++ ([{ call := Call.DomainLookupByName vmConfig.Name, ok := false }] ++
                          ([] ++ (t1 ++ ([] ++ (t2 ++
                            ([{ call := Call.StoragePoolLookupByName, ok := true }] ++
                              (t3 ++ (t4 ++ (t5 ++ (t6 ++ t7)))))))))))
                          = steps (t3 ++ t4 ++ t5) ++ steps t6 := by
                      intro t7 h7
                      simp [steps_cons, steps_append, steps_nil, Call.creation, ht1, ht2, h7]
                    cases r6 with
                    | hang =>
                      rcases h6 with ⟨⟨e, he⟩, -⟩ | ⟨⟨a, ha⟩, -⟩
                      · cases he
                      · cases ha
                    | error e =>
                      refine vmRunPost_dom vmConfig s2 s6 id hid2 _ (.error e) _ _ _ ?_ hvol h6
                        (Or.inr ⟨⟨e, rfl⟩, e, rfl⟩) i6
                      have := hst [] steps_nil
                      simpa using this
                    | ok ip =>
                      refine ⟨fun _ => ?_, fun _ => ?_⟩
                      · refine wp_mono (pingSSH_quiet _ ip s6) ?_
                        rintro r7 s7 t7 ⟨rfl, ht7, hh7⟩
                        exact vmRunPost_dom vmConfig s2 _ id hid2 r7 (.ok ip) _ _ _ (hst t7 ht7)
                          hvol h6 (Or.inl ⟨⟨ip, rfl⟩, hh7⟩) i6
                      · refine vmRunPost_dom vmConfig s2 s6 id hid2 _ (.ok ip) _ _ _ ?_ hvol h6
                          (Or.inl ⟨⟨ip, rfl⟩, by simp⟩) i6
                        have := hst [] steps_nil
                        simpa using this
  · refine ⟨vmRunPost_early _ _ _ _ ?_, fun h => absurd trivial h⟩
    simp [steps_cons, steps_append, steps_nil, Call.creation]
  · exact vmRunPost_early _ _ _ _ steps_nil

/-! ## `VMRm` after a partial `VMRun` -/

theorem findVol_delVol_self (s : Hv) (v : String) : (s.delVol v).findVol v = none := by
  unfold Hv.findVol Hv.delVol
  simp only
  rw [List.find?_eq_none]
  intro x hx
  have := (List.mem_filter.1 hx).2
  simpa using this

theorem vmRmExceptBoot_fresh (vmName : String) (s : Hv) (pre : List DomainState)
    (d : DomainState) (hf : s.faults = []) (hdom : s.domains = pre ++ [d])
    (hpre : pre.find? (fun x => decide (x.Name = vmName)) = none) (hn : d.Name = vmName)
    (hp : d.persistent = true) (hsn : d.snapshots = []) :
    (vmRmExceptBoot vmName).wp s (fun r s1 _ =>
      r = .ok () ∧ s1.faults = [] ∧ s1.domains = pre ∧
      s1.hosts = s.hosts.filter (fun h => decide (h.mac ≠ d.mac)) ∧
      s1.vols = s.vols.filter (fun x => decide (x.Name = vmName ∨ x.Name ∉ d.disks))) := by
  have hfind : ∀ (s' : Hv) (d' : DomainState), s'.domains = pre ++ [d'] → d'.Name = vmName →
      s'.findDomain vmName = some d' := by
    intro s' d' h1 h2
    unfold Hv.findDomain
    rw [h1]
    exact find_append_new pre vmName d' h2 hpre
  have hupd : ∀ (s' : Hv) (d' : DomainState) (f : DomainState → Option DomainState),
      s'.domains = pre ++ [d'] → d'.Name = vmName →
      (s'.updDomain vmName f).domains = pre ++ (f d').toList := by
    intro s' d' f h1 h2
    unfold Hv.updDomain
    simp only
    rw [h1]
    exact filterMap_append_new pre vmName f d' h2 hpre
  have hfd := hfind s d hdom hn
  rw [vmRmExceptBoot]
  simp only [wp_bind, wp_attempt, wp_DomainLookupByName, hf, List.not_mem_nil, false_implies,
    not_false_eq_true, true_implies, true_and, hfd, reduceCtorEq, Option.some.injEq, forall_eq',
    hasErrorCode, Bool.not_false, if_true, getDisksOfDomain, rmSnapshots, wp_wrapErr, wp_pure,
    wp_DomainGetXMLDesc, wp_DomainListAllSnapshots, hsn, rmSnapshotsLoop, wp_DomainIsActive,
    wp_DomainIsPersistent, wp_rmDHCPEntry, wp_ite, wp_DomainDestroy, wp_DomainUndefine,
    delHosts_findDomain, delHosts_faults, updDomain_faults, hp]
  have fin : ∀ (X : Hv), X.faults = [] → X.domains = pre →
      X.hosts = s.hosts.filter (fun h => decide (h.mac ≠ d.mac)) → X.vols = s.vols →
      (rmDisksLoop vmName d.disks).wp X (fun r s1 _ =>
        r = .ok () ∧ s1.faults = [] ∧ s1.domains = pre ∧
        s1.hosts = s.hosts.filter (fun h => decide (h.mac ≠ d.mac)) ∧
        s1.vols = s.vols.filter (fun x => decide (x.Name = vmName ∨ x.Name ∉ d.disks))) := by
    intro X h1 h2 h3 h4
    refine wp_mono (rmDisksLoop_spec vmName d.disks X) ?_
    rintro r s1 t ⟨g1, -, g3, -⟩
    obtain ⟨hr, hv⟩ := g3 h1
    refine ⟨hr, ?_, ?_, ?_, ?_⟩
    · rw [g1]; exact h1
    · rw [g1]; exact h2
    · rw [g1]; exact h3
    · rw [hv, h4]
  have hdh : (s.delHosts d.mac).domains = pre ++ [d] := by simpa using hdom
  cases ha : d.active
  · -- inactive: undefine removes the domain
    simp only [Bool.false_eq_true, if_false, ne_eq, not_true_eq_false, false_implies, true_and,
      one_ne_zero, not_false_eq_true, true_implies, hfind _ d hdh hn, reduceCtorEq,
      Option.some.injEq, forall_eq', hp, and_true, delHosts_findDomain, hfd]
    refine fin ((s.delHosts d.mac).updDomain vmName
      (fun d => if d.active = true then some { d with persistent := false } else none))
      (by simpa using hf) ?_ rfl (by simp)
    rw [hupd _ d _ hdh hn]
    simp [ha]
  · -- active: destroy stops it, undefine removes it
    have hY := hupd (s.delHosts d.mac) d
      (fun d => if d.persistent = true then some { d with active := false } else none) hdh hn
    simp only [hp, if_true, Option.toList] at hY
    have hYf := hfind _ _ hY hn
    simp only [if_true, ne_eq, one_ne_zero, not_false_eq_true, true_implies, not_true_eq_false,
      false_implies, and_true, hYf, reduceCtorEq, Option.some.injEq, forall_eq', hp,
      Bool.false_eq_true]
    refine ⟨trivial, fin (((s.delHosts d.mac).updDomain vmName
      (fun d => if d.persistent = true then some { d with active := false } else none)).updDomain
      vmName (fun d => if d.active = true then some { d with persistent := false } else none))
      (by simpa using hf) ?_ rfl (by simp)⟩
    rw [hupd _ _ _ hY hn]
    simp

theorem find_filter_none (l : List StorageVol) (p : StorageVol → Bool) (v : String)
    (h : ∀ x ∈ l, p x = true → x.Name ≠ v) :
    (l.filter p).find? (fun x => decide (x.Name = v)) = none := by
  rw [List.find?_eq_none]
  intro x hx
  have hm := List.mem_filter.1 hx
  simpa using h x hm.1 hm.2

/-- C2, as amended: on the state left by any run of `VMRun`, complete or ended
by a failure at any point, for a name that had no domain, `VMRm` (with no call
failing) succeeds and afterwards no domain of that name and no boot volume
exist; when the run got as far as defining the domain, afterwards none of the
volumes of the VM (boot, cloud-init, per-disk) and no lease for the MAC of the
domain exist either. -/
theorem VMRm_after_partial_VMRun (s0 : Hv) (vmConfig : VMConfig)
    (hfresh : s0.findDomain vmConfig.Name = none) :
    (VMRm vmConfig.Name { (VMRun vmConfig s0).st with faults := [] }).res = .ok () ∧
    (VMRm vmConfig.Name { (VMRun vmConfig s0).st with faults := [] }).st.findDomain
      vmConfig.Name = none ∧
    (VMRm vmConfig.Name { (VMRun vmConfig s0).st with faults := [] }).st.findVol
      vmConfig.Name = none ∧
    ((VMRun vmConfig s0).st.findDomain vmConfig.Name ≠ none →
      (∀ v ∈ vmImages vmConfig,
        (VMRm vmConfig.Name { (VMRun vmConfig s0).st with faults := [] }).st.findVol v = none) ∧
      (∀ h ∈ (VMRm vmConfig.Name { (VMRun vmConfig s0).st with faults := [] }).st.hosts,
        h.mac ≠ s0.nextMAC)) := by
  obtain ⟨-, -, hdoms⟩ := VMRun_spec vmConfig s0
  generalize hs1 : ({ (VMRun vmConfig s0).st with faults := [] } : Hv) = s1
  have hf : s1.faults = [] := by rw [← hs1]
  have hd1 : s1.domains = (VMRun vmConfig s0).st.domains := by rw [← hs1]
  have hfd1 : s1.findDomain vmConfig.Name = (VMRun vmConfig s0).st.findDomain vmConfig.Name := by
    rw [← hs1]; rfl
  obtain ⟨hok, hst⟩ := VMRm_ok vmConfig.Name s1 hf
  rw [← hfd1]
  refine ⟨hok, ?_⟩
  rw [hst]
  rcases hdoms with hsame | ⟨a, hnew⟩
  · -- no domain was defined
    have hnone : s1.findDomain vmConfig.Name = none := by
      unfold Hv.findDomain at hfresh ⊢
      rw [hd1, hsame]; exact hfresh
    obtain ⟨-, -, -, hsame2⟩ := vmRmExceptBoot_ok vmConfig.Name s1 hf
    rw [hsame2 hnone]
    exact ⟨by simpa using hnone, findVol_delVol_self _ _, fun h => absurd hnone h⟩
  · -- the domain was defined
    obtain ⟨-, -, hdm, hho, hvo⟩ := vmRmExceptBoot_fresh vmConfig.Name s1 s0.domains
      (newDomain vmConfig s0 a) hf (hd1.trans hnew) hfresh rfl rfl rfl
    refine ⟨?_, findVol_delVol_self _ _, fun _ => ⟨?_, ?_⟩⟩
    · unfold Hv.findDomain at hfresh ⊢
      rw [delVol_domains, hdm]; exact hfresh
    · intro v hv
      unfold Hv.findVol Hv.delVol
      simp only
      rw [hvo, List.filter_filter]
      apply find_filter_none
      intro x _ hx hxv
      simp only [Bool.and_eq_true, decide_eq_true_eq] at hx
      rcases hx.2 with h | h
      · exact hx.1 h
      · exact h (hxv ▸ hv)
    · intro h hh
      rw [delVol_hosts, hho] at hh
      have := (List.mem_filter.1 hh).2
      simpa [newDomain] using this

/-- Instance: `VMRun cfg0` ended by a failing start of the domain. -/
theorem VMRm_after_partial_VMRun_witness :
    (VMRm "vm" hvNotStarted).res = .ok () ∧
    (VMRm "vm" hvNotStarted).st.findDomain "vm" = none ∧
    (∀ v ∈ ["vm", "vm-cidata", "vm-d"], (VMRm "vm" hvNotStarted).st.findVol v = none) ∧
    (∀ h ∈ (VMRm "vm" hvNotStarted).st.hosts, h.mac ≠ 100) :=
  have h := VMRm_after_partial_VMRun { hv0 with faults := [.DomainCreate "vm"] } cfg0
    (by decide)
  ⟨h.1, h.2.1, (h.2.2.2 (by decide)).1, (h.2.2.2 (by decide)).2⟩

/-- C2, counterexample: when `VMRun` ended before the domain was defined,
`VMRm` succeeds but leaves the cloud-init volume and the disk volume in place;
and a lease whose domain is already undefined survives `VMRm`. -/
theorem VMRm_leaves_volumes_and_lease_without_domain :
    (VMRm "vm" hvNoDomain).res = .ok () ∧
    (VMRm "vm" hvNoDomain).st.findVol "vm-cidata" = some ⟨"vm-cidata", 0⟩ ∧
    (VMRm "vm" hvNoDomain).st.findVol "vm-d" = some ⟨"vm-d", 102400⟩ ∧
    (VMRm "vm" hvLeaseOnly).res = .ok () ∧
    (VMRm "vm" hvLeaseOnly).st.hosts = [⟨100, 10⟩] := by
  decide

/-! ## Size of the boot volume -/

/-- C10, as amended: with a backing image of capacity `b`, a requested boot
capacity of 0 creates the boot volume with size `max b (10 GiB)`; a non-zero
request below 2^54 KiB creates it with exactly `requestedKiB * 1024` bytes and
the capacity of the backing image is not read. -/
theorem createVMVolume_size (s : Hv) (vmConfig : VMConfig) (img : StorageVol)
    (hf : s.faults = []) (himg : s.findVol vmConfig.ImageName = some img)
    (hfree : s.findVol vmConfig.Name = none) :
    (vmConfig.BootCapacityKiB = 0 →
      (createVMVolume vmConfig s).res = .ok () ∧
      (createVMVolume vmConfig s).st.vols =
        s.vols ++ [⟨vmConfig.Name, max img.capacity (10 * 1024 ^ 3)⟩]) ∧
    (vmConfig.BootCapacityKiB ≠ 0 → vmConfig.BootCapacityKiB < 2 ^ 54 →
      (createVMVolume vmConfig s).res = .ok () ∧
      (createVMVolume vmConfig s).st.vols =
        s.vols ++ [⟨vmConfig.Name, vmConfig.BootCapacityKiB * 1024⟩] ∧
      ∀ e ∈ (createVMVolume vmConfig s).tr, e.call ≠ .StorageVolGetInfo vmConfig.ImageName) := by
  have key : (createVMVolume vmConfig).wp s (fun r s1 t =>
      (vmConfig.BootCapacityKiB = 0 →
        r = .ok () ∧ s1.vols = s.vols ++ [⟨vmConfig.Name, max img.capacity (10 * 1024 ^ 3)⟩]) ∧
      (vmConfig.BootCapacityKiB ≠ 0 → vmConfig.BootCapacityKiB < 2 ^ 54 →
        r = .ok () ∧ s1.vols = s.vols ++ [⟨vmConfig.Name, vmConfig.BootCapacityKiB * 1024⟩] ∧
        ∀ e ∈ t, e.call ≠ .StorageVolGetInfo vmConfig.ImageName)) := by
    simp only [createVMVolume, wp_bind, wp_wrapErr, wp_ite, wp_pure, wp_StorageVolLookupByName,
      wp_StorageVolGetPath, wp_StorageVolGetInfo, wp_StorageVolCreateXML, wp_vmVolumeXML, himg,
      hfree, hf]
    simp only [List.not_mem_nil, false_implies, true_implies, not_false_eq_true, true_and,
      reduceCtorEq, forall_const, Option.some.injEq, forall_eq', unitK, unitG]
    have h10 : (10 * (1024 * 1024 * 1024)) % 2 ^ 64 = 10 * 1024 ^ 3 := by norm_num
    have hmod : vmConfig.BootCapacityKiB < 2 ^ 54 →
        vmConfig.BootCapacityKiB * 1024 % 2 ^ 64 = vmConfig.BootCapacityKiB * 1024 := by
      intro hlt
      apply Nat.mod_eq_of_lt
      have h64 : (2 : Nat) ^ 64 = 2 ^ 54 * 1024 := by norm_num
      rw [h64]
      exact Nat.mul_lt_mul_of_pos_right hlt (by norm_num)
    rw [h10]
    by_cases hz : vmConfig.BootCapacityKiB = 0
    · simp only [hz, Nat.zero_mul, Nat.zero_mod, true_implies, ne_eq, not_true_eq_false,
        false_implies, and_true, not_false_eq_true]
      refine ⟨fun hlt => ?_, fun hge => ?_⟩
      · rw [Nat.max_eq_right (Nat.le_of_lt hlt)]
        exact ⟨rfl, fun _ => trivial⟩
      · rw [Nat.max_eq_left (Nat.le_of_not_lt hge)]
        exact ⟨rfl, fun _ => trivial⟩
    · by_cases hlt2 : vmConfig.BootCapacityKiB < 2 ^ 54
      · have hnz : ¬ vmConfig.BootCapacityKiB * 1024 % 2 ^ 64 = 0 := by
          rw [hmod hlt2]
          omega
        simp [hz, hlt2]
        omega
      · simp [hz, hlt2]
        omega
  exact key

/-- Instance: `cfg0` requests capacity 0 over a backing image of 5 GiB. -/
theorem createVMVolume_size_witness :
    (createVMVolume cfg0 hv0).res = .ok () ∧
    (createVMVolume cfg0 hv0).st.vols = hv0.vols ++ [⟨"vm", 10 * 1024 ^ 3⟩] :=
  (createVMVolume_size hv0 cfg0 ⟨"img", 5 * unitG⟩ rfl (by decide) (by decide)).1 rfl

/-- C10, counterexample: a non-zero request of 2^54 KiB wraps to 0 bytes in
`uint64`, so the capacity of the backing image is read and the boot volume gets
10 GiB instead of `requestedKiB * 1024` bytes. -/
theorem createVMVolume_huge_request_wraps :
    cfgHuge.BootCapacityKiB ≠ 0 ∧
    (createVMVolume cfgHuge hv0).st.findVol "vm" = some ⟨"vm", 10 * 1024 ^ 3⟩ ∧
    10 * 1024 ^ 3 ≠ cfgHuge.BootCapacityKiB * 1024 ∧
    ⟨.StorageVolGetInfo "img", true⟩ ∈ (createVMVolume cfgHuge hv0).tr := by
  decide

/-! ## Runs in which no call fails -/

theorem createVMVolume_run (s : Hv) (vmConfig : VMConfig) (img : StorageVol)
    (hf : s.faults = []) (himg : s.findVol vmConfig.ImageName = some img)
    (hfree : s.findVol vmConfig.Name = none) :
    (createVMVolume vmConfig).wp s (fun r s1 t =>
      r = .ok () ∧
      s1.vols = s.vols ++ [⟨vmConfig.Name,
        if vmConfig.BootCapacityKiB * 1024 % 2 ^ 64 = 0 then max img.capacity (10 * 1024 ^ 3)
        else vmConfig.BootCapacityKiB * 1024 % 2 ^ 64⟩] ∧
      ((⟨.StorageVolGetInfo vmConfig.ImageName, true⟩ : Ev) ∈ t ↔
        vmConfig.BootCapacityKiB * 1024 % 2 ^ 64 = 0)) := by
  simp only [createVMVolume, wp_bind, wp_wrapErr, wp_ite, wp_pure, wp_StorageVolLookupByName,
    wp_StorageVolGetPath, wp_StorageVolGetInfo, wp_StorageVolCreateXML, wp_vmVolumeXML, himg,
    hfree, hf, unitK, unitG]
  generalize vmConfig.BootCapacityKiB * 1024 % 2 ^ 64 = p
  have h10 : (10 * (1024 * 1024 * 1024)) % 2 ^ 64 = 10 * 1024 ^ 3 := by norm_num
  rw [h10]
  generalize 10 * 1024 ^ 3 = m
  by_cases hz : p = 0
  · by_cases hlt : img.capacity < m
    · simp [hz, hlt, Nat.max_eq_right (Nat.le_of_lt hlt)]
    · simp [hz, hlt, Nat.max_eq_left (Nat.le_of_not_lt hlt)]
  · simp [hz]

theorem ImageExists_ok (imageName : String) (s : Hv) (hf : s.faults = []) :
    (ImageExists imageName).wp s (fun r s1 _ =>
      s1 = s ∧ r = .ok (s.findVol imageName).isSome) := by
  simp only [ImageExists, wp_bind, wp_wrapErr, wp_attempt, wp_ite, wp_pure, wp_fail,
    wp_StoragePoolLookupByName, wp_StorageVolLookupByName, hf]
  cases h : s.findVol imageName <;> simp [hasErrorCode]

theorem anyImageExistsLoop_ok (imgs : List String) (s : Hv) (hf : s.faults = []) :
    (anyImageExistsLoop imgs).wp s (fun r s1 _ =>
      s1 = s ∧ r = .ok (imgs.any (fun v => (s.findVol v).isSome))) := by
  induction imgs with
  | nil => simp [anyImageExistsLoop, wp_pure]
  | cons img rest ih =>
    rw [anyImageExistsLoop]
    simp only [wp_bind, wp_attempt]
    refine wp_mono (ImageExists_ok img s hf) ?_
    rintro r s1 t1 ⟨rfl, rfl⟩
    cases h : (s1.findVol img).isSome
    · simp only [Bool.false_eq_true, if_false]
      refine wp_mono ih ?_
      rintro r2 s2 t2 ⟨rfl, rfl⟩
      simp [h]
    · simp [wp_pure, h]

theorem createDiskVolume_run (vmName : String) (disk : Disk) (s : Hv) :
    (createDiskVolume vmName disk).wp s (fun r s1 t =>
      (∀ e ∈ t, ∀ v, e.call = .StorageVolCreateXML v → v = diskVolumeName vmName disk.name) ∧
      (s.faults = [] → s.findVol (diskVolumeName vmName disk.name) = none →
        r = .ok () ∧
        s1.vols = s.vols ++ [⟨diskVolumeName vmName disk.name, disk.sizeKiB * 1024⟩] ∧
        (⟨.StorageVolCreateXML (diskVolumeName vmName disk.name), true⟩ : Ev) ∈ t)) := by
  simp only [createDiskVolume, wp_bind, wp_wrapErr, wp_pure, wp_StorageVolCreateXML,
    wp_diskVolumeXML]
  refine ⟨fun hf => ?_, fun hf => ⟨fun hf2 => ?_, fun hf2 => ⟨fun _ => ?_, fun v hv => ?_⟩⟩⟩
  · simp only [List.mem_singleton, forall_eq, reduceCtorEq, false_implies, implies_true,
      true_and]
    intro h0; rw [h0] at hf; cases hf
  · simp only [List.append_nil, List.mem_append, List.mem_singleton]
    refine ⟨?_, fun h0 => ?_⟩
    · rintro e (rfl | rfl) v hv
      · cases hv
      · cases hv; rfl
    · rw [h0] at hf2; cases hf2
  · simp
  · simp only [List.append_nil, List.mem_append, List.mem_singleton]
    refine ⟨?_, fun _ h0 => ?_⟩
    · rintro e (rfl | rfl) v hv
      · cases hv
      · cases hv; rfl
    · rw [hv] at h0; cases h0

theorem createVMVolume_ok (vmConfig : VMConfig) (s : Hv) :
    (createVMVolume vmConfig).wp s (fun r s1 _ =>
      r = .ok () → ∃ cap, s1 = { s with vols := s.vols ++ [⟨vmConfig.Name, cap⟩] }) := by
  simp only [createVMVolume, wp_bind, wp_wrapErr, wp_ite, wp_pure, wp_StorageVolLookupByName,
    wp_StorageVolGetPath, wp_StorageVolGetInfo, wp_StorageVolCreateXML, wp_vmVolumeXML]
  simp

theorem createCIData_ok (vmConfig : VMConfig) (s : Hv) :
    (createCIData vmConfig).wp s (fun r s1 _ =>
      r = .ok () → s1 = { s with vols := s.vols ++ [⟨ciDataVolumeName vmConfig.Name, 0⟩] }) := by
  simp only [createCIData, wp_bind, wp_pure, wp_StorageVolCreateXML]
  simp

theorem createDiskVolumes_ok (vmName : String) (disks : List Disk) (s : Hv) :
    (createDiskVolumes vmName disks).wp s (fun r s1 _ =>
      r = .ok () → s1 = { s with vols := s.vols ++ diskVols vmName disks }) := by
  induction disks generalizing s with
  | nil => simp [createDiskVolumes, wp_pure, diskVols]
  | cons d rest ih =>
    rw [createDiskVolumes]
    simp only [createDiskVolume, wp_bind, wp_wrapErr, wp_pure, wp_StorageVolCreateXML,
      wp_diskVolumeXML]
    refine ⟨fun _ => by simp, fun _ => ⟨fun _ => by simp, fun _ => ⟨fun _ => ?_, fun _ _ => by simp⟩⟩⟩
    refine wp_mono (ih _) ?_
    rintro r s1 t h hr
    rw [h hr]
    simp [diskVols]

theorem createVM_ok (vmConfig : VMConfig) (s : Hv)
    (hnone : s.findDomain vmConfig.Name = none) :
    (createVM vmConfig).wp s (fun r s1 _ =>
      ∀ ip, r = .ok ip → s1 = { s with
        domains := s.domains ++ [newDomain vmConfig s true]
        hosts := s.hosts ++ [⟨s.nextMAC, vmConfig.ID⟩]
        nextMAC := s.nextMAC + 1
        nextID := s.nextID + 1 }) := by
  simp only [createVM, wp_bind, wp_wrapErr, wp_pure, wp_vmXML, wp_DomainDefineXML,
    wp_DomainGetXMLDesc, wp_addDHCPEntry, wp_DomainCreate, hnone]
  simp [newDomain, find_new vmConfig s hnone]
  intro _ _ _ _ _
  unfold Hv.updDomain
  simp only
  rw [filterMap_append_new s.domains vmConfig.Name _ _ rfl hnone]
  rfl


theorem VMRun_ok_state (vmConfig : VMConfig) (s : Hv) :
    (VMRun vmConfig).wp s (fun r s1 _ =>
      r = .ok () →
        s.findDomain vmConfig.Name = none ∧ (∀ v ∈ vmImages vmConfig, s.findVol v = none) ∧
        ∃ id cap, s1 = { s with
          vols := s.vols ++ newVols vmConfig cap
          domains := s.domains ++ [newDomain vmConfig s true]
          hosts := s.hosts ++ [⟨s.nextMAC, id⟩]
          nextMAC := s.nextMAC + 1
          nextID := s.nextID + 1 }) := by
  rw [VMRun]
  simp only [wp_bind, CheckVMConfig, wp_ite, wp_pure, wp_fail, wp_attempt,
    wp_DomainLookupByName, hasErrorCode, decide_True, Bool.not_true, Bool.false_eq_true,
    false_implies, not_false_eq_true, true_implies, true_and, Bool.not_false, anyImageExists]
  refine ⟨fun _ => ⟨fun _ => ?_, fun _ => ⟨fun hnone => ?_, fun d _ => ?_⟩⟩, fun _ => ?_⟩
  · simp
  · refine wp_mono (anyImageExistsLoop_spec (vmImages vmConfig) s) ?_
    rintro r s1 t1 ⟨rfl, -, hh1, hfresh⟩
    cases r with
    | hang => exact absurd rfl hh1
    | error e => simp
    | ok found =>
      cases found with
      | true => simp
      | false =>
        simp only [Bool.false_eq_true, false_implies, not_false_eq_true, true_implies, true_and]
        refine wp_mono (getVMID_quiet vmConfig.ID s1) ?_
        rintro r2 s2 t2 ⟨rfl, -, hh2, -⟩
        cases r2 with
        | hang => exact absurd rfl hh2
        | error e => simp
        | ok id =>
          simp only [wp_wrapErr, wp_StoragePoolLookupByName]
          refine ⟨fun _ => by simp, fun _ => ?_⟩
          refine wp_mono (createVMVolume_ok { vmConfig with ID := id } s2) ?_
          rintro r3 s3 t3 h3
          cases r3 with
          | hang => simp
          | error e => simp
          | ok u3 =>
            obtain ⟨cap, rfl⟩ := h3 rfl
            refine wp_mono (createCIData_ok { vmConfig with ID := id } _) ?_
            rintro r4 s4 t4 h4
            cases r4 with
            | hang => simp
            | error e => simp
            | ok u4 =>
              have h4' := h4 rfl
              subst h4'
              refine wp_mono (createDiskVolumes_ok vmConfig.Name vmConfig.Disks _) ?_
              rintro r5 s5 t5 h5
              cases r5 with
              | hang => simp
              | error e => simp
              | ok u5 =>
                have h5' := h5 rfl
                subst h5'
                refine wp_mono (createVM_ok { vmConfig with ID := id } _ hnone) ?_
                rintro r6 s6 t6 h6
                cases r6 with
                | hang => simp
                | error e => simp
                | ok ip =>
                  have h6' := h6 ip rfl
                  subst h6'
                  refine ⟨fun _ => ?_, fun _ => ?_⟩
                  · refine wp_mono (pingSSH_quiet _ ip _) ?_
                    rintro r7 s7 t7 ⟨rfl, -, -⟩
                    intro _
                    refine ⟨hnone, hfresh rfl, id, cap, ?_⟩
                    simp [newVols, newDomain, vmImages]
                  · refine ⟨hnone, hfresh rfl, id, cap, ?_⟩
                    simp [newVols, newDomain, vmImages]
  · simp
  · simp

theorem VMRun_returns (vmConfig : VMConfig) (s : Hv) :
    (VMRun vmConfig s).res = .ok () ∨ ∃ err, (VMRun vmConfig s).res = .error err := by
  obtain ⟨⟨id, -, hprog, -⟩, -⟩ := VMRun_spec vmConfig s
  rcases hprog with ⟨⟨a, ha⟩, -⟩ | ⟨he, -⟩
  · exact Or.inl ha
  · exact Or.inr he

/-! ## A run of `VMRun` in which nothing fails -/

theorem findVol_append_none (s : Hv) (vs : List StorageVol) (n : String)
    (h1 : s.findVol n = none) (h2 : ∀ v ∈ vs, v.Name ≠ n) :
    Hv.findVol { s with vols := s.vols ++ vs } n = none := by
  unfold Hv.findVol at h1 ⊢
  simp only
  rw [List.find?_append, h1]
  simp only [Option.none_or, List.find?_eq_none, decide_eq_true_eq]
  exact h2

theorem findVol_append_some (s : Hv) (vs : List StorageVol) (n : String) (v : StorageVol)
    (h1 : s.findVol n = some v) :
    Hv.findVol { s with vols := s.vols ++ vs } n = some v := by
  unfold Hv.findVol at h1 ⊢
  simp only
  rw [List.find?_append, h1]
  rfl

theorem single_ne (n m : String) (c : Nat) (h : n ≠ m) :
    ∀ v ∈ [(⟨n, c⟩ : StorageVol)], v.Name ≠ m := by
  intro v hv
  rw [List.mem_singleton.1 hv]
  exact h

theorem anyImageExistsLoop_fwd (imgs : List String) (s : Hv) (hf : s.faults = [])
    (hfresh : ∀ v ∈ imgs, s.findVol v = none) :
    (anyImageExistsLoop imgs).wp s (fun r s1 t => r = .ok false ∧ s1 = s ∧ steps t = []) := by
  have h1 := anyImageExistsLoop_ok imgs s hf
  have h2 := anyImageExistsLoop_quiet imgs s
  unfold Op.wp at h1 h2 ⊢
  refine ⟨?_, h1.1, h2.2.1⟩
  rw [h1.2]
  congr 1
  rw [List.any_eq_false]
  intro v hv
  simp [hfresh v hv]

theorem createVMVolume_fwd (vmConfig : VMConfig) (s : Hv) (img : StorageVol)
    (hf : s.faults = []) (himg : s.findVol vmConfig.ImageName = some img)
    (hfree : s.findVol vmConfig.Name = none) :
    (createVMVolume vmConfig).wp s (fun r s1 t =>
      r = .ok () ∧ (∃ cap, s1 = { s with vols := s.vols ++ [⟨vmConfig.Name, cap⟩] }) ∧
      steps t = [okEv (.StorageVolCreateXML vmConfig.Name)]) := by
  have h1 := createVMVolume_run s vmConfig img hf himg hfree
  have h2 := createVMVolume_ok vmConfig s
  have h3 := createVMVolume_steps vmConfig s
  unfold Op.wp at h1 h2 h3 ⊢
  refine ⟨h1.1, h2 h1.1, ?_⟩
  have := h3.2
  rw [h1.1] at this
  exact prog_ok_steps this

theorem createCIData_fwd (vmConfig : VMConfig) (s : Hv) (hf : s.faults = [])
    (hfree : s.findVol (ciDataVolumeName vmConfig.Name) = none) :
    (createCIData vmConfig).wp s (fun r s1 t =>
      r = .ok () ∧
      s1 = { s with vols := s.vols ++ [⟨ciDataVolumeName vmConfig.Name, 0⟩] } ∧
      steps t = [okEv (.StorageVolCreateXML (ciDataVolumeName vmConfig.Name))]) := by
  simp only [createCIData, wp_bind, wp_pure, wp_StorageVolCreateXML, hf, hfree]
  simp [steps_cons, steps_nil, Call.creation, okEv]

theorem createDiskVolumes_fwd (vmName : String) (disks : List Disk) (s : Hv)
    (hf : s.faults = [])
    (hfree : ∀ d ∈ disks, s.findVol (diskVolumeName vmName d.name) = none)
    (hnd : (disks.map (fun d => diskVolumeName vmName d.name)).Nodup) :
    (createDiskVolumes vmName disks).wp s (fun r s1 t =>
      r = .ok () ∧ s1 = { s with vols := s.vols ++ diskVols vmName disks } ∧
      steps t =
        (disks.map (fun d => Call.StorageVolCreateXML (diskVolumeName vmName d.name))).map
          okEv) := by
  induction disks generalizing s with
  | nil => simp [createDiskVolumes, wp_pure, diskVols, steps_nil]
  | cons d rest ih =>
    have hnf : ∀ c : Call, c ∉ s.faults := by simp [hf]
    rw [createDiskVolumes]
    simp only [createDiskVolume, wp_bind, wp_wrapErr, wp_pure, wp_StorageVolCreateXML,
      wp_diskVolumeXML, hnf, hfree d (by simp), false_implies,
      not_false_eq_true, true_implies, true_and]
    rw [List.map_cons, List.nodup_cons] at hnd
    refine ⟨?_, fun v hv => by cases hv⟩
    refine wp_mono (ih _ hf ?_ hnd.2) ?_
    · intro d2 hd2
      apply findVol_append_none s _ _ (hfree d2 (List.mem_cons_of_mem _ hd2))
      intro v hv
      simp only [List.mem_singleton] at hv
      rw [hv]
      intro hc
      have hc2 : diskVolumeName vmName d.name = diskVolumeName vmName d2.name := hc
      exact hnd.1 (by rw [hc2]; exact List.mem_map.2 ⟨d2, hd2, rfl⟩)
    · rintro r s1 t ⟨hr, hs, ht⟩
      subst hr
      refine ⟨rfl, ?_, ?_⟩
      · rw [hs]; simp [diskVols]
      · simp [steps_cons, steps_append, steps_nil, Call.creation, ht, okEv]

theorem createVM_fwd (vmConfig : VMConfig) (s : Hv) (hf : s.faults = [])
    (hnone : s.findDomain vmConfig.Name = none) :
    (createVM vmConfig).wp s (fun r s1 t =>
      (∃ ip, r = .ok ip) ∧
      s1 = { s with
        domains := s.domains ++ [newDomain vmConfig s true]
        hosts := s.hosts ++ [⟨s.nextMAC, vmConfig.ID⟩]
        nextMAC := s.nextMAC + 1
        nextID := s.nextID + 1 } ∧
      steps t = (domainSteps vmConfig s.nextMAC vmConfig.ID).map okEv) := by
  have h2 := createVM_ok vmConfig s hnone
  have h3 := createVM_steps vmConfig s hnone
  have h1 : (createVM vmConfig).wp s (fun r _ _ => ∃ ip, r = .ok ip) := by
    simp only [createVM, wp_bind, wp_wrapErr, wp_pure, wp_vmXML, wp_DomainDefineXML,
      wp_DomainGetXMLDesc, wp_addDHCPEntry, wp_DomainCreate, hnone, hf]
    simp [find_new vmConfig s hnone]
  unfold Op.wp at h1 h2 h3 ⊢
  obtain ⟨ip, hip⟩ := h1
  refine ⟨⟨ip, hip⟩, h2 ip hip, ?_⟩
  rw [hip] at h3
  rcases h3 with ⟨⟨e, he⟩, -⟩ | ⟨-, h⟩
  · cases he
  · rw [h]; rfl

theorem pingSSH_fwd (vmConfig : VMConfig) (ip : Nat) (s : Hv) (hf : s.faults = [])
    (hn : vmConfig.SSHPingCount ≠ 0) :
    (pingSSH vmConfig ip s).res = .ok () := by
  have key : (pingSSH vmConfig ip).wp s (fun r _ _ => r = .ok ()) := by
    obtain ⟨k, hk⟩ := Nat.exists_eq_succ_of_ne_zero hn
    simp only [pingSSH, wp_bind, wp_wrapErr, wp_getSSHClientConfig, hk, Ping, wp_attempt,
      wp_tryDialSSH, wp_pure, hf]
    simp
  exact key


theorem VMRun_all_steps (vmConfig : VMConfig) (s : Hv) (img : StorageVol) (id : Nat)
    (hf : s.faults = []) (hnone : s.findDomain vmConfig.Name = none)
    (hfresh : ∀ v ∈ vmImages vmConfig, s.findVol v = none)
    (hnd : (vmImages vmConfig).Nodup)
    (himg : s.findVol vmConfig.ImageName = some img)
    (hid : (getVMID vmConfig.ID s).res = .ok id) :
    (VMRun vmConfig).wp s (fun r _ t =>
      steps t = (creationSteps vmConfig s.nextMAC id).map okEv ∧
      ((vmConfig.WaitSSH = true → vmConfig.SSHPingCount ≠ 0) → r = .ok ())) := by
  have hnf : ∀ c : Call, c ∉ s.faults := by simp [hf]
  obtain ⟨hn1, hn2⟩ : (vmConfig.Name ∉ ciDataVolumeName vmConfig.Name ::
      vmConfig.Disks.map (fun d => diskVolumeName vmConfig.Name d.name)) ∧
      (ciDataVolumeName vmConfig.Name :: vmConfig.Disks.map
        (fun d => diskVolumeName vmConfig.Name d.name)).Nodup := by
    have := hnd
    simp only [vmImages, List.cons_append, List.nil_append, List.nodup_cons] at this
    exact ⟨by simpa using this.1, by simpa [List.nodup_cons] using this.2⟩
  rw [List.nodup_cons] at hn2
  have hck : (vmConfig.Disks.map (fun d => d.name)).Nodup := by
    have h := hn2.2
    rw [show (fun d : Disk => diskVolumeName vmConfig.Name d.name) =
      (fun n => diskVolumeName vmConfig.Name n) ∘ (fun d : Disk => d.name) from rfl,
      ← List.map_map] at h
    exact List.Nodup.of_map _ h
  rw [VMRun]
  simp only [wp_bind, CheckVMConfig, wp_ite, wp_pure, wp_fail, wp_attempt,
    wp_DomainLookupByName, hasErrorCode, decide_True, Bool.not_true, Bool.false_eq_true,
    false_implies, not_false_eq_true, true_implies, true_and, Bool.not_false, anyImageExists,
    hck, hnf, hnone, not_true_eq_false, reduceCtorEq, implies_true, and_true]
  refine wp_mono (anyImageExistsLoop_fwd (vmImages vmConfig) s hf hfresh) ?_
  rintro r s1 t1 ⟨rfl, rfl, ht1⟩
  simp only [Bool.false_eq_true, false_implies, not_false_eq_true, true_implies, true_and]
  have hg : (getVMID vmConfig.ID).wp s1 (fun r s2 t => r = .ok id ∧ s2 = s1 ∧ steps t = []) := by
    have hq := getVMID_quiet vmConfig.ID s1
    unfold Op.wp at hq ⊢
    exact ⟨hid, hq.1, hq.2.1⟩
  refine wp_mono hg ?_
  rintro r2 s2 t2 ⟨rfl, rfl, ht2⟩
  simp only [wp_wrapErr, wp_StoragePoolLookupByName, hnf, false_implies, not_false_eq_true,
    true_implies, true_and]
  have hfN : s2.findVol vmConfig.Name = none := hfresh _ (by simp [vmImages])
  have hfC : s2.findVol (ciDataVolumeName vmConfig.Name) = none := hfresh _ (by simp [vmImages])
  have hmemD : ∀ d ∈ vmConfig.Disks,
      diskVolumeName vmConfig.Name d.name ∈ vmImages vmConfig := by
    intro d hd
    simp only [vmImages, List.cons_append, List.nil_append, List.mem_cons, List.mem_map]
    exact Or.inr (Or.inr ⟨d, hd, rfl⟩)
  have hfD : ∀ d ∈ vmConfig.Disks,
      s2.findVol (diskVolumeName vmConfig.Name d.name) = none :=
    fun d hd => hfresh _ (hmemD d hd)
  have hNC : vmConfig.Name ≠ ciDataVolumeName vmConfig.Name :=
    fun hc => hn1 (hc ▸ List.mem_cons_self _ _)
  have hND : ∀ d ∈ vmConfig.Disks, vmConfig.Name ≠ diskVolumeName vmConfig.Name d.name :=
    fun d hd hc => hn1 (List.mem_cons_of_mem _ (List.mem_map.2 ⟨d, hd, hc.symm⟩))
  have hCD : ∀ d ∈ vmConfig.Disks,
      ciDataVolumeName vmConfig.Name ≠ diskVolumeName vmConfig.Name d.name :=
    fun d hd hc => hn2.1 (List.mem_map.2 ⟨d, hd, hc.symm⟩)
  refine wp_mono (createVMVolume_fwd { vmConfig with ID := id } s2 img hf himg hfN) ?_
  rintro r3 s3 t3 ⟨rfl, ⟨cap, rfl⟩, ht3⟩
  simp only
  refine wp_mono (createCIData_fwd { vmConfig with ID := id } _ hf
    (findVol_append_none s2 _ _ hfC (single_ne _ _ _ hNC))) ?_
  rintro r4 s4 t4 ⟨rfl, rfl, ht4⟩
  simp only
  have hfD4 : ∀ d ∈ vmConfig.Disks, Hv.findVol
      { ({ s2 with vols := s2.vols ++ [⟨vmConfig.Name, cap⟩] } : Hv) with
        vols := s2.vols ++ [⟨vmConfig.Name, cap⟩] ++ [⟨ciDataVolumeName vmConfig.Name, 0⟩] }
      (diskVolumeName vmConfig.Name d.name) = none := by
    intro d hd
    exact findVol_append_none _ _ _ (findVol_append_none s2 _ _ (hfD d hd)
      (single_ne _ _ _ (hND d hd))) (single_ne _ _ _ (hCD d hd))
  refine wp_mono (createDiskVolumes_fwd vmConfig.Name vmConfig.Disks _ hf hfD4 hn2.2) ?_
  rintro r5 s5 t5 ⟨rfl, rfl, ht5⟩
  simp only
  refine wp_mono (createVM_fwd { vmConfig with ID := id } _ hf hnone) ?_
  rintro r6 s6 t6 ⟨⟨ip, rfl⟩, rfl, ht6⟩
  simp only
  have hst : ∀ t7, steps t7 = [] →
      steps ([] ++ ([{ call := Call.DomainLookupByName vmConfig.Name, ok := false }] ++
        ([] ++ (t1 ++ ([] ++ (t2 ++
          ([{ call := Call.StoragePoolLookupByName, ok := true }] ++
            (t3 ++ (t4 ++ (t5 ++ (t6 ++ t7)))))))))))
        = (creationSteps vmConfig s2.nextMAC id).map okEv := by
    intro t7 h7
    simp [steps_cons, steps_append, steps_nil, Call.creation, ht1, ht2, ht3, ht4, ht5, ht6, h7,
      creationSteps, volumeSteps, domainSteps]
  refine ⟨fun hw => ?_, fun hw => ?_⟩
  · have hq := pingSSH_quiet { vmConfig with ID := id } ip
    unfold Op.wp at hq ⊢
    exact ⟨hst _ (hq _).2.1, fun hping => pingSSH_fwd _ ip _ hf (hping hw)⟩
  · have := hst [] steps_nil
    simpa using this

/-- C9: the creation steps `VMRun` performs are a first part of: boot volume,
cloud-init volume, each extra disk volume in list order, domain definition,
reading back the definition, registering the lease for (mac, id), starting the
domain; every performed step succeeded except possibly the last, after which
nothing is performed; a successful run performed them all; a failed step makes
the run fail; a lease is registered only after the domain was defined; after a
failed lease registration the domain is not started.  When the specification
passes the checks (no domain and no volume under the names of the VM, these
names pairwise distinct, the identity resolved), the backing image exists and
no call fails, every one of these steps is performed, in this order, and
succeeds, and the run returns success (provided, when the guest is waited for,
that at least one SSH attempt is allowed). -/
theorem VMRun_creation_order (s : Hv) (vmConfig : VMConfig) :
    (∃ id, (vmConfig.ID ≠ 0 → id = vmConfig.ID) ∧
      (∃ pre post,
        [Call.StorageVolCreateXML vmConfig.Name,
          Call.StorageVolCreateXML (ciDataVolumeName vmConfig.Name)] ++
        vmConfig.Disks.map
          (fun d => Call.StorageVolCreateXML (diskVolumeName vmConfig.Name d.name)) ++
        [Call.DomainDefineXML vmConfig.Name, Call.DomainGetXMLDesc vmConfig.Name,
          Call.addDHCPEntry s.nextMAC id, Call.DomainCreate vmConfig.Name] = pre ++ post ∧
        (steps (VMRun vmConfig s).tr = pre.map okEv ∨
          ∃ c rest, post = c :: rest ∧
            steps (VMRun vmConfig s).tr = pre.map okEv ++ [⟨c, false⟩])) ∧
      ((VMRun vmConfig s).res = .ok () →
        steps (VMRun vmConfig s).tr = (creationSteps vmConfig s.nextMAC id).map okEv) ∧
      ((∃ e ∈ steps (VMRun vmConfig s).tr, e.ok = false) →
        ∃ err, (VMRun vmConfig s).res = .error err) ∧
      (∀ m i b, (⟨.addDHCPEntry m i, b⟩ : Ev) ∈ steps (VMRun vmConfig s).tr →
        (⟨.DomainDefineXML vmConfig.Name, true⟩ : Ev) ∈ steps (VMRun vmConfig s).tr) ∧
      (∀ m i, (⟨.addDHCPEntry m i, false⟩ : Ev) ∈ steps (VMRun vmConfig s).tr →
        ∀ b, (⟨.DomainCreate vmConfig.Name, b⟩ : Ev) ∉ steps (VMRun vmConfig s).tr)) ∧
    (∀ (img : StorageVol) (id : Nat),
      s.faults = [] → s.findDomain vmConfig.Name = none →
      (∀ v ∈ vmImages vmConfig, s.findVol v = none) → (vmImages vmConfig).Nodup →
      s.findVol vmConfig.ImageName = some img → (getVMID vmConfig.ID s).res = .ok id →
      steps (VMRun vmConfig s).tr =
        ([Call.StorageVolCreateXML vmConfig.Name,
          Call.StorageVolCreateXML (ciDataVolumeName vmConfig.Name)] ++
        vmConfig.Disks.map
          (fun d => Call.StorageVolCreateXML (diskVolumeName vmConfig.Name d.name)) ++
        [Call.DomainDefineXML vmConfig.Name, Call.DomainGetXMLDesc vmConfig.Name,
          Call.addDHCPEntry s.nextMAC id, Call.DomainCreate vmConfig.Name]).map okEv ∧
      ((vmConfig.WaitSSH = true → vmConfig.SSHPingCount ≠ 0) →
        (VMRun vmConfig s).res = .ok ())) := by
  refine ⟨?_, fun img id hf hnone hfresh hnd himg hid => ?_⟩
  swap
  · have h := VMRun_all_steps vmConfig s img id hf hnone hfresh hnd himg hid
    unfold Op.wp at h
    refine ⟨?_, h.2⟩
    rw [h.1]
    simp [creationSteps, volumeSteps, domainSteps]
  obtain ⟨⟨id, hid, hprog, hD, hE⟩, -⟩ := VMRun_spec vmConfig s
  refine ⟨id, hid, ?_, ?_, ?_, hD, hE⟩
  · rcases hprog with ⟨-, h⟩ | ⟨-, pre, post, hexp, h⟩
    · exact ⟨creationSteps vmConfig s.nextMAC id, [], by simp [creationSteps, volumeSteps,
        domainSteps], Or.inl h⟩
    · exact ⟨pre, post, hexp, h⟩
  · intro hok
    rcases hprog with ⟨-, h⟩ | ⟨⟨e, he⟩, -⟩
    · exact h
    · rw [hok] at he; cases he
  · rintro ⟨e, he, hfalse⟩
    rcases hprog with ⟨-, h⟩ | ⟨herr, -⟩
    · rw [h] at he
      obtain ⟨c, -, rfl⟩ := List.mem_map.1 he
      simp [okEv] at hfalse
    · exact herr

/-- Instance: `VMRun cfg0` on `hv0`, where the checks pass and no call fails:
the seven creation steps are performed in order and the run succeeds. -/
theorem VMRun_creation_order_witness :
    steps (VMRun cfg0 hv0).tr =
      [⟨.StorageVolCreateXML "vm", true⟩, ⟨.StorageVolCreateXML "vm-cidata", true⟩,
        ⟨.StorageVolCreateXML "vm-d", true⟩, ⟨.DomainDefineXML "vm", true⟩,
        ⟨.DomainGetXMLDesc "vm", true⟩, ⟨.addDHCPEntry 100 10, true⟩,
        ⟨.DomainCreate "vm", true⟩] ∧
    (VMRun cfg0 hv0).res = .ok () :=
  have h := (VMRun_creation_order hv0 cfg0).2 ⟨"img", 5 * unitG⟩ 10 rfl (by decide) (by decide)
    (by decide) (by decide) (by decide)
  ⟨h.1, h.2 (fun _ => by decide)⟩

/-! ## Names and identities of a batch run -/

theorem decodeDigits_append (l : List Char) (c : Char) :
    decodeDigits (l ++ [c]) = decodeDigits l * 10 + (c.toNat - 48) := by
  simp [decodeDigits, List.foldl_append]

theorem toDigitsCore_append (fuel n : Nat) (ds : List Char) :
    Nat.toDigitsCore 10 fuel n ds = Nat.toDigitsCore 10 fuel n [] ++ ds := by
  induction fuel generalizing n ds with
  | zero => simp [Nat.toDigitsCore]
  | succ f ih =>
    simp only [Nat.toDigitsCore]
    by_cases h : n / 10 = 0
    · simp [h]
    · simp only [h, if_false]
      rw [ih (n / 10) (Nat.digitChar (n % 10) :: ds), ih (n / 10) [Nat.digitChar (n % 10)]]
      simp

theorem digitChar_val : ∀ k, k < 10 → (Nat.digitChar k).toNat - 48 = k := by
  decide

theorem decodeDigits_toDigitsCore (fuel n : Nat) (h : n < fuel) :
    decodeDigits (Nat.toDigitsCore 10 fuel n []) = n := by
  induction fuel generalizing n with
  | zero => omega
  | succ f ih =>
    simp only [Nat.toDigitsCore]
    by_cases h0 : n / 10 = 0
    · simp only [h0, if_true]
      have hlt : n < 10 := by omega
      simp [decodeDigits, Nat.mod_eq_of_lt hlt, digitChar_val n hlt]
    · simp only [h0, if_false]
      rw [toDigitsCore_append, decodeDigits_append, ih (n / 10) (by omega),
        digitChar_val _ (Nat.mod_lt n (by norm_num))]
      omega

theorem toString_nat_inj (a b : Nat) (h : toString a = toString b) : a = b := by
  have h2 : Nat.toDigits 10 a = Nat.toDigits 10 b := by
    have := congrArg String.data h
    simpa [toString, Nat.repr, List.asString] using this
  have ha := decodeDigits_toDigitsCore (a + 1) a (by omega)
  have hb := decodeDigits_toDigitsCore (b + 1) b (by omega)
  unfold Nat.toDigits at h2
  rw [h2] at ha
  rw [← ha, hb]

theorem append_left_cancel (s x y : String) (h : s ++ x = s ++ y) : x = y := by
  have := congrArg String.data h
  simp only [String.data_append] at this
  exact String.ext (List.append_cancel_left this)


theorem vmRunCommand_get (imageName vmName : String) (countChanged : Bool) (vmID count i : Nat)
    (hi : i < count) :
    (vmRunCommand imageName vmName countChanged vmID count).get? i =
      some (thisVMName imageName vmName countChanged ((vmID + i) % 2 ^ 64),
        (vmID + i) % 2 ^ 64) := by
  simp [vmRunCommand, List.getElem?_map, List.getElem?_range hi]

theorem uint_add_inj (vmID count i j : Nat) (hc : count ≤ 2 ^ 64) (hi : i < count)
    (hj : j < count) (h : (vmID + i) % 2 ^ 64 = (vmID + j) % 2 ^ 64) : i = j := by
  norm_num at h hc
  omega

/-- C11, as amended: the i-th VM of a batch (0 <= i < n) gets the identity
`(b + i) mod 2^64`, which is `b + i` whenever `b + i` fits in 64 bits.  When no
name is supplied its name is the image name, "-" and that identity in decimal,
and the n names are pairwise distinct; when a name is supplied it is used
unchanged if `--count` was not set, and followed by "-" and the identity if
`--count` was set. -/
theorem vmRunCommand_names (imageName vmName : String) (countChanged : Bool)
    (vmID count i : Nat) (hi : i < count) (hcount : count ≤ 2 ^ 64) :
    (∃ name, (vmRunCommand imageName vmName countChanged vmID count).get? i =
        some (name, (vmID + i) % 2 ^ 64) ∧
      (vmName = "" → name = imageName ++ "-" ++ toString ((vmID + i) % 2 ^ 64)) ∧
      (vmName ≠ "" → countChanged = false → name = vmName) ∧
      (vmName ≠ "" → countChanged = true →
        name = vmName ++ "-" ++ toString ((vmID + i) % 2 ^ 64))) ∧
    (vmID + i < 2 ^ 64 → (vmID + i) % 2 ^ 64 = vmID + i) ∧
    (vmName = "" →
      ((vmRunCommand imageName vmName countChanged vmID count).map Prod.fst).Nodup) := by
  refine ⟨⟨_, vmRunCommand_get imageName vmName countChanged vmID count i hi, ?_, ?_, ?_⟩,
    fun h => Nat.mod_eq_of_lt h, ?_⟩
  · intro h
    simp [thisVMName, h]
  · intro h hc
    simp [thisVMName, h, hc]
  · intro h hc
    simp [thisVMName, h, hc]
  · intro h
    subst h
    have hmap : (vmRunCommand imageName "" countChanged vmID count).map Prod.fst =
        (List.range count).map (fun i => imageName ++ "-" ++ toString ((vmID + i) % 2 ^ 64)) := by
      simp [vmRunCommand, thisVMName]
    rw [hmap]
    refine List.Nodup.map_on ?_ (List.nodup_range count)
    intro x hx y hy hxy
    exact uint_add_inj vmID count x y hcount (List.mem_range.1 hx) (List.mem_range.1 hy)
      (toString_nat_inj _ _ (append_left_cancel _ _ _ hxy))

/-- Instance: count 3 with base identity 10 on the image `img`. -/
theorem vmRunCommand_names_witness :
    vmRunCommand "img" "" true 10 3 = [("img-10", 10), ("img-11", 11), ("img-12", 12)] ∧
    ((vmRunCommand "img" "" true 10 3).map Prod.fst).Nodup :=
  ⟨by decide, (vmRunCommand_names "img" "" true 10 3 0 (by decide) (by norm_num)).2.2 rfl⟩

/-- C11, counterexample: with base identity 2^64 - 1 and count 2 the second VM
gets the identity 0 and the name `img-0`, not the identity 2^64 and the name
made from it. -/
theorem vmRunCommand_identity_wraps :
    (vmRunCommand "img" "" true (2 ^ 64 - 1) 2).get? 1 = some ("img-0", 0) ∧
    "img-0" ≠ "img" ++ "-" ++ toString (2 ^ 64 - 1 + 1) ∧
    (0 : Nat) ≠ 2 ^ 64 - 1 + 1 := by
  refine ⟨by decide, ?_, by norm_num⟩
  intro h
  have h2 : "img" ++ "-" ++ toString 0 = "img" ++ "-" ++ toString (2 ^ 64 - 1 + 1) := h
  have := toString_nat_inj _ _ (append_left_cancel _ _ _ h2)
  norm_num at this

/-! ## The name of a disk volume -/

/-- C12: `diskVolumeName vmName diskName` is `vmName`, then "-", then `diskName`.
For every extra disk of a VM specification it is the name `VMRun` checks (a
volume of that name makes `anyImageExists` report true and `VMRun` fail) and
the name under which the volume of the disk is created (by `createDiskVolume`,
and so by every successful `VMRun`). -/
theorem diskVolumeName_checked_and_created (vmConfig : VMConfig) (d : Disk) (s : Hv)
    (hd : d ∈ vmConfig.Disks) :
    diskVolumeName vmConfig.Name d.name = vmConfig.Name ++ "-" ++ d.name ∧
    ((∃ v, s.findVol (vmConfig.Name ++ "-" ++ d.name) = some v) →
      (s.faults = [] → (anyImageExists vmConfig s).res = .ok true) ∧
      ∃ err, (VMRun vmConfig s).res = .error err) ∧
    (s.faults = [] → s.findVol (vmConfig.Name ++ "-" ++ d.name) = none →
      (createDiskVolume vmConfig.Name d s).res = .ok () ∧
      (createDiskVolume vmConfig.Name d s).st.vols =
        s.vols ++ [⟨vmConfig.Name ++ "-" ++ d.name, d.sizeKiB * 1024⟩]) ∧
    (∀ e ∈ (createDiskVolume vmConfig.Name d s).tr, ∀ v,
      e.call = .StorageVolCreateXML v → v = vmConfig.Name ++ "-" ++ d.name) ∧
    ((VMRun vmConfig s).res = .ok () →
      s.findVol (vmConfig.Name ++ "-" ++ d.name) = none ∧
      (⟨vmConfig.Name ++ "-" ++ d.name, d.sizeKiB * 1024⟩ : StorageVol) ∈
        (VMRun vmConfig s).st.vols) := by
  have hmem : diskVolumeName vmConfig.Name d.name ∈ vmImages vmConfig := by
    simp only [vmImages, List.cons_append, List.nil_append, List.mem_cons, List.mem_map]
    exact Or.inr (Or.inr ⟨d, hd, rfl⟩)
  have hok := VMRun_ok_state vmConfig s
  unfold Op.wp at hok
  have hcd := createDiskVolume_run vmConfig.Name d s
  unfold Op.wp at hcd
  refine ⟨rfl, ?_, ?_, hcd.1, ?_⟩
  · rintro ⟨v, hv⟩
    refine ⟨fun hf => ?_, ?_⟩
    · have h := anyImageExistsLoop_ok (vmImages vmConfig) s hf
      unfold Op.wp at h
      rw [anyImageExists, h.2]
      congr 1
      rw [List.any_eq_true]
      exact ⟨_, hmem, by rw [show diskVolumeName vmConfig.Name d.name =
        vmConfig.Name ++ "-" ++ d.name from rfl, hv]; rfl⟩
    · rcases VMRun_returns vmConfig s with h | h
      · have := (hok h).2.1 _ hmem
        rw [show diskVolumeName vmConfig.Name d.name = vmConfig.Name ++ "-" ++ d.name from rfl,
          hv] at this
        cases this
      · exact h
  · intro hf hnone
    obtain ⟨h1, h2, -⟩ := hcd.2 hf hnone
    exact ⟨h1, h2⟩
  · intro hr
    obtain ⟨-, hfresh, id, cap, hs1⟩ := hok hr
    refine ⟨hfresh _ hmem, ?_⟩
    rw [hs1]
    simp only [newVols, diskVols, List.mem_append, List.mem_map]
    exact Or.inr (Or.inr ⟨d, hd, rfl⟩)

/-- Instance: the disk `d` of `cfg0` on `hv0`, where `VMRun` succeeds. -/
theorem diskVolumeName_checked_and_created_witness :
    diskVolumeName "vm" "d" = "vm-d" ∧
    (⟨"vm-d", 100 * 1024⟩ : StorageVol) ∈ (VMRun cfg0 hv0).st.vols :=
  have h := diskVolumeName_checked_and_created cfg0 ⟨"d", 100, "qcow2", "virtio"⟩ hv0 (by decide)
  ⟨h.1, (h.2.2.2.2 (by decide)).2⟩

/-! ## Building an image -/

theorem append_dash_ne (a b : String) : a ++ "-" ++ b ≠ a := by
  intro h
  have := congrArg String.length h
  have h1 : "-".length = 1 := by decide
  simp only [String.length_append, h1] at this
  omega

theorem vmImages_tail_ne (vmConfig : VMConfig) :
    ∀ v ∈ (vmImages vmConfig).tail, v ≠ vmConfig.Name := by
  intro v hv
  simp only [vmImages, List.cons_append, List.tail_cons, List.nil_append, List.mem_cons,
    List.mem_map] at hv
  rcases hv with rfl | ⟨d, -, rfl⟩
  · intro h
    have := congrArg String.length h
    have h7 : "-cidata".length = 7 := by decide
    simp only [ciDataVolumeName, String.length_append, h7] at this
    omega
  · exact append_dash_ne _ _

theorem teardown_vols (vmConfig : VMConfig) (img : StorageVol) (cap : Nat)
    (himg : img.Name ∉ vmImages vmConfig) :
    ([img] ++ newVols vmConfig cap).filter
      (fun x => decide (x.Name = vmConfig.Name ∨ x.Name ∉ vmImages vmConfig)) =
      [img, ⟨vmConfig.Name, cap⟩] := by
  have h2 := vmImages_tail_ne vmConfig
  simp only [vmImages, List.cons_append, List.tail_cons, List.nil_append, List.mem_cons,
    List.mem_map] at h2 himg
  simp only [newVols, diskVols, List.cons_append, List.nil_append, List.filter_cons]
  have e1 : decide (img.Name = vmConfig.Name ∨ img.Name ∉ vmImages vmConfig) = true := by
    simp [vmImages]
    right
    simpa using himg
  rw [e1]
  simp only [if_true, true_or, decide_True]
  have e2 : decide (ciDataVolumeName vmConfig.Name = vmConfig.Name ∨
      ciDataVolumeName vmConfig.Name ∉ vmImages vmConfig) = false := by
    simp [vmImages]
    exact h2 _ (Or.inl rfl)
  rw [e2]
  simp only [Bool.false_eq_true, if_false]
  congr 2
  rw [List.filter_eq_nil_iff]
  intro x hx
  obtain ⟨d, hd, rfl⟩ := List.mem_map.1 hx
  simp [vmImages]
  exact ⟨h2 _ (Or.inr ⟨d, hd, rfl⟩), fun _ _ => ⟨d, hd, rfl⟩⟩


theorem waitStopped_single (domain : Domain) (arrivals : List Sel) (s : Hv) (d : DomainState)
    (hdom : s.domains = [d]) (hid : d.ID = domain.ID) (hp : d.persistent = true)
    (hstop : StopBeforeTimeout domain arrivals) :
    (waitStopped domain 1 arrivals s).res = .ok () ∧
    (waitStopped domain 1 arrivals s).st = { s with domains := [{ d with active := false }] } := by
  induction arrivals with
  | nil => exact absurd hstop (not_stopBeforeTimeout_nil domain)
  | cons x rest ih =>
    cases x with
    | timeout => exact absurd hstop (not_stopBeforeTimeout_timeout domain rest)
    | event ev =>
      rw [waitStopped_event domain 1 (by decide)]
      by_cases hm : ev.Dom.ID = domain.ID ∧ ev.Event = DomainEventStopped
      · simp only [hm, and_self, if_true, true_and]
        unfold Hv.deliver
        simp [hm.2, hdom, hid, hm.1, DomainState.stopped, hp]
      · simp only [hm, if_false]
        have hsame : s.deliver ev = s := by
          unfold Hv.deliver
          by_cases hk : ev.Event = DomainEventStopped
          · have hne : ¬ d.ID = ev.Dom.ID := fun hc => hm ⟨by rw [← hc, hid], hk⟩
            simp only [hk, if_true, hdom, List.filterMap_cons, hne, if_false,
              List.filterMap_nil]
            rw [← hdom]
          · simp [hk]
        rw [hsame]
        rw [stopBeforeTimeout_cons_event] at hstop
        rcases hstop with hc | hc
        · exact absurd hc hm
        · exact ih hc

theorem VMCommit_shutdown_single (arrivals : List Sel) (vmName : String) (s : Hv)
    (d : DomainState) (hf : s.faults = []) (hdom : s.domains = [d]) (hn : d.Name = vmName)
    (ha : d.active = true) (hp : d.persistent = true) (hsn : d.snapshots = [])
    (hstop : StopBeforeTimeout ⟨vmName, d.ID⟩ arrivals) :
    (VMCommit arrivals vmName true).wp s (fun r s1 _ =>
      r = .ok () ∧ s1.faults = [] ∧ s1.domains = [] ∧
      s1.hosts = s.hosts.filter (fun h => decide (h.mac ≠ d.mac)) ∧
      s1.vols = s.vols.filter (fun x => decide (x.Name = vmName ∨ x.Name ∉ d.disks))) := by
  have hfd : s.findDomain vmName = some d := by
    unfold Hv.findDomain
    rw [hdom]
    simp [hn]
  obtain ⟨hw, hws⟩ := waitStopped_single ⟨vmName, d.ID⟩ arrivals s d hdom rfl hp hstop
  simp only [VMCommit, vmShutdown, wp_bind, wp_wrapErr, wp_ite, wp_pure, wp_DomainLookupByName,
    wp_LifecycleEvents, wp_DomainIsActive, wp_DomainShutdown, wp_waitStopped,
    wp_StoragePoolLookupByName, hf, hfd, if_true, List.not_mem_nil, false_implies,
    not_false_eq_true, true_implies, true_and, reduceCtorEq, Option.some.injEq, forall_eq', ha,
    hn, ne_eq, one_ne_zero, hw, hws]
  refine ⟨⟨?_, trivial⟩, fun h => absurd trivial h⟩
  have h := vmRmExceptBoot_fresh vmName { s with domains := [{ d with active := false }] } []
    { d with active := false } hf rfl rfl hn hp hsn
  simp only [hf, hn] at h
  exact h

theorem ImageBuild_ok (arrivals : List Sel) (provision : Op Unit) (vmConfig : VMConfig)
    (s0 : Hv) (hrun : (VMRun { vmConfig with WaitSSH := true } s0).res = .ok ())
    (hprov : (provision (VMRun { vmConfig with WaitSSH := true } s0).st).res = .ok ())
    (hc : (VMCommit arrivals vmConfig.Name true
      (provision (VMRun { vmConfig with WaitSSH := true } s0).st).st).res = .ok ()) :
    (ImageBuild arrivals provision vmConfig s0).res = .ok () ∧
    (ImageBuild arrivals provision vmConfig s0).st = (VMCommit arrivals vmConfig.Name true
      (provision (VMRun { vmConfig with WaitSSH := true } s0).st).st).st := by
  have key : (ImageBuild arrivals provision vmConfig).wp s0 (fun r s _ =>
      r = .ok () ∧ s = (VMCommit arrivals vmConfig.Name true
        (provision (VMRun { vmConfig with WaitSSH := true } s0).st).st).st) := by
    simp only [ImageBuild, wp_bind, wp_attempt]
    unfold Op.wp
    rw [hrun]
    simp only
    rw [hprov]
    simp only
    rw [hc]
    exact ⟨rfl, rfl⟩
  exact key

/-- C13: from a hypervisor holding only the base image, when the run of the
ephemeral VM succeeds, the provisioning succeeds (leaving the hypervisor as it
is) and the stop event of the guest arrives before the timeout, `ImageBuild`
succeeds and ends with exactly one volume beside the base image, the boot
volume of the VM, with no DHCP host entry and no domain: the cloud-init volume,
the disk volumes, the lease and the domain of the ephemeral VM are gone. -/
theorem ImageBuild_one_new_volume (s0 : Hv) (vmConfig : VMConfig) (provision : Op Unit)
    (arrivals : List Sel) (img : StorageVol)
    (hf : s0.faults = []) (hvols : s0.vols = [img]) (hdoms : s0.domains = [])
    (hhosts : s0.hosts = [])
    (hrun : (VMRun { vmConfig with WaitSSH := true } s0).res = .ok ())
    (hprov : ∀ s, (provision s).res = .ok () ∧ (provision s).st = s)
    (hstop : StopBeforeTimeout ⟨vmConfig.Name, s0.nextID⟩ arrivals) :
    (ImageBuild arrivals provision vmConfig s0).res = .ok () ∧
    (∃ cap, (ImageBuild arrivals provision vmConfig s0).st.vols = [img, ⟨vmConfig.Name, cap⟩]) ∧
    (ImageBuild arrivals provision vmConfig s0).st.hosts = [] ∧
    (ImageBuild arrivals provision vmConfig s0).st.domains = [] := by
  have h1 := VMRun_ok_state { vmConfig with WaitSSH := true } s0
  unfold Op.wp at h1
  obtain ⟨-, hfresh, id, cap, hs1⟩ := h1 hrun
  have himg : img.Name ∉ vmImages vmConfig := by
    intro hmem
    have := hfresh img.Name hmem
    rw [Hv.findVol, hvols] at this
    simp at this
  have hb := ImageBuild_ok arrivals provision vmConfig s0 hrun (hprov _).1
  rw [(hprov _).2] at hb
  generalize (VMRun { vmConfig with WaitSSH := true } s0).st = S1 at hs1 hb
  have e1 : S1.faults = [] := by rw [hs1]; exact hf
  have e2 : S1.domains = [newDomain vmConfig s0 true] := by rw [hs1, hdoms]; rfl
  have e3 : S1.hosts = [⟨s0.nextMAC, id⟩] := by rw [hs1, hhosts]; rfl
  have e4 : S1.vols = [img] ++ newVols vmConfig cap := by rw [hs1, hvols]; rfl
  have h2 := VMCommit_shutdown_single arrivals vmConfig.Name S1 (newDomain vmConfig s0 true)
    e1 e2 rfl rfl rfl rfl hstop
  unfold Op.wp at h2
  obtain ⟨g1, -, g3, g4, g5⟩ := h2
  obtain ⟨b1, b2⟩ := hb g1
  rw [b2]
  refine ⟨b1, ⟨cap, ?_⟩, ?_, g3⟩
  · rw [g5, e4]
    exact teardown_vols vmConfig img cap himg
  · rw [g4, e3]
    simp [newDomain]

/-- Instance: building from `img` on `hv0` with the specification `cfg0`, a
provisioning that does nothing, and the stop event of the guest arriving first. -/
theorem ImageBuild_one_new_volume_witness :
    (ImageBuild [.event ⟨⟨"vm", 1⟩, 5⟩, .timeout] (pure ()) cfg0 hv0).res = .ok () ∧
    (∃ cap, (ImageBuild [.event ⟨⟨"vm", 1⟩, 5⟩, .timeout] (pure ()) cfg0 hv0).st.vols =
      [⟨"img", 5 * unitG⟩, ⟨"vm", cap⟩]) ∧
    (ImageBuild [.event ⟨⟨"vm", 1⟩, 5⟩, .timeout] (pure ()) cfg0 hv0).st.hosts = [] ∧
    (ImageBuild [.event ⟨⟨"vm", 1⟩, 5⟩, .timeout] (pure ()) cfg0 hv0).st.domains = [] :=
  ImageBuild_one_new_volume hv0 cfg0 (pure ()) [.event ⟨⟨"vm", 1⟩, 5⟩, .timeout]
    ⟨"img", 5 * unitG⟩ rfl rfl rfl rfl (by decide) (fun _ => ⟨rfl, rfl⟩)
    ⟨[], ⟨⟨"vm", 1⟩, 5⟩, [.timeout], rfl, by decide, rfl, rfl⟩

/-! ## Shell steps on many targets -/

theorem getIP_quiet (vmName : String) (network : Option Unit) (s : Hv) :
    (getIP vmName network).wp s (fun _ s1 _ => s1 = s) := by
  simp only [getIP, findVMIP, getMAC, findIPs, NetworkLookupByName, wp_bind, wp_wrapErr, wp_ite,
    wp_fail, wp_pure, wp_DomainLookupByName, wp_DomainIsActive, wp_call]
  cases hd : s.findDomain vmName with
  | none => simp
  | some d =>
    cases network with
    | none =>
      simp only [wp_wrapErr, wp_call, wp_bind, wp_pure]
      cases hh : (s.hosts.filter (fun h => decide (h.mac = d.mac))).map (fun h => h.id) <;>
        simp [hd, hh, wp_fail, wp_pure]
    | some n =>
      simp only [wp_wrapErr, wp_call, wp_bind, wp_pure]
      cases hh : (s.hosts.filter (fun h => decide (h.mac = d.mac))).map (fun h => h.id) <;>
        simp [hd, hh, wp_fail, wp_pure]

theorem getIPs_quiet (vmNames : List String) (s : Hv) : (getIPs vmNames s).st = s := by
  have hloop : ∀ l : List String, (getIPsLoop l).wp s (fun _ s1 _ => s1 = s) := by
    intro l
    induction l with
    | nil => simp [getIPsLoop, wp_pure]
    | cons v rest ih =>
      rw [getIPsLoop]
      simp only [wp_bind, wp_pure]
      refine wp_mono (getIP_quiet v (some ()) s) ?_
      rintro r s1 t rfl
      cases r with
      | hang => rfl
      | error e => rfl
      | ok ip =>
        refine wp_mono ih ?_
        rintro r2 s2 t2 rfl
        cases r2 <;> rfl
  have key : (getIPs vmNames).wp s (fun _ s1 _ => s1 = s) := by
    simp only [getIPs, NetworkLookupByName, wp_bind, wp_wrapErr, wp_call]
    exact ⟨fun _ => trivial, fun _ => hloop vmNames⟩
  exact key

theorem groupWait_spec (order : List Nat) (tasks : List (Result Unit × List Ev)) (s : Hv)
    (hperm : order.Perm (List.range tasks.length))
    (hterm : ∀ t ∈ tasks, t.1 ≠ .hang) :
    (∀ err, (groupWait order tasks s).res = .error err → ∃ t ∈ tasks, t.1 = .error err) ∧
    ((∃ t ∈ tasks, ∃ err, t.1 = Result.error err) →
      ∃ err, (groupWait order tasks s).res = .error err) ∧
    ((∀ t ∈ tasks, t.1 = .ok ()) → (groupWait order tasks s).res = .ok ()) := by
  have hany : tasks.any (fun t => t.1.isHang) = false := by
    rw [List.any_eq_false]
    intro t ht
    have := hterm t ht
    cases h : t.1 <;> simp [Result.isHang, h] at this ⊢
  have herr : ∀ (r : Result Unit) (e : Err), r.err? = some e → r = .error e := by
    intro r e h
    cases r <;> simp [Result.err?] at h
    rw [h]
  have hmem : ∀ e, e ∈ order.filterMap (fun i => (tasks.get? i).bind (fun t => t.1.err?)) ↔
      ∃ t ∈ tasks, t.1 = .error e := by
    intro e
    rw [List.mem_filterMap]
    constructor
    · rintro ⟨i, -, hi⟩
      obtain ⟨t, ht, hte⟩ := Option.bind_eq_some.1 hi
      exact ⟨t, List.get?_mem ht, herr _ e hte⟩
    · rintro ⟨t, ht, hte⟩
      obtain ⟨i, hget⟩ := List.mem_iff_get?.1 ht
      have hlt : i < tasks.length := by
        by_contra hge
        rw [List.get?_eq_none.2 (Nat.le_of_not_lt hge)] at hget
        cases hget
      refine ⟨i, hperm.mem_iff.2 (List.mem_range.2 hlt), ?_⟩
      rw [hget]
      simp [hte, Result.err?]
  unfold groupWait
  simp only [hany, Bool.false_eq_true, if_false]
  cases hL : order.filterMap (fun i => (tasks.get? i).bind (fun t => t.1.err?)) with
  | nil =>
    refine ⟨fun err h => by simp at h, ?_, fun _ => rfl⟩
    rintro ⟨t, ht, err, hte⟩
    have := (hmem err).2 ⟨t, ht, hte⟩
    rw [hL] at this
    cases this
  | cons e rest =>
    obtain ⟨t, ht, hte⟩ := (hmem e).1 (by rw [hL]; simp)
    refine ⟨fun err h => ?_, fun _ => ⟨e, rfl⟩, fun hall => ?_⟩
    · simp only [Result.error.injEq] at h
      rw [← h]; exact ⟨t, ht, hte⟩
    · have := hall t ht
      rw [hte] at this
      cases this

theorem VMExecShell_run (guest : Nat → ShellTarget) (addEnv : Option Err) (order : List Nat)
    (vmNames : List String) (s : Hv) (ips : List Nat)
    (hips : (getIPs vmNames s).res = .ok ips) (hkey : Call.ParsePrivateKey ∉ s.faults) :
    (VMExecShell guest addEnv order vmNames s).res =
      (groupWait order (ips.map (shellTask guest addEnv)) s).res ∧
    (VMExecShell guest addEnv order vmNames s).tr =
      (getIPs vmNames s).tr ++ ([⟨.ParsePrivateKey, true⟩] ++
        ((ips.map (shellTask guest addEnv)).map (fun t => t.2)).flatten) := by
  have key : (VMExecShell guest addEnv order vmNames).wp s (fun r _ t =>
      r = (groupWait order (ips.map (shellTask guest addEnv)) s).res ∧
      t = (getIPs vmNames s).tr ++ ([⟨.ParsePrivateKey, true⟩] ++
        ((ips.map (shellTask guest addEnv)).map (fun t => t.2)).flatten)) := by
    simp only [VMExecShell, wp_bind, wp_getSSHClientConfig]
    unfold Op.wp
    rw [hips, getIPs_quiet]
    simp only [hkey, not_false_eq_true, true_implies, false_implies, true_and]
    rfl
  exact key

theorem session_infix (guest : Nat → ShellTarget) (addEnv : Option Err) (ips : List Nat)
    (pre : List Ev) (ip : Nat) (hip : ip ∈ ips) :
    List.IsInfix (shellTask guest addEnv ip).2
      (pre ++ ((ips.map (shellTask guest addEnv)).map (fun t => t.2)).flatten) := by
  obtain ⟨l1, l2, rfl⟩ := List.append_of_mem hip
  refine ⟨pre ++ ((l1.map (shellTask guest addEnv)).map (fun t => t.2)).flatten,
    ((l2.map (shellTask guest addEnv)).map (fun t => t.2)).flatten, ?_⟩
  simp

theorem shellTask_log (guest : Nat → ShellTarget) (addEnv : Option Err) (ip k : Nat)
    (he : addEnv = none) (hc : connectSSHRetry 0 (guest ip).dials = .ok k)
    (h1 : (guest ip).stdoutPipe = none) (h2 : (guest ip).stderrPipe = none) :
    (shellTask guest addEnv ip).2 =
      [⟨.session ip (.connected k), true⟩,
        ⟨.session ip .execScript, decide ((guest ip).execScript = none)⟩,
        ⟨.session ip .drainedStdout, true⟩, ⟨.session ip .drainedStderr, true⟩,
        ⟨.session ip .closed, true⟩] := by
  subst he
  unfold shellTask runSSHCommand
  simp only [hc, h1, h2]
  cases h3 : (guest ip).execScript <;> simp [sessionEv]

theorem runSSHCommand_ok (addEnv : Option Err) (t : ShellTarget)
    (h : (runSSHCommand addEnv t).1 = .ok ()) :
    addEnv = none ∧ (∃ k, connectSSHRetry 0 t.dials = .ok k) ∧ t.stdoutPipe = none ∧
      t.stderrPipe = none ∧ t.execScript = none := by
  unfold runSSHCommand at h
  cases addEnv with
  | some e => simp at h
  | none =>
    cases hc : connectSSHRetry 0 t.dials with
    | hang => simp [hc] at h
    | error e => simp [hc] at h
    | ok k =>
      cases h1 : t.stdoutPipe with
      | some e => simp [hc, h1] at h
      | none =>
        cases h2 : t.stderrPipe with
        | some e => simp [hc, h1, h2] at h
        | none =>
          cases h3 : t.execScript with
          | some e => simp [hc, h1, h2, h3] at h
          | none => exact ⟨rfl, ⟨k, rfl⟩, rfl, rfl, rfl⟩


/-- C14, as amended: when the addresses of all targets resolve, the key parses
and the task of every target returns, `VMExecShell` returns an error if and
only if the shell step fails on at least one target, whatever the order in
which the tasks return, and the error returned is the error of one of the
targets.  Whatever happens on the other targets, the log of `VMExecShell`
holds, for every target on which the step does not fail, its whole session:
connected, script executed, both output streams drained, closed; and for every
target whose session opened (so also where the script fails) the execution of
the script followed by the draining of both streams and the closing. -/
theorem VMExecShell_error_iff_target_fails (guest : Nat → ShellTarget) (addEnv : Option Err)
    (order : List Nat) (vmNames : List String) (s : Hv) (ips : List Nat)
    (hips : (getIPs vmNames s).res = .ok ips) (hkey : Call.ParsePrivateKey ∉ s.faults)
    (horder : order.Perm (List.range ips.length))
    (hterm : ∀ ip ∈ ips, (runSSHCommand addEnv (guest ip)).1 ≠ .hang) :
    ((∃ err, (VMExecShell guest addEnv order vmNames s).res = .error err) ↔
      ∃ ip ∈ ips, ∃ err, (runSSHCommand addEnv (guest ip)).1 = .error err) ∧
    (∀ err, (VMExecShell guest addEnv order vmNames s).res = .error err →
      ∃ ip ∈ ips, (runSSHCommand addEnv (guest ip)).1 = .error err) ∧
    ((∀ ip ∈ ips, (runSSHCommand addEnv (guest ip)).1 = .ok ()) →
      (VMExecShell guest addEnv order vmNames s).res = .ok ()) ∧
    (∀ ip ∈ ips, (runSSHCommand addEnv (guest ip)).1 = .ok () →
      ∃ k, List.IsInfix
        [⟨.session ip (.connected k), true⟩, ⟨.session ip .execScript, true⟩,
          ⟨.session ip .drainedStdout, true⟩, ⟨.session ip .drainedStderr, true⟩,
          ⟨.session ip .closed, true⟩]
        (VMExecShell guest addEnv order vmNames s).tr) ∧
    (∀ ip ∈ ips, ∀ k, addEnv = none → connectSSHRetry 0 (guest ip).dials = .ok k →
      (guest ip).stdoutPipe = none → (guest ip).stderrPipe = none →
      List.IsInfix
        [⟨.session ip (.connected k), true⟩,
          ⟨.session ip .execScript, decide ((guest ip).execScript = none)⟩,
          ⟨.session ip .drainedStdout, true⟩, ⟨.session ip .drainedStderr, true⟩,
          ⟨.session ip .closed, true⟩]
        (VMExecShell guest addEnv order vmNames s).tr) := by
  obtain ⟨hrun, htr⟩ := VMExecShell_run guest addEnv order vmNames s ips hips hkey
  have hmem : ∀ t, t ∈ ips.map (shellTask guest addEnv) ↔
      ∃ ip ∈ ips, shellTask guest addEnv ip = t := by
    intro t
    simp
  obtain ⟨g1, g2, g3⟩ := groupWait_spec order (ips.map (shellTask guest addEnv)) s
    (by rw [List.length_map]; exact horder)
    (fun t ht => by
      obtain ⟨ip, hip, rfl⟩ := (hmem t).1 ht
      exact hterm ip hip)
  have hinf : ∀ ip ∈ ips, List.IsInfix (shellTask guest addEnv ip).2
      (VMExecShell guest addEnv order vmNames s).tr := by
    intro ip hip
    rw [htr, ← List.append_assoc]
    exact session_infix guest addEnv ips _ ip hip
  rw [hrun]
  refine ⟨⟨?_, ?_⟩, ?_, ?_, ?_, ?_⟩
  · rintro ⟨err, h⟩
    obtain ⟨t, ht, hte⟩ := g1 err h
    obtain ⟨ip, hip, rfl⟩ := (hmem t).1 ht
    exact ⟨ip, hip, err, hte⟩
  · rintro ⟨ip, hip, err, h⟩
    exact g2 ⟨_, (hmem _).2 ⟨ip, hip, rfl⟩, err, h⟩
  · intro err h
    obtain ⟨t, ht, hte⟩ := g1 err h
    obtain ⟨ip, hip, rfl⟩ := (hmem t).1 ht
    exact ⟨ip, hip, hte⟩
  · intro hall
    apply g3
    intro t ht
    obtain ⟨ip, hip, rfl⟩ := (hmem t).1 ht
    exact hall ip hip
  · intro ip hip hok
    obtain ⟨he, ⟨k, hc⟩, h1, h2, h3⟩ := runSSHCommand_ok addEnv (guest ip) hok
    refine ⟨k, ?_⟩
    have := hinf ip hip
    rw [shellTask_log guest addEnv ip k he hc h1 h2, h3] at this
    simpa using this
  · intro ip hip k he hc h1 h2
    have := hinf ip hip
    rw [shellTask_log guest addEnv ip k he hc h1 h2] at this
    exact this

/-- Instance: a batch of three targets where the script fails on the second only
and the third task returns first: the batch returns the error of the second
target, and the sessions of all three are in the log, run to the end. -/
theorem VMExecShell_error_iff_target_fails_witness :
    (getIPs ["vm1", "vm2", "vm3"] hvThree).res = .ok [11, 12, 13] ∧
    (VMExecShell guestThree none [2, 0, 1] ["vm1", "vm2", "vm3"] hvThree).res =
      .error (.msg "Process exited with status 1") ∧
    (∃ err, (VMExecShell guestThree none [2, 0, 1] ["vm1", "vm2", "vm3"] hvThree).res =
      .error err) ∧
    (∃ k, List.IsInfix
      [⟨.session 11 (.connected k), true⟩, ⟨.session 11 .execScript, true⟩,
        ⟨.session 11 .drainedStdout, true⟩, ⟨.session 11 .drainedStderr, true⟩,
        ⟨.session 11 .closed, true⟩]
      (VMExecShell guestThree none [2, 0, 1] ["vm1", "vm2", "vm3"] hvThree).tr) ∧
    (∃ k, List.IsInfix
      [⟨.session 13 (.connected k), true⟩, ⟨.session 13 .execScript, true⟩,
        ⟨.session 13 .drainedStdout, true⟩, ⟨.session 13 .drainedStderr, true⟩,
        ⟨.session 13 .closed, true⟩]
      (VMExecShell guestThree none [2, 0, 1] ["vm1", "vm2", "vm3"] hvThree).tr) ∧
    List.IsInfix
      [⟨.session 12 (.connected 0), true⟩, ⟨.session 12 .execScript, false⟩,
        ⟨.session 12 .drainedStdout, true⟩, ⟨.session 12 .drainedStderr, true⟩,
        ⟨.session 12 .closed, true⟩]
      (VMExecShell guestThree none [2, 0, 1] ["vm1", "vm2", "vm3"] hvThree).tr := by
  have h := VMExecShell_error_iff_target_fails guestThree none [2, 0, 1] ["vm1", "vm2", "vm3"]
    hvThree [11, 12, 13] (by decide) (by decide) (by decide) (by decide)
  exact ⟨by decide, by decide, h.1.2 ⟨12, by decide, _, rfl⟩,
    h.2.2.2.1 11 (by decide) (by decide), h.2.2.2.1 13 (by decide) (by decide),
    h.2.2.2.2 12 (by decide) 0 rfl (by decide) (by decide) (by decide)⟩

/-- C14, counterexample: with all addresses resolved, `VMExecShell` returns an
error when the key does not parse, before any session is opened (the failed
parsing is the last call), although the step fails on no target; and when the
step fails on the second target while no dial to the third ever succeeds and
the context is never cancelled, it never returns, so it returns no error. -/
theorem VMExecShell_error_without_failing_target :
    (getIPs ["vm1", "vm2", "vm3"] { hvThree with faults := [.ParsePrivateKey] }).res =
      .ok [11, 12, 13] ∧
    (VMExecShell guestFine none [0, 1, 2] ["vm1", "vm2", "vm3"]
      { hvThree with faults := [.ParsePrivateKey] }).res = .error (.rpc .ParsePrivateKey) ∧
    (VMExecShell guestFine none [0, 1, 2] ["vm1", "vm2", "vm3"]
      { hvThree with faults := [.ParsePrivateKey] }).tr.getLast? =
      some ⟨.ParsePrivateKey, false⟩ ∧
    (∀ ip ∈ [11, 12, 13], (runSSHCommand none (guestFine ip)).1 = .ok ()) ∧
    (getIPs ["vm1", "vm2", "vm3"] hvThree).res = .ok [11, 12, 13] ∧
    (runSSHCommand none (guestStuck 12)).1 = .error (.msg "Process exited with status 1") ∧
    (VMExecShell guestStuck none [0, 1, 2] ["vm1", "vm2", "vm3"] hvThree).res = .hang := by
  decide

/-! ## The provisioning connector -/

/-- A dial that failed while the context was not cancelled: it is retried. -/
theorem connectSSHRetry_retry (k : Nat) (pre rest : List DialAttempt)
    (hpre : ∀ x ∈ pre, x.err ≠ none ∧ x.ctxDone = false) :
    connectSSHRetry k (pre ++ rest) = connectSSHRetry (k + pre.length) rest := by
  induction pre generalizing k with
  | nil => rfl
  | cons x pre2 ih =>
    obtain ⟨h1, h2⟩ := hpre x (by simp)
    obtain ⟨e, he⟩ := Option.ne_none_iff_exists'.1 h1
    rw [List.cons_append, connectSSHRetry, he]
    simp only [h2, Bool.false_eq_true, if_false]
    rw [ih (k + 1) (fun y hy => hpre y (List.mem_cons_of_mem _ hy)), List.length_cons]
    congr 1
    omega

theorem connectSSHRetry_error (k : Nat) (l : List DialAttempt) (e : Err)
    (h : connectSSHRetry k l = .error e) : ∃ a ∈ l, a.err = some e ∧ a.ctxDone = true := by
  induction l generalizing k with
  | nil => simp [connectSSHRetry] at h
  | cons a rest ih =>
    rw [connectSSHRetry] at h
    cases he : a.err with
    | none => simp [he] at h
    | some e2 =>
      simp only [he] at h
      cases hd : a.ctxDone with
      | true =>
        simp only [hd, if_true, Result.error.injEq] at h
        exact ⟨a, by simp, by rw [he, h], hd⟩
      | false =>
        simp only [hd, Bool.false_eq_true, if_false] at h
        obtain ⟨b, hb, hb2⟩ := ih (k + 1) h
        exact ⟨b, List.mem_cons_of_mem _ hb, hb2⟩

theorem connectSSHRetry_hang (k : Nat) (l : List DialAttempt) :
    connectSSHRetry k l = .hang ↔ ∀ x ∈ l, x.err ≠ none ∧ x.ctxDone = false := by
  induction l generalizing k with
  | nil => simp [connectSSHRetry]
  | cons a rest ih =>
    rw [connectSSHRetry]
    cases he : a.err with
    | none => simp [he]
    | some e2 =>
      cases hd : a.ctxDone with
      | true => simp [he, hd]
      | false => simp [he, hd, ih (k + 1)]

/-- C15: `connectSSHRetry` retries every failed dial and returns the client of
the first dial that succeeds, whether or not the context is cancelled by then
(cancellation is looked at only after a failed dial); when a dial fails and the
cancellation is observed it returns the error of that dial, the most recent
one, and no client; whenever it returns an error the cancellation was observed
after the dial that produced that error; it goes on retrying exactly as long as
dials fail without the cancellation being observed. -/
theorem connectSSHRetry_first_success_or_cancel :
    (∀ (pre : List DialAttempt) (a : DialAttempt) (post : List DialAttempt),
      (∀ x ∈ pre, x.err ≠ none ∧ x.ctxDone = false) → a.err = none →
      connectSSHRetry 0 (pre ++ a :: post) = .ok pre.length) ∧
    (∀ (pre : List DialAttempt) (a : DialAttempt) (post : List DialAttempt) (e : Err),
      (∀ x ∈ pre, x.err ≠ none ∧ x.ctxDone = false) → a.err = some e → a.ctxDone = true →
      connectSSHRetry 0 (pre ++ a :: post) = .error e) ∧
    (∀ (l : List DialAttempt) (e : Err), connectSSHRetry 0 l = .error e →
      ∃ a ∈ l, a.err = some e ∧ a.ctxDone = true) ∧
    (∀ l : List DialAttempt, connectSSHRetry 0 l = .hang ↔
      ∀ x ∈ l, x.err ≠ none ∧ x.ctxDone = false) := by
  refine ⟨?_, ?_, fun l e h => connectSSHRetry_error 0 l e h, fun l => connectSSHRetry_hang 0 l⟩
  · intro pre a post hpre ha
    rw [connectSSHRetry_retry 0 pre _ hpre, connectSSHRetry, ha, Nat.zero_add]
  · intro pre a post e hpre ha hd
    rw [connectSSHRetry_retry 0 pre _ hpre, connectSSHRetry, ha]
    simp [hd]

/-- Instance: two failed dials, then a successful one although the context is
cancelled by then; and a failed dial after which the cancellation is observed. -/
theorem connectSSHRetry_first_success_or_cancel_witness :
    connectSSHRetry 0 [⟨some (.msg "refused"), false⟩, ⟨some (.msg "reset"), false⟩,
      ⟨none, true⟩] = .ok 2 ∧
    connectSSHRetry 0 [⟨some (.msg "refused"), false⟩, ⟨some (.msg "reset"), true⟩,
      ⟨none, false⟩] = .error (.msg "reset") :=
  ⟨connectSSHRetry_first_success_or_cancel.1
      [⟨some (.msg "refused"), false⟩, ⟨some (.msg "reset"), false⟩] ⟨none, true⟩ []
      (by decide) rfl,
    connectSSHRetry_first_success_or_cancel.2.1 [⟨some (.msg "refused"), false⟩]
      ⟨some (.msg "reset"), true⟩ [⟨none, false⟩] (.msg "reset") (by decide) rfl rfl⟩

/-! ## The requested boot size in 64-bit arithmetic -/

/-- C16: the size of the boot volume comes from `BootCapacityKiB * 1024`
computed modulo 2^64: when that product is 0 the volume gets the larger of the
capacity of the backing image and 10 GiB, otherwise it gets the product.  A
request of 2^54 KiB is non-zero but its product is 0, so the capacity of the
backing image is read and the volume is sized as if nothing was requested.  For
a request below 2^54 KiB the product is exact, and non-zero exactly when the
request is non-zero. -/
theorem createVMVolume_size_mod_two_pow_64 (s : Hv) (vmConfig : VMConfig) (img : StorageVol)
    (hf : s.faults = []) (himg : s.findVol vmConfig.ImageName = some img)
    (hfree : s.findVol vmConfig.Name = none) :
    (createVMVolume vmConfig s).res = .ok () ∧
    (createVMVolume vmConfig s).st.vols = s.vols ++ [⟨vmConfig.Name,
      if vmConfig.BootCapacityKiB * 1024 % 2 ^ 64 = 0 then max img.capacity (10 * 1024 ^ 3)
      else vmConfig.BootCapacityKiB * 1024 % 2 ^ 64⟩] ∧
    (vmConfig.BootCapacityKiB = 2 ^ 54 →
      vmConfig.BootCapacityKiB ≠ 0 ∧ vmConfig.BootCapacityKiB * 1024 % 2 ^ 64 = 0 ∧
      (⟨.StorageVolGetInfo vmConfig.ImageName, true⟩ : Ev) ∈ (createVMVolume vmConfig s).tr ∧
      (createVMVolume vmConfig s).st.vols =
        s.vols ++ [⟨vmConfig.Name, max img.capacity (10 * 1024 ^ 3)⟩]) ∧
    (vmConfig.BootCapacityKiB < 2 ^ 54 →
      vmConfig.BootCapacityKiB * 1024 % 2 ^ 64 = vmConfig.BootCapacityKiB * 1024 ∧
      (vmConfig.BootCapacityKiB * 1024 % 2 ^ 64 ≠ 0 ↔ vmConfig.BootCapacityKiB ≠ 0)) := by
  have h := createVMVolume_run s vmConfig img hf himg hfree
  unfold Op.wp at h
  obtain ⟨h1, h2, h3⟩ := h
  refine ⟨h1, h2, ?_, ?_⟩
  · intro hk
    have hz : vmConfig.BootCapacityKiB * 1024 % 2 ^ 64 = 0 := by rw [hk]; norm_num
    refine ⟨by rw [hk]; norm_num, hz, h3.2 hz, ?_⟩
    rw [h2, if_pos hz]
  · intro hlt
    have hmod : vmConfig.BootCapacityKiB * 1024 % 2 ^ 64 = vmConfig.BootCapacityKiB * 1024 := by
      apply Nat.mod_eq_of_lt
      have h64 : (2 : Nat) ^ 64 = 2 ^ 54 * 1024 := by norm_num
      rw [h64]
      exact Nat.mul_lt_mul_of_pos_right hlt (by norm_num)
    refine ⟨hmod, ?_⟩
    rw [hmod]
    omega

/-- Instance: `cfgHuge` requests 2^54 KiB over the 5 GiB image of `hv0`. -/
theorem createVMVolume_size_mod_two_pow_64_witness :
    (createVMVolume cfgHuge hv0).res = .ok () ∧
    (createVMVolume cfgHuge hv0).st.vols = hv0.vols ++ [⟨"vm", 10 * 1024 ^ 3⟩] :=
  have h := createVMVolume_size_mod_two_pow_64 hv0 cfgHuge ⟨"img", 5 * unitG⟩ rfl
    (by decide) (by decide)
  ⟨h.1, (h.2.2.1 rfl).2.2.2.trans (by decide)⟩

end Virter
